import Mathlib

/-!
Verification development for the pulpo-bot warehouse-picking orchestrator.

The Python sources under `pulpoManager/` and `pulpoFunctions/` are embedded
shallowly: every function below is a direct translation of the corresponding
Python function (same name, same control flow).  External I/O (the WMS HTTP
API, the article service) is modelled by oracle fields of an `Env` record:
the answers the external systems would give are inputs of the model.  Python
`float` values are modelled as exact rationals (`ℚ`); all quantities in the
data under consideration are small decimals on which IEEE doubles and exact
rationals agree for every comparison performed by the code.  Python `dict`s
are modelled as insertion-ordered association lists, Python `set`s by lists
used only through membership.
-/

namespace Pulpo

/-! ## Dictionaries (Python `dict` over integer keys, insertion ordered) -/

/-- Association list standing for a Python `dict`.
Keys are unique by construction of the operations below; iteration order is
insertion order, as in Python. -/
abbrev Dict (κ β : Type) : Type := List (κ × β)

/-- `d[k]` lookup returning an `Option`. -/
def dictFind {κ β : Type} [BEq κ] (d : Dict κ β) (k : κ) : Option β :=
  match d.find? (fun p => p.1 == k) with
  | some p => some p.2
  | none => none

/-- `k in d`. -/
def dictMem {κ β : Type} [BEq κ] (d : Dict κ β) (k : κ) : Bool :=
  (dictFind d k).isSome

/-- `d.get(k, dflt)`. -/
def dictGetD {κ β : Type} [BEq κ] (d : Dict κ β) (k : κ) (dflt : β) : β :=
  (dictFind d k).getD dflt

/-- `d[k] = v`: replace the value at the first occurrence of `k`, keeping its
position (as Python dicts do), or append a fresh binding. -/
def dictSet {κ β : Type} [BEq κ] (d : Dict κ β) (k : κ) (v : β) : Dict κ β :=
  match d with
  | [] => [(k, v)]
  | (k', v') :: rest =>
    if k' == k then (k', v) :: rest else (k', v') :: dictSet rest k v

/-- `d[k] += v` for numeric dictionaries; no-op when the key is absent
(call sites guard with membership or are wrapped in `try` in the source). -/
def dictAdd {κ : Type} [BEq κ] (d : Dict κ ℚ) (k : κ) (v : ℚ) : Dict κ ℚ :=
  match dictFind d k with
  | some old => dictSet d k (old + v)
  | none => d

/-- `d[k] -= v`; no-op when the key is absent (the source call sites either
guard with `in` or sit inside a `try` whose handler just logs). -/
def dictSub {κ : Type} [BEq κ] (d : Dict κ ℚ) (k : κ) (v : ℚ) : Dict κ ℚ :=
  match dictFind d k with
  | some old => dictSet d k (old - v)
  | none => d

/-- Keys of a dictionary, in insertion order (`list(d.keys())`). -/
def dictKeys {κ β : Type} (d : Dict κ β) : List κ := d.map (·.1)

/-- Python `set` membership-with-insertion-order: add an element unless present. -/
def setAdd (s : List Nat) (x : Nat) : List Nat :=
  if s.contains x then s else s ++ [x]

/-- `set.update(xs)`. -/
def setUpdate (s : List Nat) (xs : List Nat) : List Nat :=
  xs.foldl setAdd s

/-! ## Python helpers: bankers' rounding, stable descending sort, strings -/

/-- Python 3 `round` to an integer: round-half-to-even (bankers' rounding). -/
def pyRound (q : ℚ) : ℤ :=
  let f : ℤ := ⌊q⌋
  let frac : ℚ := q - f
  if frac < 1/2 then f
  else if frac > 1/2 then f + 1
  else if f % 2 = 0 then f else f + 1

/-- `math.ceil (a / b)` on naturals (used with `b > 0` at call sites). -/
def pyCeilDiv (a b : Nat) : Nat := (a + b - 1) / b

/-- Stable insert for descending order: `x` is placed after every element
whose key is strictly greater, and before equal keys seen later.  This is the
behaviour of Python `sorted(..., reverse=True)` (a stable sort). -/
def insertDescBy {α : Type} (key : α → ℚ) (x : α) : List α → List α
  | [] => [x]
  | y :: ys => if key x ≥ key y then x :: y :: ys else y :: insertDescBy key x ys

/-- Stable sort, descending by `key`: Python `sorted(l, key=key, reverse=True)`. -/
def sortDescBy {α : Type} (key : α → ℚ) : List α → List α
  | [] => []
  | x :: xs => insertDescBy key x (sortDescBy key xs)

/-- `p` is a prefix of `l` (over characters). -/
def listIsPrefixOf (p l : List Char) : Bool :=
  match p, l with
  | [], _ => true
  | _ :: _, [] => false
  | a :: p', b :: l' => a == b && listIsPrefixOf p' l'

/-- Python `pat in s` substring test over characters. -/
def listContainsSub (pat l : List Char) : Bool :=
  match l with
  | [] => listIsPrefixOf pat []
  | _ :: t => listIsPrefixOf pat l || listContainsSub pat t

/-- Python `s.split(sep)` for a single separator character. -/
def splitOnChar (sep : Char) : List Char → List (List Char)
  | [] => [[]]
  | c :: rest =>
    let r := splitOnChar sep rest
    if c == sep then [] :: r
    else
      match r with
      | [] => [[c]]
      | w :: ws => (c :: w) :: ws

/-- Digit value of a character, `none` when not an ASCII digit. -/
def digitVal (c : Char) : Option Nat :=
  if '0' ≤ c ∧ c ≤ '9' then some (c.toNat - '0'.toNat) else none

/-- One step of digit accumulation. -/
def digitStep (acc : Option Nat) (c : Char) : Option Nat :=
  match acc, digitVal c with
  | some n, some d => some (n * 10 + d)
  | _, _ => none

/-- Parse a nonempty run of ASCII digits as a natural number. -/
def parseDigits (l : List Char) : Option Nat :=
  match l with
  | [] => none
  | _ => l.foldl digitStep (some 0)

/-- Unsigned decimal: `digits` or `digits.digits`. -/
def pyFloatCore (t : List Char) : Option ℚ :=
  match splitOnChar '.' t with
  | [ip] => (parseDigits ip).map (fun n => (n : ℚ))
  | [ip, fp] =>
    match parseDigits ip, parseDigits fp with
    | some n, some f => some ((n : ℚ) + (f : ℚ) / (10 : ℚ) ^ fp.length)
    | _, _ => none
  | _ => none

/-- Python `float(s)` restricted to plain decimal strings
`[-] digits [. digits]` (the only shapes reaching it in this code base).
Everything else fails with `ValueError`, modelled as `none`. -/
def pyFloat (s : List Char) : Option ℚ :=
  match s with
  | '-' :: rest => (pyFloatCore rest).map (fun q => -q)
  | _ => pyFloatCore s

/-! ## Configuration (`pulpoManager/config.py`) -/

def ALTRUAN_LIEFERDIENST : Nat := 807
def ABHOLUNG : Nat := 665
def PALETTENVERSAND : Nat := 604
def DB_SCHENKER : Nat := 605
def DB_SCHENKER_EUROPALETTE : Nat := 1097

def SPECIAL_SHIPPING_METHODS : List Nat :=
  [ALTRUAN_LIEFERDIENST, ABHOLUNG, PALETTENVERSAND, DB_SCHENKER,
   DB_SCHENKER_EUROPALETTE]

def TAG_IDENTIFIER_LABEL_SHARE : List Char := ['L', 'A', '_']
def QUEUE_STATE : String := "queue"
def RUNNING_DRY_NUM_ORDERS : Nat := 100
def RUNNING_DRY_DENOMINATOR : ℚ := 1/10

def BASE_NOTE : String := "Bot:"
def NOTE_BATCH : String := "Batch"
def NOTE_PLZ_FAR_RANGE : String := "PLZ 1-4"
def NOTE_YESTERDAY : String := "Vortag"
def NOTE_SWEEPER : String := "Rest"
def NOTE_SENI : String := "Seni"

def NOTE_S : String := "S (bis 0.25)"
def NOTE_M1 : String := "M1 (bis 0.5)"
def NOTE_M2 : String := "M2 (bis 1)"
def NOTE_L : String := "L (bis 3)"
def NOTE_XL : String := "XL (ab 3)"
def NOTE_PRIO : String := "PRIO"

def NOTE_ALTRUAN_LIEFERDIENST : String := "Altruan Lieferdienst"
def NOTE_ABHOLUNG : String := "Abholung"
def NOTE_DB_SCHENKER : String := "Palette"
def NOTE_PALETTE : String := "Palette"
def NOTE_PARTNERKUNDE : String := "Partnerkunde (Bitte Lieferschein ausdrucken)"

def NORMAL_PRIORITY_VALUE : Nat := 1
def GERMANY_COUNTRY_CODE : String := "276"
def PLZ_FAR_RANGE : List Char := ['1', '2', '3', '4']
def YESTERDAY_ORDERS_START_TIME : Nat := 0
def YESTERDAY_ORDERS_END_TIME : Nat := 24
def WORKING_DAYS : List Nat := [0, 1, 2, 3, 4]

/-- `LABEL_SHARE_DIVIDERS` with keys in ascending order, which is the order
`sorted(config.LABEL_SHARE_DIVIDERS.items())` produces. -/
def LABEL_SHARE_DIVIDERS : List (ℚ × String) :=
  [(1/4, NOTE_S), (1/2, NOTE_M1), (1, NOTE_M2), (3, NOTE_L), (9, NOTE_XL)]

def PALETTE_LABEL_SHARE : ℚ := 9
def TZMO_MANUFACTURER : Nat := 6468
def SENI_PRODUCTS_IDENTIFIER : List Char := ['S', 'e', 'n', 'i']

def MIN_BATCH_SIZE : Nat := 5
def MAX_BATCH_SIZE : Nat := 100
def MIN_BATCH_SIZE_SENI : Nat := 3

def NON_PRIO_THRESHOLD : Int := 10
def SWEEPING_MIN_ORDERS : Nat := 1

def PARTNERKUNDE_SALES_CHANNELS : List String := ["Partnerkunde (netto)"]

/-- One entry of the `PackageSizes` enum (`PackageSizeEntity`). -/
structure PackageSizeEntity where
  min : Nat
  max : Nat
  note : String
deriving DecidableEq, Repr

def SIZE_S : PackageSizeEntity := ⟨1, 10, NOTE_S⟩
def SIZE_M1 : PackageSizeEntity := ⟨1, 10, NOTE_M1⟩
def SIZE_M2 : PackageSizeEntity := ⟨1, 10, NOTE_M2⟩
def SIZE_L : PackageSizeEntity := ⟨1, 10, NOTE_L⟩
def SIZE_XL : PackageSizeEntity := ⟨1, 1, NOTE_XL⟩
def SIZE_XXL : PackageSizeEntity := ⟨1, 1, NOTE_PALETTE⟩

/-- Iteration order of `for size in PackageSizes` in
`picking_creation_carts` (the XXL member is skipped there by a `continue`). -/
def packageSizesWithoutXXL : List PackageSizeEntity :=
  [SIZE_S, SIZE_M1, SIZE_M2, SIZE_L, SIZE_XL]

/-! ## Data model (`pulpoFunctions/pulpoClasses.py`, fields used by the code) -/

/-- An order line.  In WMS data `item.product_id` and `item.product.id`
always coincide, so a single `product_id` field stands for both access
paths used by the source. -/
structure Item where
  product_id : Nat
  quantity : Nat
  sku : String
  product_name : String
  product_categories : List Nat
deriving DecidableEq, Repr

/-- A fulfillment order, restricted to the fields the manager reads.
`criterium` is the raw comma-separated tag string (as characters);
`zip` likewise.  `delivery_late` is the (pure) result of
`is_past_delivery_date`, i.e. whether the stored delivery date, shifted by
`CORRECTION_HOURS`, falls strictly before the current date; the `strptime`
date arithmetic itself is not re-modelled. -/
structure Order where
  sales_order_id : Nat
  state : String
  priority : Nat
  channel : String
  shipping_method_id : Nat
  criterium : List Char
  zip : List Char
  country_code : String
  delivery_late : Bool
  items : List Item
deriving DecidableEq, Repr

/-- The body posted to `POST picking/orders` by `create_picking`. -/
structure PickingOrder where
  sales_orders : List Nat
  orders_count : Nat
  pickers : List Nat
  cart : Bool
  notes : String
deriving DecidableEq, Repr

/-! ## `shared_functions.py`: PulpoUtils -/

/-- Loop body of `PulpoUtils.extract_size` for one tag: failures
(`IndexError` on short splits, `ValueError` in `float`) are caught and leave
the running value unchanged; a successfully decoded `LA_` tag overwrites it. -/
def extract_size_step (float_value : ℚ) (tag : List Char) : ℚ :=
  if listIsPrefixOf TAG_IDENTIFIER_LABEL_SHARE tag then
    match splitOnChar '_' tag with
    | _ :: p1 :: p2 :: _ =>
      match pyFloat (p1 ++ ['.'] ++ p2) with
      | some v => v
      | none => float_value
    | _ => float_value
  else float_value

/-- `PulpoUtils.extract_size`: decode the label share from the `LA_`-tagged
entry of `criterium`; `float_value` starts at `0.0`. -/
def extract_size (criterium : List Char) : ℚ :=
  let tags := splitOnChar ',' criterium
  tags.foldl extract_size_step 0

/-- `PulpoUtils.define_size_note`.  A zero (falsy) label share skips the
loop, so the function returns `NOTE_PALETTE` in that case. -/
def define_size_note (label_share : ℚ) : String :=
  if label_share ≠ 0 then
    let rec go : List (ℚ × String) → String
      | [] => NOTE_PALETTE
      | (label, size) :: rest => if label_share ≤ label then size else go rest
    go LABEL_SHARE_DIVIDERS
  else NOTE_PALETTE

/-- `PulpoUtils.is_order_prio`.  `plz[0]` is read as the head of the zip
character list; an empty zip yields `false` here (in the source the
`IndexError` would make the separator skip the order, which likewise
produces no pick for it). -/
def is_order_prio (hour weekday : Nat) (order : Order) : Bool :=
  let plzFar : Bool :=
    match order.zip with
    | [] => false
    | c :: _ => PLZ_FAR_RANGE.contains c
  if hour < YESTERDAY_ORDERS_START_TIME ∧ weekday ∈ WORKING_DAYS ∧
      order.country_code = GERMANY_COUNTRY_CODE ∧ plzFar ∧ order.delivery_late
  then true
  else if ((YESTERDAY_ORDERS_START_TIME ≤ hour ∧ hour ≤ YESTERDAY_ORDERS_END_TIME) ∨
      weekday ∉ WORKING_DAYS) ∧ order.delivery_late
  then true
  else if YESTERDAY_ORDERS_END_TIME < hour ∧ weekday ∈ WORKING_DAYS ∧
      order.country_code = GERMANY_COUNTRY_CODE ∧ plzFar
  then true
  else false

/-- `PulpoUtils.check_order_suitability`: only the queue-state check is live. -/
def check_order_suitability (order : Order) : Bool :=
  order.state = QUEUE_STATE

/-- `PulpoUtils.check_for_seni`. -/
def check_for_seni (order : Order) : Bool :=
  order.items.any (fun item =>
    item.product_categories.contains TZMO_MANUFACTURER ||
    listContainsSub SENI_PRODUCTS_IDENTIFIER item.product_name.data)

/-- `PulpoUtils.suitable_for_cart_creation`.
`skusToBatch` is the key set of the `skus_to_batch.json` dictionary. -/
def suitable_for_cart_creation (skusToBatch : List String)
    (order : Order) (is_sweeping_time : Bool) : Bool :=
  if is_sweeping_time then true
  else if order.items.any (fun item => skusToBatch.contains item.sku) then false
  else if extract_size order.criterium ≥ PALETTE_LABEL_SHARE then false
  else if SPECIAL_SHIPPING_METHODS.contains order.shipping_method_id then false
  else true

/-- `PulpoUtils.create_picking`: builds the body posted to
`POST picking/orders`.  A single-id list forces `cart = False`. -/
def create_picking (list_of_ids : List Nat) (note : String)
    (orders_count : Nat := 1) (cart : Bool := false)
    (pickers : List Nat := []) : PickingOrder :=
  let cart := if list_of_ids.length = 1 then false else cart
  { sales_orders := list_of_ids, orders_count := orders_count,
    pickers := pickers, cart := cart, notes := note }

/-- `PulpoUtils.choose_picker`: the whole key list when the distribution has
at most one entry, else the first key with the minimal pick count (Python's
stable ascending sort followed by `next(iter(...))`). -/
def choose_picker (picks_distribution : Dict Nat Nat) : List Nat :=
  if picks_distribution.length ≤ 1 then dictKeys picks_distribution
  else
    match picks_distribution with
    | [] => []
    | first :: rest =>
      [(rest.foldl (fun best x => if x.2 < best.2 then x else best) first).1]

/-- `PulpoUtils.create_picks_per_user_distribution`, with the WMS pick count
per user supplied by the oracle `numPicksForUser`
(`find_num_picks_for_user`). -/
def create_picks_per_user_distribution (numPicksForUser : Nat → Nat)
    (pickers : List Nat) : Dict Nat Nat :=
  pickers.foldl (fun dist user_id => dictSet dist user_id (numPicksForUser user_id)) []

/-! ## `note_creator.py`: NoteCreator -/

/-- Python truthiness of an optional string (`None` and `""` are falsy). -/
def optStrTruthy : Option String → Bool
  | some s => s ≠ ""
  | none => false

/-- Python truthiness of an optional numeric value (`None` and `0` are falsy). -/
def optNumTruthy : Option ℚ → Bool
  | some q => q ≠ 0
  | none => false

/-- Rendering of a numeric value inside an f-string.  Quantities are modelled
as exact rationals, so the exact digits of Python's float rendering are not
reproduced; no claim concerns the rendering of the number itself. -/
def pyNumRepr (q : ℚ) : String := toString q

/-- Constructor state of `NoteCreator` (the `orders` context list plus the
flags and the clock fields the instance reads). -/
structure NoteCtx where
  orders : List Order
  is_prio : Bool := false
  is_batch : Bool := false
  sweeping_time : Bool := false
  hour : Nat
  weekday : Nat
deriving Repr

/-- `NoteCreator.contains_seni_products`. -/
def contains_seni_products (orders : List Order) (cart : List Nat) : Bool :=
  cart.any (fun order_id =>
    orders.any (fun order => order.sales_order_id == order_id && check_for_seni order))

/-- `NoteCreator.add_special_shipping_method` (`None` when no special method). -/
def add_special_shipping_method (order : Order) : Option String :=
  if order.shipping_method_id = ALTRUAN_LIEFERDIENST then some NOTE_ALTRUAN_LIEFERDIENST
  else if order.shipping_method_id = ABHOLUNG then some NOTE_ABHOLUNG
  else if order.shipping_method_id = DB_SCHENKER then some NOTE_DB_SCHENKER
  else if order.shipping_method_id = DB_SCHENKER_EUROPALETTE then some NOTE_PALETTE
  else none

/-- `NoteCreator.get_size_note`. -/
def get_size_note (order : Order) : String :=
  define_size_note (extract_size order.criterium)

/-- `NoteCreator.create_base_of_priority_note`. -/
def create_base_of_priority_note (hour weekday : Nat) : String :=
  if (YESTERDAY_ORDERS_START_TIME ≤ hour ∧ hour ≤ YESTERDAY_ORDERS_END_TIME) ∨
      weekday ∉ WORKING_DAYS
  then NOTE_YESTERDAY
  else NOTE_PLZ_FAR_RANGE

/-- The `if not size_note and single_order: size_note = get_size_note(...)`
defaulting at the top of `create_note`. -/
def effective_size_note (size_note : Option String) (single_order : Option Order) :
    Option String :=
  if ¬ optStrTruthy size_note ∧ single_order.isSome then
    match single_order with
    | some o => some (get_size_note o)
    | none => size_note
  else size_note

/-- `NoteCreator.create_note`, block by block in source order. -/
def create_note (ctx : NoteCtx) (list_of_ids : List Nat)
    (single_order : Option Order := none) (size_note : Option String := none)
    (batched_quantity : Option ℚ := none) (batched_product : Option String := none)
    (shelf : Option String := none) : String :=
  let note := BASE_NOTE
  let size_note := effective_size_note size_note single_order
  let note :=
    if contains_seni_products ctx.orders list_of_ids then
      note ++ " " ++ NOTE_SENI
    else note
  let note :=
    match single_order with
    | some o =>
      if o.priority > NORMAL_PRIORITY_VALUE then
        note ++ " " ++ NOTE_PRIO ++ " " ++ toString o.priority
      else if ctx.is_prio then
        note ++ " " ++ create_base_of_priority_note ctx.hour ctx.weekday
      else note
    | none =>
      if ctx.is_prio then note ++ " " ++ create_base_of_priority_note ctx.hour ctx.weekday
      else note
  let note := if ctx.is_batch then note ++ " " ++ NOTE_BATCH else note
  let note :=
    match single_order with
    | some o =>
      match add_special_shipping_method o with
      | some special => note ++ " " ++ special
      | none => note
    | none => note
  let note :=
    match single_order with
    | some o =>
      if PARTNERKUNDE_SALES_CHANNELS.contains o.channel then
        note ++ " " ++ NOTE_PARTNERKUNDE
      else note
    | none => note
  let note :=
    if ctx.sweeping_time ∧ ctx.is_prio then note ++ " " ++ NOTE_SWEEPER else note
  let note :=
    match size_note with
    | some s => if s ≠ "" then note ++ " " ++ s else note
    | none => note
  let note :=
    if optNumTruthy batched_quantity ∧ optStrTruthy batched_product then
      note ++ " " ++ pyNumRepr (batched_quantity.getD 0) ++ " " ++
        (batched_product.getD "")
    else note
  let note :=
    match shelf with
    | some s => if s ≠ "" then note ++ " " ++ s else note
    | none => note
  let note :=
    if ctx.sweeping_time ∧ ctx.is_prio then
      note ++ " " ++ toString list_of_ids.length
    else note
  note

/-! ## Environment: answers of the external systems consulted during a run -/

/-- The picker rosters loaded from blob storage. -/
structure Rosters where
  partnerkunden : List Nat
  palettenversand : List Nat
deriving DecidableEq, Repr

/-- Everything the run reads from outside (WMS responses, the article
service, the static `skus_to_batch.json`, the clock): these answers are
inputs of the model. -/
structure Env where
  hour : Nat
  weekday : Nat
  is_sweeping_time : Bool
  /-- `find_num_picks_for_user`: queue picks per owner. -/
  numPicksForUser : Nat → Nat
  /-- `check_picking`: number of picking orders in states queue and taken. -/
  existing_picking_orders : Nat
  /-- `skus_to_batch.json`: sku ↦ (product id, separate_batch_from). -/
  skusToBatch : List (String × Nat × Nat)
  /-- WMS `inventory/products/{id}.units_per_pallet` (`0` for null/absent). -/
  productUnitsPerPallet : Nat → Nat
  /-- `find_article_info`: units per pallet derived from the article service
  (`0` when not determinable). -/
  weclappUnits : Nat → Nat
  /-- WMS product name. -/
  productName : Nat → String
  /-- `check_stock(product_id)`: WMS stock sum over the picking zones. -/
  wmsStock : Nat → ℚ
  /-- The Shelves Indexer output: shelf code ↦ product ids on the shelf. -/
  shelvesIndex : List (String × List Nat)

/-- Key list of `skus_to_batch.json` (used by `suitable_for_cart_creation`). -/
def skusToBatchKeys (env : Env) : List String := env.skusToBatch.map (·.1)

/-- `special_ids_to_batch`: `[sku["id"] for sku in skus_to_batch.values()]`. -/
def special_ids_to_batch (env : Env) : List Nat := env.skusToBatch.map (·.2.1)

/-! ## `separation.py`: PulpoSeparator -/

/-- `PulpoSeparator.check_availability_locally`, inner loop over the items.
Faithful to the source: the first item whose product is missing from the
snapshot returns `False`, the first item whose snapshot quantity covers its
own quantity returns `True` (without looking at the remaining items). -/
def check_availability_locally_items (product_stock : Dict Nat ℚ) : List Item → Bool
  | [] => false
  | item :: rest =>
    match dictFind product_stock item.product_id with
    | none => false
    | some s =>
      if s ≥ (item.quantity : ℚ) then true
      else check_availability_locally_items product_stock rest

/-- `PulpoSeparator.check_availability_locally`. -/
def check_availability_locally (product_stock : Dict Nat ℚ) (order : Order) : Bool :=
  check_availability_locally_items product_stock order.items

/-- `dist[picker_id] += 1` on a pick-count distribution (key present at the
source call sites; an absent key would raise `KeyError`, handled by the
caller). -/
def distIncr (dist : Dict Nat Nat) (picker_id : Nat) : Dict Nat Nat :=
  match dictFind dist picker_id with
  | some n => dictSet dist picker_id (n + 1)
  | none => dist

/-- `PulpoSeparator.create_assigned_picking`.  Returns the posted picking
order together with the picker id the function returns; `none` in the second
component models the `IndexError` that `self.partnerkunde_pickers[0]` raises
on an empty Partnerkunde roster — note that the pick has been posted by then.
Faithful to the source slip: the `len(pickers) <= 1` branch attaches and
indexes `self.partnerkunde_pickers`, not the `pickers` argument. -/
def create_assigned_picking (hour weekday : Nat) (order : Order)
    (pickers : List Nat) (pickers_distribution : Dict Nat Nat)
    (partnerkunde_pickers : List Nat) (size_note : Option String := none)
    (is_prio : Bool := false) : PickingOrder × Option Nat :=
  let ctx : NoteCtx :=
    { orders := [order], is_prio := is_prio, hour := hour, weekday := weekday }
  let note := create_note ctx [order.sales_order_id] (some order) size_note
  if pickers.length ≤ 1 then
    let pick := create_picking [order.sales_order_id] note 1 false partnerkunde_pickers
    match partnerkunde_pickers with
    | [] => (pick, none)
    | p :: _ => (pick, some p)
  else
    let picker := choose_picker pickers_distribution
    let pick := create_picking [order.sales_order_id] note 1 false picker
    match picker with
    | [] => (pick, none)
    | p :: _ => (pick, some p)

/-- Result of `single_picks_creation`: `created`/`notCreated` are the two
boolean returns; `raised` models an exception escaping to the `except`
handler of `PulpoSeparator.main` (the order is then dropped, but picks
posted before the exception stay posted). -/
inductive SingleOutcome
  | created
  | notCreated
  | raised
deriving DecidableEq, Repr

/-- `PulpoSeparator.single_picks_creation`.  Returns the picks posted, the
updated two distributions, and the control-flow outcome. -/
def single_picks_creation (hour weekday : Nat) (rosters : Rosters)
    (partDist palDist : Dict Nat Nat) (order : Order) (is_prio : Bool) :
    List PickingOrder × Dict Nat Nat × Dict Nat Nat × SingleOutcome :=
  let label_share := extract_size order.criterium
  if PARTNERKUNDE_SALES_CHANNELS.contains order.channel then
    let (pick, pid?) := create_assigned_picking hour weekday order
      rosters.partnerkunden partDist rosters.partnerkunden none is_prio
    match pid? with
    | none => ([pick], partDist, palDist, .raised)
    | some picker_id =>
      if picker_id ≠ 0 then
        if dictMem partDist picker_id then
          ([pick], distIncr partDist picker_id, palDist, .created)
        else ([pick], partDist, palDist, .raised)
      else ([pick], partDist, palDist, .notCreated)
  else if order.priority > NORMAL_PRIORITY_VALUE then
    let ctx : NoteCtx := { orders := [order], hour := hour, weekday := weekday }
    let note := create_note ctx [order.sales_order_id] (some order)
    let pick := create_picking [order.sales_order_id] note 1 false
    ([pick], partDist, palDist, .created)
  else if label_share ≥ PALETTE_LABEL_SHARE ∨
      SPECIAL_SHIPPING_METHODS.contains order.shipping_method_id then
    let (pick, pid?) := create_assigned_picking hour weekday order
      rosters.palettenversand palDist rosters.partnerkunden (some NOTE_PALETTE) is_prio
    match pid? with
    | none => ([pick], partDist, palDist, .raised)
    | some picker_id =>
      if picker_id ≠ 0 then
        if dictMem palDist picker_id then
          ([pick], partDist, distIncr palDist picker_id, .created)
        else ([pick], partDist, palDist, .raised)
      else ([pick], partDist, palDist, .notCreated)
  else ([], partDist, palDist, .notCreated)

/-- State of `PulpoSeparator` while iterating the queue. -/
structure SepState where
  emitted : List PickingOrder
  partnerkunde_pickers_distribution : Dict Nat Nat
  palette_pickers_distribution : Dict Nat Nat
  orders_count : Nat
  prio_orders_for_batches : List Order
  prio_orders_without_seni : List Order
  seni_prio_orders : List Order
  orders_for_batches : List Order
  orders_without_seni : List Order
  seni_orders : List Order

/-- One loop iteration of `PulpoSeparator.main` for one queue order.
`product_stock` is the pre-run snapshot (read, never written here). -/
def separator_step (env : Env) (rosters : Rosters) (product_stock : Dict Nat ℚ)
    (st : SepState) (order : Order) : SepState :=
  if check_order_suitability order && check_availability_locally product_stock order then
    let st := { st with orders_count := st.orders_count + 1 }
    let prio := is_order_prio env.hour env.weekday order
    let contains_seni := check_for_seni order
    let suitable_for_carts :=
      suitable_for_cart_creation (skusToBatchKeys env) order env.is_sweeping_time
    let (picks, partDist, palDist, outcome) :=
      single_picks_creation env.hour env.weekday rosters
        st.partnerkunde_pickers_distribution st.palette_pickers_distribution order prio
    let st := { st with
      emitted := st.emitted ++ picks,
      partnerkunde_pickers_distribution := partDist,
      palette_pickers_distribution := palDist }
    match outcome with
    | .created => st
    | .raised => st
    | .notCreated =>
      if prio then
        let st := { st with
          prio_orders_for_batches := st.prio_orders_for_batches ++ [order] }
        if suitable_for_carts then
          if contains_seni then
            { st with seni_prio_orders := st.seni_prio_orders ++ [order] }
          else
            { st with prio_orders_without_seni := st.prio_orders_without_seni ++ [order] }
        else st
      else
        let st := { st with orders_for_batches := st.orders_for_batches ++ [order] }
        if suitable_for_carts then
          if contains_seni then
            { st with seni_orders := st.seni_orders ++ [order] }
          else
            { st with orders_without_seni := st.orders_without_seni ++ [order] }
        else st
  else st

/-- `PulpoSeparator`: construction (`get_picks_distribution`) followed by
`main` over the queued fulfillment orders. -/
def separator_main (env : Env) (rosters : Rosters) (product_stock : Dict Nat ℚ)
    (queue : List Order) : SepState :=
  let init : SepState :=
    { emitted := []
      partnerkunde_pickers_distribution :=
        create_picks_per_user_distribution env.numPicksForUser rosters.partnerkunden
      palette_pickers_distribution :=
        create_picks_per_user_distribution env.numPicksForUser rosters.palettenversand
      orders_count := 0
      prio_orders_for_batches := []
      prio_orders_without_seni := []
      seni_prio_orders := []
      orders_for_batches := []
      orders_without_seni := []
      seni_orders := [] }
  queue.foldl (separator_step env rosters product_stock) init

/-! ## `batching_flow.py`: PulpoBatchingManager -/

/-- Mutable state of `PulpoBatchingManager` (persists across the priority and
the non-priority invocation), together with the global emission list and the
shared `product_stock` dictionary. -/
structure BatchState where
  emitted : List PickingOrder
  processed_orders : List Nat
  product_stock : Dict Nat ℚ
  seni_ids : List Nat

/-- `check_stock_locally`. -/
def check_stock_locally (product_stock : Dict Nat ℚ) (product_id : Nat) : ℚ :=
  dictGetD product_stock product_id 0

/-- `check_if_seni`: appends the product id to `seni_ids` once per matching
category and once more on a name match, as the source does. -/
def check_if_seni (seni_ids : List Nat) (item : Item) : List Nat :=
  let seni_ids := seni_ids ++
    (item.product_categories.filter (fun c => c == TZMO_MANUFACTURER)).map
      (fun _ => item.product_id)
  if listContainsSub SENI_PRODUCTS_IDENTIFIER item.product_name.data then
    seni_ids ++ [item.product_id]
  else seni_ids

/-- `find_single_sku_orders`: per-product counts of single-item orders, and
the `seni_ids` side effect. -/
def find_single_sku_orders (orders_to_include : List Order) (seni_ids : List Nat) :
    Dict Nat Nat × List Nat :=
  orders_to_include.foldl (fun acc order =>
    match order.items with
    | [item] =>
      let seni := check_if_seni acc.2 item
      (dictSet acc.1 item.product_id (dictGetD acc.1 item.product_id 0 + 1), seni)
    | _ => acc) ([], seni_ids)

/-- `get_batch_size`: the Seni/regular minimum, scaled by
`RUNNING_DRY_DENOMINATOR` when running dry and passed through Python's
bankers' `round`. -/
def get_batch_size (seni_ids : List Nat) (is_running_dry : Bool)
    (product_id : Nat) : ℤ :=
  let min_batch_size : Nat :=
    if seni_ids.contains product_id then MIN_BATCH_SIZE_SENI else MIN_BATCH_SIZE
  let min_batch_size : ℚ :=
    if is_running_dry then min_batch_size * RUNNING_DRY_DENOMINATOR
    else min_batch_size
  pyRound min_batch_size

/-- `find_products_to_batch`: product ids whose single-item order count meets
the minimum batch size; also returns the updated `seni_ids`. -/
def find_products_to_batch (orders_to_include : List Order) (seni_ids : List Nat)
    (is_running_dry : Bool) : List Nat × List Nat :=
  let (orders_count, seni') := find_single_sku_orders orders_to_include seni_ids
  let product_ids_to_batch := (orders_count.filter
    (fun p => (p.2 : ℤ) ≥ get_batch_size seni' is_running_dry p.1)).map (·.1)
  (product_ids_to_batch, seni')

/-- `extract_quantities`: `{sales_order_id: quantity}` over the single-item
orders of the product, sorted by quantity in descending order (stable). -/
def extract_quantities (orders_to_include : List Order) (product_id : Nat) :
    Dict Nat Nat :=
  let orders := orders_to_include.foldl (fun acc order =>
    match order.items with
    | [item] =>
      if item.product_id == product_id then
        dictSet acc order.sales_order_id item.quantity
      else acc
    | _ => acc) []
  sortDescBy (fun p => (p.2 : ℚ)) orders

/-- `extract_max_units_per_palette`: the WMS value when positive, else the
article-service value when positive, else `float("inf")` (`none`). -/
def extract_max_units_per_palette (env : Env) (product_id : Nat) : Option Nat :=
  if env.productUnitsPerPallet product_id > 0 then
    some (env.productUnitsPerPallet product_id)
  else if env.weclappUnits product_id > 0 then some (env.weclappUnits product_id)
  else none

/-- `total_quantity <= max_units_per_palette` (`inf` compares greater). -/
def leMaxUnits (q : ℚ) (max_units : Option Nat) : Bool :=
  match max_units with
  | none => true
  | some m => q ≤ (m : ℚ)

/-- `batched_quantity + quantity > max_units_per_palette`. -/
def gtMaxUnits (q : ℚ) (max_units : Option Nat) : Bool :=
  match max_units with
  | none => false
  | some m => q > (m : ℚ)

/-- `total_quantity // max_units_per_palette` (`x // inf == 0.0`). -/
def floorDivMaxUnits (q : ℚ) (max_units : Option Nat) : ℤ :=
  match max_units with
  | none => 0
  | some m => ⌊q / (m : ℚ)⌋

/-- `is_batch_size_sufficient`: scan the descending order dictionary, adding
the orders that still fit cumulatively strictly under `total_quantity`
(which is the current stock at the call site). -/
def is_batch_size_sufficient (total_quantity : ℚ) (orders : Dict Nat Nat)
    (min_batch_size : ℤ) : Bool :=
  let result := orders.foldl (fun (acc : List Nat × Nat) p =>
    if ((acc.2 + p.2 : Nat) : ℚ) < total_quantity then
      (acc.1 ++ [p.1], acc.2 + p.2)
    else acc) ([], 0)
  (result.1.length : ℤ) > min_batch_size

/-- `find_palette_separation_value`: first `skus_to_batch` entry with the
given product id (the source returns `None` when absent, which would fault
at the comparison in the caller; callers only reach this with special ids). -/
def find_palette_separation_value (env : Env) (product_id : Nat) : Option Nat :=
  match env.skusToBatch.find? (fun e => e.2.1 == product_id) with
  | some e => some e.2.2
  | none => none

/-- `special_palette_batching`, one loop iteration at a time over the
descending `{order_id: quantity}` list; returns the remaining
`total_quantity` and the updated state. -/
def special_palette_batching (ctx : NoteCtx) (product_name : String)
    (separate_batch_from_quantity : Nat) (product_id : Nat) :
    List (Nat × Nat) → ℚ → BatchState → ℚ × BatchState
  | [], total_quantity, st => (total_quantity, st)
  | (order_id, quantity) :: rest, total_quantity, st =>
    if total_quantity ≤ 0 then (total_quantity, st)
    else if separate_batch_from_quantity ≤ quantity ∧
        (quantity : ℚ) ≤ total_quantity ∧
        ¬ st.processed_orders.contains order_id then
      let note := create_note ctx [order_id] none none (some (quantity : ℚ))
        (some product_name)
      let pick := create_picking [order_id] note 1 false
      let st := { st with
        emitted := st.emitted ++ [pick],
        processed_orders := setAdd st.processed_orders order_id,
        product_stock := dictSub st.product_stock product_id (quantity : ℚ) }
      special_palette_batching ctx product_name separate_batch_from_quantity
        product_id rest (total_quantity - (quantity : ℚ)) st
    else
      special_palette_batching ctx product_name separate_batch_from_quantity
        product_id rest total_quantity st

/-- Inner fill loop of `split_batches`: walk the descending order list,
skipping processed orders, stopping when the next order would exceed the
pallet maximum or when `MAX_BATCH_SIZE` is reached.  Returns the id set (in
insertion order) and the batched quantity. -/
def split_batches_fill (processed_orders : List Nat) (max_units : Option Nat) :
    List (Nat × Nat) → List Nat → ℚ → List Nat × ℚ
  | [], ids_to_batch, batched_quantity => (ids_to_batch, batched_quantity)
  | (order_id, quantity) :: rest, ids_to_batch, batched_quantity =>
    if processed_orders.contains order_id then
      split_batches_fill processed_orders max_units rest ids_to_batch batched_quantity
    else if gtMaxUnits (batched_quantity + (quantity : ℚ)) max_units then
      (ids_to_batch, batched_quantity)
    else if ids_to_batch.length ≥ MAX_BATCH_SIZE then
      (ids_to_batch, batched_quantity)
    else
      split_batches_fill processed_orders max_units rest
        (setAdd ids_to_batch order_id) (batched_quantity + (quantity : ℚ))

/-- One iteration of the `for batch in range(...)` loop of `split_batches`:
fill a batch from the not-yet-processed orders and post it when nonempty. -/
def split_batches_round (ctx : NoteCtx) (product_name : String)
    (orders : Dict Nat Nat) (max_units : Option Nat) (st : BatchState) :
    BatchState :=
  let (ids_to_batch, batched_quantity) :=
    split_batches_fill st.processed_orders max_units orders [] 0
  if ids_to_batch ≠ [] then
    let note := create_note ctx ids_to_batch none none (some batched_quantity)
      (some product_name)
    let pick := create_picking ids_to_batch note 1 false
    { st with
      emitted := st.emitted ++ [pick],
      processed_orders := setUpdate st.processed_orders ids_to_batch }
  else st

/-- `split_batches`.  Note: the source updates `processed_orders` after each
posted batch but never decrements `product_stock` here. -/
def split_batches (ctx : NoteCtx) (product_name : String) (orders : Dict Nat Nat)
    (total_quantity : ℚ) (max_units : Option Nat) (st : BatchState) : BatchState :=
  let num_batches_by_articles := floorDivMaxUnits total_quantity max_units
  let num_batches_by_orders : ℤ := (orders.length / MAX_BATCH_SIZE : Nat)
  let num_batches := min num_batches_by_articles num_batches_by_orders
  (List.range num_batches.toNat).foldl (fun st _ =>
    split_batches_round ctx product_name orders max_units st) st

/-- `regular_batching`: a single batch when everything fits on one pallet and
under `MAX_BATCH_SIZE`, otherwise `split_batches`. -/
def regular_batching (ctx : NoteCtx) (product_name : String)
    (max_units : Option Nat) (total_quantity : ℚ) (orders : Dict Nat Nat)
    (product_id : Nat) (st : BatchState) : BatchState :=
  if leMaxUnits total_quantity max_units ∧ orders.length ≤ MAX_BATCH_SIZE then
    let list_of_ids := dictKeys orders
    let note := create_note ctx list_of_ids none none (some total_quantity)
      (some product_name)
    let pick := create_picking list_of_ids note 1 false
    { st with
      emitted := st.emitted ++ [pick],
      processed_orders := setUpdate st.processed_orders list_of_ids,
      product_stock := dictSub st.product_stock product_id total_quantity }
  else split_batches ctx product_name orders total_quantity max_units st

/-- `special_batching`: palette picks for the large orders first, then
regular batching over the orders not yet processed. -/
def special_batching (env : Env) (ctx : NoteCtx) (product_name : String)
    (max_units : Option Nat) (total_quantity : ℚ) (orders : Dict Nat Nat)
    (product_id : Nat) (min_batch_size : ℤ) (st : BatchState) : BatchState :=
  match find_palette_separation_value env product_id with
  | none => st
  | some separate_batch_from_quantity =>
    let (total', st') := special_palette_batching ctx product_name
      separate_batch_from_quantity product_id orders total_quantity st
    let left_orders := orders.filter (fun p => ¬ st'.processed_orders.contains p.1)
    if left_orders.length > 0 ∧ total' > (min_batch_size : ℚ) then
      regular_batching ctx product_name max_units total' left_orders product_id st'
    else st'

/-- `batching_products`: stock check with optional truncation, then the
special or regular regime. -/
def batching_products (env : Env) (orders_to_include : List Order)
    (is_prio is_running_dry : Bool) (st : BatchState) (product_id : Nat) :
    BatchState :=
  let max_units := extract_max_units_per_palette env product_id
  let product_name := env.productName product_id
  let min_batch_size := get_batch_size st.seni_ids is_running_dry product_id
  let orders := extract_quantities orders_to_include product_id
  let total_quantity : ℚ := ((orders.map (·.2)).sum : Nat)
  let current_stock := check_stock_locally st.product_stock product_id
  let ctx : NoteCtx :=
    { orders := orders_to_include
      is_prio := is_prio
      is_batch := true
      hour := env.hour
      weekday := env.weekday }
  let total? : Option ℚ :=
    if total_quantity > current_stock then
      if is_batch_size_sufficient current_stock orders min_batch_size then
        some current_stock
      else none
    else some total_quantity
  match total? with
  | none => st
  | some total_quantity =>
    if (special_ids_to_batch env).contains product_id then
      special_batching env ctx product_name max_units total_quantity orders
        product_id min_batch_size st
    else
      regular_batching ctx product_name max_units total_quantity orders
        product_id st

/-- `PulpoBatchingManager.main`. -/
def batching_main (env : Env) (orders_to_include : List Order)
    (is_prio is_running_dry : Bool) (st : BatchState) : BatchState :=
  let (product_ids_to_batch, seni') :=
    find_products_to_batch orders_to_include st.seni_ids is_running_dry
  let st := { st with seni_ids := seni' }
  product_ids_to_batch.foldl
    (batching_products env orders_to_include is_prio is_running_dry) st

/-! ## `carts/`: PulpoCartsManager, CartsCreatorShelves, CartsCreatorRandom -/

/-- Warehouse space for further carts: `none` is `PRIO_THRESHOLD`
(`float("inf")`), `some z` the (possibly negative) integer
`NON_PRIO_THRESHOLD - existing picking orders`. -/
abbrev Space : Type := Option ℤ

/-- `space_left > 0`. -/
def spaceGtZero : Space → Bool
  | none => true
  | some z => z > 0

/-- `space_left == 0`. -/
def spaceEqZero : Space → Bool
  | none => false
  | some z => z == 0

/-- `space_left -= 1`. -/
def spaceDec : Space → Space
  | none => none
  | some z => some (z - 1)

/-- Shared mutable state of `PulpoCartsManager` and the two cart creators
(the creators alias the manager's `processed_orders` list and
`product_stock` dict). -/
structure CartsState where
  emitted : List PickingOrder
  processed_orders : List Nat
  product_stock : Dict Nat ℚ
  no_space_left : Bool

/-- `PulpoCartsManager.check_space`. -/
def check_space (env : Env) (is_prio : Bool) (st : CartsState) : Space × CartsState :=
  if is_prio then (none, st)
  else
    let count_picking_orders := env.existing_picking_orders
    let left_space : ℤ := NON_PRIO_THRESHOLD - count_picking_orders
    if left_space < 0 then (some left_space, { st with no_space_left := true })
    else (some left_space, st)

/-- `PulpoCartsManager.select_orders_by_size`. -/
def select_orders_by_size (processed_orders : List Nat) (orders : List Order)
    (size : String) : List Order :=
  orders.foldl (fun acc order =>
    if processed_orders.contains order.sales_order_id then acc
    else
      let label_share := extract_size order.criterium
      let note : Option String :=
        if label_share ≠ 0 then some (define_size_note label_share) else none
      match note with
      | some n => if n ≠ "" ∧ n = size then acc ++ [order] else acc
      | none => acc) []

/-- `PulpoCartsManager.remove_processed_orders` (the reversed-iteration
`list.remove` loop amounts to dropping the processed orders). -/
def remove_processed_orders (processed_orders : List Nat) (orders : List Order) :
    List Order :=
  orders.filter (fun order => ¬ processed_orders.contains order.sales_order_id)

/-- `PulpoCartCommon.is_order_fully_available`.  Missing products are fetched
from the WMS (`check_stock`) and written into the shared stock dictionary,
also when the function eventually answers `False`. -/
def is_order_fully_available (env : Env) (all_products : Dict Nat ℚ) :
    List Item → Dict Nat ℚ → Bool × Dict Nat ℚ
  | [], product_stock => (true, product_stock)
  | item :: rest, product_stock =>
    let fetched :=
      match dictFind product_stock item.product_id with
      | none =>
        (env.wmsStock item.product_id,
         dictSet product_stock item.product_id (env.wmsStock item.product_id))
      | some s => (s, product_stock)
    let quantity_in_cart := (item.quantity : ℚ) + dictGetD all_products item.product_id 0
    if fetched.1 < quantity_in_cart then (false, fetched.2)
    else is_order_fully_available env all_products rest fetched.2

/-- `PulpoCartCommon.update_products_dictionary`. -/
def update_products_dictionary (all_products : Dict Nat ℚ) (order_to_add : Order) :
    Dict Nat ℚ :=
  order_to_add.items.foldl (fun ap item =>
    if dictMem ap item.product_id then dictAdd ap item.product_id (item.quantity : ℚ)
    else dictSet ap item.product_id (item.quantity : ℚ)) all_products

/-- `PulpoCartCommon.update_stock_dictionary`. -/
def update_stock_dictionary (orders : List Order) (cart : List Nat)
    (product_stock : Dict Nat ℚ) : Dict Nat ℚ :=
  cart.foldl (fun stock order_id =>
    orders.foldl (fun stock order =>
      if order_id == order.sales_order_id then
        order.items.foldl (fun stock item =>
          if dictMem stock item.product_id then
            dictSub stock item.product_id (item.quantity : ℚ)
          else stock) stock
      else stock) stock) product_stock

/-- `PulpoCartCommon.create_cart`: size-bound check (with running-dry scaling
and the sweeping override), then the posted cart picking order. -/
def create_cart (orders : List Order) (is_prio is_sweeping_time is_running_dry : Bool)
    (hour weekday : Nat) (new_cart : List Nat) (size : PackageSizeEntity)
    (shelf : String) (st : CartsState) : Bool × CartsState :=
  let cart_minimum : ℚ :=
    if is_running_dry then (size.min : ℚ) * RUNNING_DRY_DENOMINATOR else size.min
  let cart_minimum : ℚ :=
    if is_prio ∧ is_sweeping_time then SWEEPING_MIN_ORDERS else cart_minimum
  if (new_cart.length : ℚ) ≥ cart_minimum ∧ new_cart.length ≤ size.max then
    let ctx : NoteCtx :=
      { orders := orders
        is_prio := is_prio
        sweeping_time := is_sweeping_time
        hour := hour
        weekday := weekday }
    let note := create_note ctx new_cart none (some size.note) none none (some shelf)
    let pick := create_picking new_cart note 1 true
    (true, { st with emitted := st.emitted ++ [pick] })
  else (false, st)

/-- `CartsCreatorShelves.order_has_products_on_shelf`. -/
def order_has_products_on_shelf (order : Order) (products_from_the_shelf : List Nat) :
    Bool :=
  order.items.any (fun item => products_from_the_shelf.contains item.product_id)

/-- `CartsCreatorShelves.fill_cart_from_shelf`, iterating the creator's
order list with the running cart, the `all_products_in_cart` dictionary and
the shared stock dictionary (which `is_order_fully_available` may extend). -/
def fill_cart_from_shelf (env : Env) (processed_orders : List Nat)
    (max_cart_size : Nat) (products_from_the_shelf : List Nat) :
    List Order → List Nat → Dict Nat ℚ → Dict Nat ℚ →
    List Nat × Dict Nat ℚ
  | [], new_cart, _, product_stock => (new_cart, product_stock)
  | order :: rest, new_cart, all_products_in_cart, product_stock =>
    if new_cart.length ≥ max_cart_size then (new_cart, product_stock)
    else if ¬ processed_orders.contains order.sales_order_id ∧
        ¬ new_cart.contains order.sales_order_id ∧
        order_has_products_on_shelf order products_from_the_shelf then
      let avail := is_order_fully_available env all_products_in_cart order.items
        product_stock
      if avail.1 then
        fill_cart_from_shelf env processed_orders max_cart_size
          products_from_the_shelf rest (new_cart ++ [order.sales_order_id])
          (update_products_dictionary all_products_in_cart order) avail.2
      else
        fill_cart_from_shelf env processed_orders max_cart_size
          products_from_the_shelf rest new_cart all_products_in_cart avail.2
    else
      fill_cart_from_shelf env processed_orders max_cart_size
        products_from_the_shelf rest new_cart all_products_in_cart product_stock

/-- `CartsCreatorShelves.find_shelves_frequency_per_order`: the set of
shelves hosting any product of the order (insertion order of the index). -/
def find_shelves_frequency_per_order (shelvesIndex : List (String × List Nat))
    (order : Order) : List String :=
  order.items.foldl (fun acc item =>
    shelvesIndex.foldl (fun acc p =>
      if p.2.contains item.product_id ∧ ¬ acc.contains p.1 then acc ++ [p.1]
      else acc) acc) []

/-- `CartsCreatorShelves.find_total_shelves_frequency`: aggregate shelf
frequencies over the orders and sort descending (stable). -/
def find_total_shelves_frequency (shelvesIndex : List (String × List Nat))
    (orders : List Order) : Dict String Nat :=
  let shelves_frequency := orders.foldl (fun freq order =>
    (find_shelves_frequency_per_order shelvesIndex order).foldl (fun freq shelf =>
      dictSet freq shelf (dictGetD freq shelf 0 + 1)) freq) []
  sortDescBy (fun p => (p.2 : ℚ)) shelves_frequency

/-- `CartsCreatorShelves.select_shelves`. -/
def select_shelves (is_running_dry : Bool) (shelves : Dict String Nat)
    (minimum_orders : Nat) : List String :=
  let minimum : ℚ :=
    if is_running_dry then (minimum_orders : ℚ) * RUNNING_DRY_DENOMINATOR
    else minimum_orders
  (shelves.filter (fun p => (p.2 : ℚ) ≥ minimum)).map (·.1)

/-- `CartsCreatorShelves.generate_carts`. -/
def generate_carts (env : Env) (orders : List Order)
    (is_prio is_sweeping_time is_running_dry : Bool) (size : PackageSizeEntity) :
    List String → Space → CartsState → Space × CartsState
  | [], space_left, st => (space_left, st)
  | shelf :: rest, space_left, st =>
    if spaceEqZero space_left then (space_left, st)
    else
      let products_from_the_shelf := dictGetD env.shelvesIndex shelf []
      let (new_cart, stock') := fill_cart_from_shelf env st.processed_orders
        size.max products_from_the_shelf orders [] [] st.product_stock
      let st := { st with product_stock := stock' }
      if new_cart ≠ [] then
        let (cart_created, st) := create_cart orders is_prio is_sweeping_time
          is_running_dry env.hour env.weekday new_cart size shelf st
        if cart_created then
          let st := { st with
            processed_orders := st.processed_orders ++ new_cart,
            product_stock := update_stock_dictionary orders new_cart st.product_stock }
          generate_carts env orders is_prio is_sweeping_time is_running_dry size
            rest (spaceDec space_left) st
        else
          generate_carts env orders is_prio is_sweeping_time is_running_dry size
            rest space_left st
      else
        generate_carts env orders is_prio is_sweeping_time is_running_dry size
          rest space_left st

/-- `CartsCreatorShelves.main`. -/
def carts_shelves_main (env : Env) (orders : List Order)
    (is_prio is_sweeping_time is_running_dry : Bool) (size : PackageSizeEntity)
    (space_left : Space) (st : CartsState) : Space × CartsState :=
  let shelves_frequency := find_total_shelves_frequency env.shelvesIndex orders
  let selected_shelves := select_shelves is_running_dry shelves_frequency size.min
  if selected_shelves ≠ [] then
    generate_carts env orders is_prio is_sweeping_time is_running_dry size
      selected_shelves space_left st
  else (space_left, st)

/-- Inner fill loop of `CartsCreatorRandom.fill_cart_randomly` (no shelf
condition, otherwise as the shelf fill). -/
def fill_cart_random_pass (env : Env) (processed_orders : List Nat)
    (max_cart_size : Nat) :
    List Order → List Nat → Dict Nat ℚ → Dict Nat ℚ → List Nat × Dict Nat ℚ
  | [], new_cart, _, product_stock => (new_cart, product_stock)
  | order :: rest, new_cart, all_products_in_cart, product_stock =>
    if new_cart.length ≥ max_cart_size then (new_cart, product_stock)
    else if ¬ processed_orders.contains order.sales_order_id ∧
        ¬ new_cart.contains order.sales_order_id then
      let avail := is_order_fully_available env all_products_in_cart order.items
        product_stock
      if avail.1 then
        fill_cart_random_pass env processed_orders max_cart_size rest
          (new_cart ++ [order.sales_order_id])
          (update_products_dictionary all_products_in_cart order) avail.2
      else
        fill_cart_random_pass env processed_orders max_cart_size rest new_cart
          all_products_in_cart avail.2
    else
      fill_cart_random_pass env processed_orders max_cart_size rest new_cart
        all_products_in_cart product_stock

/-- `CartsCreatorRandom.fill_cart_randomly`.  The source computes
`number_of_carts = ceil(len(orders)/size.max)` and loops
`range(int(number_of_carts) + 1)`, but the final `return space_left` sits
inside the loop body, so exactly one iteration runs (the bound is ≥ 1). -/
def fill_cart_randomly (env : Env) (orders : List Order)
    (is_prio is_sweeping_time is_running_dry : Bool) (size : PackageSizeEntity)
    (space_left : Space) (st : CartsState) : Space × CartsState :=
  let number_of_carts := pyCeilDiv orders.length size.max
  let _ := number_of_carts + 1
  let (new_cart, stock') := fill_cart_random_pass env st.processed_orders size.max
    orders [] [] st.product_stock
  let st := { st with product_stock := stock' }
  if new_cart ≠ [] then
    let (cart_created, st) := create_cart orders is_prio is_sweeping_time
      is_running_dry env.hour env.weekday new_cart size "" st
    if cart_created then
      let st := { st with
        processed_orders := st.processed_orders ++ new_cart,
        product_stock := update_stock_dictionary orders new_cart st.product_stock }
      (spaceDec space_left, st)
    else (space_left, st)
  else (space_left, st)

/-- `PulpoCartsManager.main`.  The source's
`self.processed_orders.extend(carts_creator_shelves.processed_orders)` extends
the list with itself (both names alias one object), which duplicates entries
without changing membership; the model keeps the single shared list. -/
def carts_main (env : Env) (size : PackageSizeEntity) (orders : List Order)
    (is_prio is_sweeping_time is_running_dry : Bool) (st : CartsState) :
    CartsState :=
  let (space_left, st) := check_space env is_prio st
  let orders_to_process := select_orders_by_size st.processed_orders orders size.note
  if orders_to_process ≠ [] ∧ (spaceGtZero space_left ∨ is_sweeping_time) then
    let (space_left, st) := carts_shelves_main env orders_to_process is_prio
      is_sweeping_time is_running_dry size space_left st
    if spaceGtZero space_left then
      let orders_to_process := remove_processed_orders st.processed_orders
        orders_to_process
      (fill_cart_randomly env orders_to_process is_prio is_sweeping_time
        is_running_dry size space_left st).2
    else st
  else st

/-! ## `pulpoManager/__init__.py`: PulpoManager (picking-creation portion) -/

/-- Run-wide state threaded through the planners: the emitted picking
orders, the shared stock dictionary, the batching manager's processed set
and `seni_ids`, the carts manager's processed list and its
`no_space_left` flag. -/
structure RunState where
  emitted : List PickingOrder
  product_stock : Dict Nat ℚ
  batch_processed : List Nat
  seni_ids : List Nat
  carts_processed : List Nat
  no_space_left : Bool

/-- `picking_creation_batches`: run the batching manager, then extend the
carts manager's processed list with the batching manager's processed set. -/
def picking_creation_batches (env : Env) (orders : List Order)
    (is_prio is_running_dry : Bool) (rs : RunState) : RunState :=
  let bst : BatchState :=
    ⟨rs.emitted, rs.batch_processed, rs.product_stock, rs.seni_ids⟩
  let bst := batching_main env orders is_prio is_running_dry bst
  { emitted := bst.emitted
    product_stock := bst.product_stock
    batch_processed := bst.processed_orders
    seni_ids := bst.seni_ids
    carts_processed := rs.carts_processed ++ bst.processed_orders
    no_space_left := rs.no_space_left }

/-- Inner size loop of `picking_creation_carts` (XXL is skipped by the
`continue`; the `no_space_left` check returns out of the remaining sizes). -/
def picking_creation_carts_go (env : Env) (orders : List Order)
    (is_prio is_sweeping_time is_running_dry : Bool) :
    List PackageSizeEntity → RunState → RunState
  | [], rs => rs
  | size :: rest, rs =>
    if rs.no_space_left = true ∧ is_sweeping_time = false then rs
    else
      let cst : CartsState :=
        ⟨rs.emitted, rs.carts_processed, rs.product_stock, rs.no_space_left⟩
      let cst := carts_main env size orders is_prio is_sweeping_time
        is_running_dry cst
      picking_creation_carts_go env orders is_prio is_sweeping_time
        is_running_dry rest
        { rs with
          emitted := cst.emitted
          carts_processed := cst.processed_orders
          product_stock := cst.product_stock
          no_space_left := cst.no_space_left }

/-- `picking_creation_carts`. -/
def picking_creation_carts (env : Env) (orders : List Order)
    (is_prio is_sweeping_time is_running_dry : Bool) (rs : RunState) : RunState :=
  picking_creation_carts_go env orders is_prio is_sweeping_time is_running_dry
    packageSizesWithoutXXL rs

/-- `picking_creation_manager`: batches, then Seni carts, then the
remaining carts. -/
def picking_creation_manager (env : Env) (is_prio : Bool)
    (batch_list cart_seni_list cart_list : List Order)
    (is_sweeping_time is_running_dry : Bool) (rs : RunState) : RunState :=
  let rs := picking_creation_batches env batch_list is_prio is_running_dry rs
  let rs := picking_creation_carts env cart_seni_list is_prio is_sweeping_time
    is_running_dry rs
  picking_creation_carts env cart_list is_prio is_sweeping_time is_running_dry rs

/-- `PulpoManager.main`, picking-creation portion: Separator, running-dry
flag, then the priority and the non-priority picking-creation passes.
`product_availability` is the Shelves Indexer output (the pre-run snapshot;
the separator reads it and the planners decrement it). -/
def pulpo_manager_main (env : Env) (rosters : Rosters)
    (product_availability : Dict Nat ℚ) (queue : List Order) : RunState :=
  let sep := separator_main env rosters product_availability queue
  let is_running_dry := sep.orders_count < RUNNING_DRY_NUM_ORDERS
  let rs : RunState :=
    { emitted := sep.emitted
      product_stock := product_availability
      batch_processed := []
      seni_ids := []
      carts_processed := []
      no_space_left := false }
  let rs := picking_creation_manager env true sep.prio_orders_for_batches
    sep.seni_prio_orders sep.prio_orders_without_seni env.is_sweeping_time
    is_running_dry rs
  picking_creation_manager env false sep.orders_for_batches sep.seni_orders
    sep.orders_without_seni env.is_sweeping_time is_running_dry rs

/-! ## `pulpoFunctions/__init__.py`: `askPulpo` retry loop -/

/-- Outcome of one attempt of `askPulpo`, as seen by the `try` block:
a successful JSON payload, a business error that is the rate-limit error
(`message == "api_rate_limit_reached"`, carrying the optional
`retry_after_seconds`), any other `PulpoError`, an `HTTPError` from
`raise_for_status` with its status code, or any other exception. -/
inductive AskOutcome
  | ok (value : Nat)
  | rateLimited (retry_after : Option Nat)
  | businessErr
  | http (status : Nat)
  | otherErr
deriving DecidableEq, Repr

/-- How a call to `askPulpo` ends: with a returned payload, with an
exception raised out of the function (tagged with the attempt index on which
it occurred), or by falling off the `for` loop, which returns `None`. -/
inductive AskResult
  | success (value : Nat)
  | raised (e : AskOutcome) (attempt : Nat)
  | noneReturned
deriving DecidableEq, Repr

/-- Observable trace of one `askPulpo` call: final result, the cooperative
sleeps performed (in seconds, in order), and the number of attempts made. -/
structure AskRun where
  result : AskResult
  sleeps : List Nat
  attempts : Nat
deriving DecidableEq, Repr

/-- The loop body of `askPulpo`.  `remaining` counts the loop iterations
still allowed (`retries - attempt`); `delay` is the mutable local of the
source (updated by `if e.delay: delay = e.delay`). -/
def askPulpo_loop (outcomes : Nat → AskOutcome) (retries : Nat) :
    Nat → Nat → Nat → List Nat → AskRun
  | 0, attempt, _, sleeps => ⟨.noneReturned, sleeps, attempt⟩
  | remaining + 1, attempt, delay, sleeps =>
    match outcomes attempt with
    | .ok v => ⟨.success v, sleeps, attempt + 1⟩
    | .rateLimited retry_after =>
      if attempt < retries - 1 then
        let delay :=
          match retry_after with
          | some d => if d ≠ 0 then d else delay
          | none => delay
        askPulpo_loop outcomes retries remaining (attempt + 1) delay (sleeps ++ [delay])
      else ⟨.raised (.rateLimited retry_after) attempt, sleeps, attempt + 1⟩
    | .businessErr => ⟨.raised .businessErr attempt, sleeps, attempt + 1⟩
    | .http status =>
      if status == 429 then
        askPulpo_loop outcomes retries remaining (attempt + 1) delay (sleeps ++ [delay])
      else ⟨.raised (.http status) attempt, sleeps, attempt + 1⟩
    | .otherErr => ⟨.raised .otherErr attempt, sleeps, attempt + 1⟩

/-- `Pulpo.askPulpo` with the attempt outcomes supplied by an oracle.
Defaults are the source defaults `retries=3`, `delay=30`. -/
def askPulpo (outcomes : Nat → AskOutcome) (retries : Nat := 3)
    (delay : Nat := 30) : AskRun :=
  askPulpo_loop outcomes retries retries 0 delay []

/-- An outcome on which the loop retries: the rate-limit business error or
HTTP 429. -/
def retryable : AskOutcome → Bool
  | .rateLimited _ => true
  | .http status => status == 429
  | _ => false

/-- The sleep performed after a retried rate-limit error:
`retry_after` when supplied and truthy, else the current `delay`. -/
def rateLimitSleep (retry_after : Option Nat) (delay : Nat) : Nat :=
  match retry_after with
  | some d => if d ≠ 0 then d else delay
  | none => delay

/-! ## Decimal representations (for the `LA_<a>_<b>` round-trip claim) -/

/-- Fuel-driven digit production (the fuel bounds the number of digits, so
the recursion is structural and evaluates inside the kernel). -/
def natReprAux : Nat → Nat → List Char
  | 0, _ => []
  | fuel + 1, n =>
    if n < 10 then [Char.ofNat ('0'.toNat + n)]
    else natReprAux fuel (n / 10) ++ [Char.ofNat ('0'.toNat + n % 10)]

/-- Decimal digits of a natural number (Python `str(n)` for `n : ℕ`). -/
def natRepr (n : Nat) : List Char := natReprAux (n + 1) n

/-- Python `str(a)` for an integer. -/
def intRepr (a : ℤ) : List Char :=
  if a < 0 then '-' :: natRepr a.natAbs else natRepr a.toNat

/-- The tag `LA_<a>_<b>` for integers `a`, `b`. -/
def laTag (a b : ℤ) : List Char :=
  TAG_IDENTIFIER_LABEL_SHARE ++ intRepr a ++ ['_'] ++ intRepr b

/-- The exact value of the decimal numeral `<a>.<b>` (`b` written with the
digits of `str(b)`; the sign of `a` applies to the whole number), i.e. what
`float("<a>.<b>")` denotes. -/
def decValue (a : ℤ) (b : Nat) : ℚ :=
  let magnitude : ℚ := (a.natAbs : ℚ) + (b : ℚ) / (10 : ℚ) ^ (natRepr b).length
  if a < 0 then -magnitude else magnitude

/-- `",".join(tags)` over character lists. -/
def charIntercalate (sep : Char) : List (List Char) → List Char
  | [] => []
  | [t] => t
  | t :: rest => t ++ sep :: charIntercalate sep rest

/-! ## Spec-side note grammar (§4.8 of the specification) -/

/-- Separator of the note grammar. -/
def SP : String := " "

/-- Append an applicable token with a single-space separator; skip a
non-applicable one. -/
def addTok (s : String) : Option String → String
  | some t => s ++ SP ++ t
  | none => s

/-- The §4.8 token sequence, in the fixed order, with `none` for fields that
do not apply: Seni, priority suffix, Batch, special shipping-method label,
Partnerkunde label, Rest, size-bucket label, batched quantity and product,
shelf, order count. -/
def noteTokens (ctx : NoteCtx) (list_of_ids : List Nat)
    (single_order : Option Order) (size_note : Option String)
    (batched_quantity : Option ℚ) (batched_product : Option String)
    (shelf : Option String) : List (Option String) :=
  let size_note := effective_size_note size_note single_order
  [ if contains_seni_products ctx.orders list_of_ids then some NOTE_SENI else none,
    (match single_order with
     | some o =>
       if o.priority > NORMAL_PRIORITY_VALUE then
         some ( NOTE_PRIO ++ SP ++ toString o.priority)
       else if ctx.is_prio then
         some (create_base_of_priority_note ctx.hour ctx.weekday)
       else none
     | none =>
       if ctx.is_prio then some (create_base_of_priority_note ctx.hour ctx.weekday)
       else none),
    if ctx.is_batch then some NOTE_BATCH else none,
    (match single_order with
     | some o => add_special_shipping_method o
     | none => none),
    (match single_order with
     | some o =>
       if PARTNERKUNDE_SALES_CHANNELS.contains o.channel then
         some NOTE_PARTNERKUNDE
       else none
     | none => none),
    if ctx.sweeping_time ∧ ctx.is_prio then some NOTE_SWEEPER else none,
    (match size_note with
     | some s => if s ≠ "" then some s else none
     | none => none),
    if optNumTruthy batched_quantity ∧ optStrTruthy batched_product then
      some (pyNumRepr (batched_quantity.getD 0) ++ SP ++ batched_product.getD "")
    else none,
    (match shelf with
     | some s => if s ≠ "" then some s else none
     | none => none),
    if ctx.sweeping_time ∧ ctx.is_prio then some (toString list_of_ids.length)
    else none ]

/-! ## Spec-side predicate for the Separator admission rule (§4.4) -/

/-- The admission rule as the specification words it: *every* item of the
order satisfies `ProductAvailability[product_id] ≥ quantity` in the
snapshot (a product absent from the snapshot has availability `0`). -/
def all_items_available (product_stock : Dict Nat ℚ) (order : Order) : Bool :=
  order.items.all (fun item =>
    (item.quantity : ℚ) ≤ dictGetD product_stock item.product_id 0)

/-! ## Concrete fixtures for the evaluation and witness theorems -/

/-- A single-line item of product 1, quantity 1. -/
def exItem (product_id quantity : Nat) : Item :=
  { product_id := product_id, quantity := quantity, sku := "SKU1",
    product_name := "Prod", product_categories := [] }

/-- A queued, non-priority, single-item web order with label share `0.5`. -/
def exOrder (i : Nat) : Order :=
  { sales_order_id := i, state := "queue", priority := 1, channel := "web",
    shipping_method_id := 1, criterium := ("LA_0_5").data, zip := ['5'],
    country_code := "276", delivery_late := false, items := [exItem 1 1] }

/-- A small environment: pallet capacity 50 for every product, one shelf
hosting product 1, empty special-SKU configuration. -/
def exEnv : Env :=
  { hour := 10, weekday := 2, is_sweeping_time := false,
    numPicksForUser := fun _ => 0, existing_picking_orders := 0,
    skusToBatch := [], productUnitsPerPallet := fun _ => 50,
    weclappUnits := fun _ => 0, productName := fun _ => "Prod",
    wmsStock := fun _ => 0, shelvesIndex := [("H1-111", [1])] }

/-- 100 single-item orders of product 1, one unit each. -/
def c1Orders : List Order := (List.range 100).map exOrder

/-- Initial batching state: stock 100 of product 1, nothing processed. -/
def c1State : BatchState := ⟨[], [], [(1, 100)], []⟩

/-- An order whose first item is coverable (product 1, quantity 1, stock 5)
and whose second is not (product 2, quantity 10, no stock row). -/
def c3Order : Order := { exOrder 1 with items := [exItem 1 1, exItem 2 10] }

/-- Snapshot holding only product 1 with 5 units. -/
def c3Stock : Dict Nat ℚ := [(1, 5)]

/-- 20 single-item orders for the random-cart scenario. -/
def c5Orders : List Order := (List.range 20).map exOrder

/-- Carts state with ample stock of product 1. -/
def c5State : CartsState := ⟨[], [], [(1, 1000)], false⟩

/-! ## Emission predicates (for the no-double-emission claim) -/

/-- The sales-order ids of a list of orders. -/
def listSids (l : List Order) : List Nat := l.map (·.sales_order_id)

/-- `sid` occurs in some pick of the list. -/
def inEmitted (picks : List PickingOrder) (sid : Nat) : Prop :=
  ∃ p ∈ picks, sid ∈ p.sales_orders

/-- No sales-order id is shared between two picks of the list. -/
def pickDisjoint (picks : List PickingOrder) : Prop :=
  picks.Pairwise (fun p q => ∀ sid, sid ∈ p.sales_orders → sid ∉ q.sales_orders)

/-- Invariant of the Separator loop after the queue prefix with sales ids
`prefSids` has been handled. -/
structure SepInv (rosters : Rosters) (prefSids : List Nat) (st : SepState) : Prop where
  disj : pickDisjoint st.emitted
  emitted_single : ∀ p ∈ st.emitted, ∃ sid, p.sales_orders = [sid] ∧ sid ∈ prefSids
  emitted_not_bucket : ∀ sid, inEmitted st.emitted sid →
    sid ∉ listSids st.prio_orders_for_batches ∧ sid ∉ listSids st.orders_for_batches
  prioB_nodup : (listSids st.prio_orders_for_batches).Nodup
  nonB_nodup : (listSids st.orders_for_batches).Nodup
  bucket_disj : ∀ sid ∈ listSids st.prio_orders_for_batches,
    sid ∉ listSids st.orders_for_batches
  prioB_pref : ∀ sid ∈ listSids st.prio_orders_for_batches, sid ∈ prefSids
  nonB_pref : ∀ sid ∈ listSids st.orders_for_batches, sid ∈ prefSids
  seniP_sub : ∀ sid ∈ listSids st.seni_prio_orders,
    sid ∈ listSids st.prio_orders_for_batches
  noseniP_sub : ∀ sid ∈ listSids st.prio_orders_without_seni,
    sid ∈ listSids st.prio_orders_for_batches
  seni_sub : ∀ sid ∈ listSids st.seni_orders, sid ∈ listSids st.orders_for_batches
  noseni_sub : ∀ sid ∈ listSids st.orders_without_seni,
    sid ∈ listSids st.orders_for_batches
  seniP_disj : ∀ sid ∈ listSids st.seni_prio_orders,
    sid ∉ listSids st.prio_orders_without_seni
  seni_disj : ∀ sid ∈ listSids st.seni_orders, sid ∉ listSids st.orders_without_seni
  part_keys : ∀ x ∈ dictKeys st.partnerkunde_pickers_distribution,
    x ∈ rosters.partnerkunden
  pal_keys : ∀ x ∈ dictKeys st.palette_pickers_distribution,
    x ∈ rosters.palettenversand

/-- The candidate sales ids of one batched product: the key set of
`extract_quantities`. -/
def candIds (orders_to_include : List Order) (product_id : Nat) : List Nat :=
  dictKeys (extract_quantities orders_to_include product_id)

/-- Invariant of the batching flow relative to a candidate id set: emissions
are pairwise disjoint, `processed_orders` only holds emitted ids, and every
candidate id already emitted is marked processed. -/
def BatchInv (cand : List Nat) (st : BatchState) : Prop :=
  pickDisjoint st.emitted ∧
  (∀ sid ∈ st.processed_orders, inEmitted st.emitted sid) ∧
  (∀ sid ∈ cand, inEmitted st.emitted sid → sid ∈ st.processed_orders)

/-- Evolution of the batching state over one call: emissions are appended,
confined to the candidate set and marked processed; `processed_orders` grows
and its new entries stay inside the candidate set. -/
def BatchStep (cand : List Nat) (st st' : BatchState) : Prop :=
  (∃ new, st'.emitted = st.emitted ++ new ∧
    ∀ q ∈ new, ∀ sid ∈ q.sales_orders, sid ∈ cand ∧ sid ∈ st'.processed_orders) ∧
  (∀ sid ∈ st.processed_orders, sid ∈ st'.processed_orders) ∧
  (∀ sid ∈ st'.processed_orders, sid ∈ st.processed_orders ∨ sid ∈ cand)

/-- Invariant of the carts flow relative to a pool of sales ids: emissions
are pairwise disjoint and every pool id already emitted is marked processed. -/
def CartsInv (pool : List Nat) (st : CartsState) : Prop :=
  pickDisjoint st.emitted ∧
  (∀ sid ∈ pool, inEmitted st.emitted sid → sid ∈ st.processed_orders)

/-- Evolution of the carts state over one call: emissions are appended,
confined to the pool and marked processed; `processed_orders` grows. -/
def CartsStep (pool : List Nat) (st st' : CartsState) : Prop :=
  (∃ new, st'.emitted = st.emitted ++ new ∧
    ∀ q ∈ new, ∀ sid ∈ q.sales_orders, sid ∈ pool ∧ sid ∈ st'.processed_orders) ∧
  (∀ sid ∈ st.processed_orders, sid ∈ st'.processed_orders)

/-- Environment whose WMS already holds `NON_PRIO_THRESHOLD` picking orders. -/
def c4Env : Env := { exEnv with existing_picking_orders := 10 }

/-- Empty run state for the capacity-gate witness. -/
def c4Run : RunState := ⟨[], [(1, 100)], [], [], [], false⟩

/-! # Theorems -/

unseal Rat.add Rat.sub Rat.mul Rat.inv Nat.gcd

set_option maxRecDepth 100000

/-- C10: for every call to `create_picking` whose `list_of_ids` has exactly
one element, the posted picking order carries `cart = false` regardless of
the `cart` argument; for lists of two or more ids the `cart` argument is
forwarded unchanged. -/
theorem create_picking_single_cart_coercion (list_of_ids : List Nat)
    (note : String) (orders_count : Nat) (cart : Bool) (pickers : List Nat) :
    (list_of_ids.length = 1 →
      (create_picking list_of_ids note orders_count cart pickers).cart = false) ∧
    (2 ≤ list_of_ids.length →
      (create_picking list_of_ids note orders_count cart pickers).cart = cart) := by
  refine ⟨fun h => ?_, fun h => ?_⟩
  · simp [create_picking, h]
  · simp [create_picking]
    intro h1
    omega

/-- Witness for C10 at concrete inputs: one id forces `cart = false`,
two ids forward `cart = true`. -/
theorem create_picking_single_cart_coercion_witness :
    (([5] : List Nat).length = 1 ∧
      (create_picking [5] ("n") 1 true []).cart = false) ∧
    (2 ≤ ([5, 6] : List Nat).length ∧
      (create_picking [5, 6] ("n") 1 true []).cart = true) :=
  ⟨⟨rfl, (create_picking_single_cart_coercion [5] ("n") 1 true []).1 rfl⟩,
   ⟨by decide, (create_picking_single_cart_coercion [5, 6] ("n") 1 true []).2 (by decide)⟩⟩

/-- C3 (divergence): `check_availability_locally` admits `c3Order` although
its second item is not covered by the snapshot — the source returns `True`
at the first item whose snapshot quantity covers it and never inspects the
remaining items, contradicting the all-items admission rule of §4.4. -/
theorem check_availability_locally_first_item_short_circuit :
    check_availability_locally c3Stock c3Order = true ∧
    all_items_available c3Stock c3Order = false := by
  constructor <;> rfl

/-- C7 (divergence): called with the one-entry Palettenversand roster
`[22]`, `create_assigned_picking` attaches the Partnerkunde roster `[11]`
to the posted pick and returns `11` (the source's `len(pickers) <= 1` branch
uses `self.partnerkunde_pickers`, not the `pickers` argument); with both
rosters empty the posted pick is unassigned and the function ends in the
`IndexError` of `self.partnerkunde_pickers[0]` (second component `none`)
instead of returning no id without failing. -/
theorem create_assigned_picking_roster_divergence :
    (create_assigned_picking 10 2 (exOrder 1) [22] [(22, 0)] [11]
      (some NOTE_PALETTE) false).1.pickers = [11] ∧
    (create_assigned_picking 10 2 (exOrder 1) [22] [(22, 0)] [11]
      (some NOTE_PALETTE) false).2 = some 11 ∧
    (create_assigned_picking 10 2 (exOrder 1) [] [] []
      (some NOTE_PALETTE) false).1.pickers = [] ∧
    (create_assigned_picking 10 2 (exOrder 1) [] [] []
      (some NOTE_PALETTE) false).2 = none := by
  refine ⟨rfl, rfl, rfl, rfl⟩

/-- C5 (divergence): on 20 still-unprocessed orders of the M1 bucket
(`max = 10`) with `space_left = 5` and ample stock, `fill_cart_randomly`
emits exactly one cart of 10 orders, decrements the space once and leaves
10 orders unprocessed: the `return space_left` inside the
`for num in range(...)` loop ends the function after the first cart, so the
planner never builds the ⌈20/10⌉ = 2 carts the specification describes. -/
theorem fill_cart_randomly_emits_single_cart :
    (fill_cart_randomly exEnv c5Orders false false false SIZE_M1 (some 5)
      c5State).2.emitted.length = 1 ∧
    ((fill_cart_randomly exEnv c5Orders false false false SIZE_M1 (some 5)
      c5State).2.emitted.map (fun p => p.sales_orders.length)) = [10] ∧
    (fill_cart_randomly exEnv c5Orders false false false SIZE_M1 (some 5)
      c5State).1 = some 4 ∧
    (c5Orders.filter (fun o => ¬ (fill_cart_randomly exEnv c5Orders false false
      false SIZE_M1 (some 5) c5State).2.processed_orders.contains
      o.sales_order_id)).length = 10 := by
  refine ⟨rfl, rfl, rfl, rfl⟩

/-- With priority off and no warehouse space left
(`NON_PRIO_THRESHOLD − existing ≤ 0`) outside sweeping time, one
`carts_main` call emits nothing. -/
theorem carts_main_gate_emitted (env : Env) (size : PackageSizeEntity)
    (orders : List Order) (is_running_dry : Bool) (st : CartsState)
    (hfull : NON_PRIO_THRESHOLD - (env.existing_picking_orders : ℤ) ≤ 0) :
    (carts_main env size orders false false is_running_dry st).emitted =
      st.emitted := by
  have h1 : spaceGtZero
      (some (NON_PRIO_THRESHOLD - (env.existing_picking_orders : ℤ))) = false := by
    simp only [spaceGtZero, decide_eq_false_iff_not, not_lt]
    omega
  unfold carts_main check_space
  by_cases h : NON_PRIO_THRESHOLD - (env.existing_picking_orders : ℤ) < 0 <;>
    simp [h, h1]

/-- The same for the whole per-bucket size loop `picking_creation_carts`. -/
theorem picking_creation_carts_go_gate (env : Env) (orders : List Order)
    (is_running_dry : Bool) (sizes : List PackageSizeEntity) (rs : RunState)
    (hfull : NON_PRIO_THRESHOLD - (env.existing_picking_orders : ℤ) ≤ 0) :
    (picking_creation_carts_go env orders false false is_running_dry sizes
      rs).emitted = rs.emitted := by
  induction sizes generalizing rs with
  | nil => rfl
  | cons size rest ih =>
    unfold picking_creation_carts_go
    by_cases h : rs.no_space_left = true
    · simp [h]
    · simp only [h, false_and, if_neg, ite_false, Bool.false_eq_true]
      rw [ih]
      exact carts_main_gate_emitted env size orders is_running_dry _ hfull

/-- C4 (capacity gate): when `is_prio` is false, the count of existing
picking orders in states queue/taken already meets `NON_PRIO_THRESHOLD`
(`NON_PRIO_THRESHOLD − count ≤ 0`), and it is not sweeping time, the
shelf-cart and random-cart planners (`picking_creation_carts` driving
`carts_main`) emit zero cart picking orders in the run. -/
theorem capacity_gate_zero_carts (env : Env) (orders : List Order)
    (is_running_dry : Bool) (rs : RunState)
    (hfull : NON_PRIO_THRESHOLD - (env.existing_picking_orders : ℤ) ≤ 0) :
    (picking_creation_carts env orders false false is_running_dry rs).emitted =
      rs.emitted := by
  unfold picking_creation_carts
  exact picking_creation_carts_go_gate env orders is_running_dry _ rs hfull

/-- Witness for C4: a warehouse with 10 existing picking orders
(`NON_PRIO_THRESHOLD = 10`) yields an empty emission list. -/
theorem capacity_gate_zero_carts_witness :
    NON_PRIO_THRESHOLD - ((c4Env).existing_picking_orders : ℤ) ≤ 0 ∧
    (picking_creation_carts c4Env ((List.range 3).map exOrder) false false false
      c4Run).emitted = [] :=
  ⟨by decide,
   (capacity_gate_zero_carts c4Env ((List.range 3).map exOrder) false c4Run
     (by decide)).trans rfl⟩

/-- C1 (divergence): with stock 100 of product 1 and 100 one-unit
single-item orders (pallet capacity 50), the batching flow takes the split
path, emits one batch pick of 50 orders (50 units, note `Bot: Batch 50
Prod`) and leaves `ProductAvailability[1]` at 100: `split_batches` marks the
orders processed but never decrements `product_stock`, so later planners
still see the undecremented stock. -/
theorem batching_split_path_no_stock_decrement :
    ((batching_main exEnv c1Orders false false c1State).emitted.map
      (fun p => (p.sales_orders.length, p.notes))) =
      [(50, ("Bot: Batch 50 Prod"))] ∧
    (batching_main exEnv c1Orders false false c1State).product_stock =
      [(1, 100)] := by
  refine ⟨rfl, rfl⟩

/-- Chaining optional tokens onto a base note is space-intercalation of the
applicable tokens after the base. -/
theorem foldl_addTok_intercalate (toks : List (Option String)) (base : String) :
    toks.foldl addTok base = String.intercalate SP (base :: toks.reduceOption) := by
  induction toks generalizing base with
  | nil => rfl
  | cons t rest ih =>
    cases t with
    | none => exact ih base
    | some s => exact ih (base ++ SP ++ s)

/-- `addTok` distributes over an `if` in the token position. -/
theorem addTok_ite (s : String) (c : Prop) [Decidable c] (x y : Option String) :
    addTok s (if c then x else y) = if c then addTok s x else addTok s y :=
  apply_ite (addTok s) c x y

/-- `addTok` of an applicable token. -/
theorem addTok_some (s t : String) : addTok s (some t) = s ++ SP ++ t := rfl

/-- `addTok` of a skipped token. -/
theorem addTok_none (s : String) : addTok s none = s := rfl

/-- `create_note` is the token chain of `noteTokens` appended to `Bot:`. -/
theorem create_note_eq_foldl (ctx : NoteCtx) (list_of_ids : List Nat)
    (single_order : Option Order) (size_note : Option String)
    (batched_quantity : Option ℚ) (batched_product : Option String)
    (shelf : Option String) :
    create_note ctx list_of_ids single_order size_note batched_quantity
        batched_product shelf =
      (noteTokens ctx list_of_ids single_order size_note batched_quantity
        batched_product shelf).foldl addTok BASE_NOTE := by
  unfold create_note noteTokens
  cases single_order with
  | none =>
    simp only [List.foldl_cons, List.foldl_nil, addTok_ite, addTok_some,
      addTok_none, SP, String.append_assoc]
    cases shelf with
    | none =>
      cases effective_size_note size_note none <;>
        first
          | rfl
          | (simp only [List.foldl_cons, List.foldl_nil, addTok_ite, addTok_some,
              addTok_none, SP, String.append_assoc]; try rfl)
    | some sh =>
      cases effective_size_note size_note none <;>
        first
          | rfl
          | (simp only [List.foldl_cons, List.foldl_nil, addTok_ite, addTok_some,
              addTok_none, SP, String.append_assoc]; try rfl)
  | some o =>
    simp only [List.foldl_cons, List.foldl_nil, addTok_ite, addTok_some,
      addTok_none, SP, String.append_assoc]
    cases add_special_shipping_method o <;>
      cases shelf <;>
        cases effective_size_note size_note (some o) <;>
          first
            | rfl
            | (simp only [List.foldl_cons, List.foldl_nil, addTok_ite, addTok_some,
                addTok_none, SP, String.append_assoc]; try rfl)

/-- C6 (note grammar): every notes string the Note Composer produces is the
literal `Bot:` followed, with single-space separators, by exactly the
applicable §4.8 tokens in the fixed order Seni, priority suffix, Batch,
special shipping-method label, Partnerkunde label, Rest, size-bucket label,
batched quantity and product, shelf, order count — non-applicable fields
are skipped without changing the order of the rest. -/
theorem create_note_grammar (ctx : NoteCtx) (list_of_ids : List Nat)
    (single_order : Option Order) (size_note : Option String)
    (batched_quantity : Option ℚ) (batched_product : Option String)
    (shelf : Option String) :
    create_note ctx list_of_ids single_order size_note batched_quantity
        batched_product shelf =
      String.intercalate SP (BASE_NOTE ::
        (noteTokens ctx list_of_ids single_order size_note batched_quantity
          batched_product shelf).reduceOption) := by
  rw [create_note_eq_foldl, foldl_addTok_intercalate]

/-- The loop makes at most `attempt + remaining` attempts in total. -/
theorem askPulpo_loop_attempts_le (outcomes : Nat → AskOutcome) (retries : Nat) :
    ∀ remaining attempt delay sleeps,
      (askPulpo_loop outcomes retries remaining attempt delay sleeps).attempts ≤
        attempt + remaining := by
  intro remaining
  induction remaining with
  | zero => intro attempt delay sleeps; simp [askPulpo_loop]
  | succ r ih =>
    intro attempt delay sleeps
    unfold askPulpo_loop
    cases outcomes attempt with
    | ok v => simp
    | rateLimited ra =>
      by_cases hlt : attempt < retries - 1
      · simp only [hlt, if_true]
        have := ih (attempt + 1) (rateLimitSleep ra delay)
          (sleeps ++ [rateLimitSleep ra delay])
        calc _ ≤ (attempt + 1) + r := this
        _ = attempt + (r + 1) := by omega
      · simp only [hlt, if_false]; simp
    | businessErr => simp
    | http status =>
      by_cases h429 : (status == 429) = true
      · simp only [h429, if_true]
        have := ih (attempt + 1) delay (sleeps ++ [delay])
        calc _ ≤ (attempt + 1) + r := this
        _ = attempt + (r + 1) := by omega
      · simp only [h429, if_false]; simp
    | otherErr => simp

/-- After `j` retryable attempts, a successful attempt returns its payload. -/
theorem askPulpo_loop_success (outcomes : Nat → AskOutcome) (retries : Nat) :
    ∀ remaining attempt delay sleeps j v,
      attempt + remaining = retries →
      j < remaining →
      (∀ i, attempt ≤ i → i < attempt + j → retryable (outcomes i) = true) →
      outcomes (attempt + j) = .ok v →
      (askPulpo_loop outcomes retries remaining attempt delay sleeps).result =
        .success v := by
  intro remaining
  induction remaining with
  | zero => omega
  | succ r ih =>
    intro attempt delay sleeps j v hsum hj hall hok
    unfold askPulpo_loop
    cases j with
    | zero =>
      simp only [Nat.add_zero] at hok
      rw [hok]
    | succ j' =>
      have hretry : retryable (outcomes attempt) = true :=
        hall attempt (Nat.le_refl _) (by omega)
      cases houtc : outcomes attempt with
      | ok v' => rw [houtc] at hretry; simp [retryable] at hretry
      | businessErr => rw [houtc] at hretry; simp [retryable] at hretry
      | otherErr => rw [houtc] at hretry; simp [retryable] at hretry
      | rateLimited ra =>
        have hlt : attempt < retries - 1 := by omega
        simp only [hlt, if_true]
        exact ih (attempt + 1) _ _ j' v (by omega) (by omega)
          (fun i h1 h2 => hall i (by omega) (by omega))
          (by rw [show attempt + 1 + j' = attempt + (j' + 1) by omega]; exact hok)
      | http status =>
        rw [houtc] at hretry
        simp only [retryable] at hretry
        simp only [hretry, if_true]
        exact ih (attempt + 1) _ _ j' v (by omega) (by omega)
          (fun i h1 h2 => hall i (by omega) (by omega))
          (by rw [show attempt + 1 + j' = attempt + (j' + 1) by omega]; exact hok)

/-- After `j` retryable attempts, a non-retryable failing attempt raises
its error at that attempt. -/
theorem askPulpo_loop_raises (outcomes : Nat → AskOutcome) (retries : Nat) :
    ∀ remaining attempt delay sleeps j,
      attempt + remaining = retries →
      j < remaining →
      (∀ i, attempt ≤ i → i < attempt + j → retryable (outcomes i) = true) →
      retryable (outcomes (attempt + j)) = false →
      (∀ v, outcomes (attempt + j) ≠ .ok v) →
      (askPulpo_loop outcomes retries remaining attempt delay sleeps).result =
        .raised (outcomes (attempt + j)) (attempt + j) := by
  intro remaining
  induction remaining with
  | zero => omega
  | succ r ih =>
    intro attempt delay sleeps j hsum hj hall hnr hnok
    unfold askPulpo_loop
    cases j with
    | zero =>
      simp only [Nat.add_zero] at hnr hnok ⊢
      cases houtc : outcomes attempt with
      | ok v => exact absurd houtc (hnok v)
      | rateLimited ra => rw [houtc] at hnr; simp [retryable] at hnr
      | businessErr => rfl
      | otherErr => rfl
      | http status =>
        rw [houtc] at hnr
        simp only [retryable] at hnr
        simp [hnr]
    | succ j' =>
      have hretry : retryable (outcomes attempt) = true :=
        hall attempt (Nat.le_refl _) (by omega)
      cases houtc : outcomes attempt with
      | ok v' => rw [houtc] at hretry; simp [retryable] at hretry
      | businessErr => rw [houtc] at hretry; simp [retryable] at hretry
      | otherErr => rw [houtc] at hretry; simp [retryable] at hretry
      | rateLimited ra =>
        have hlt : attempt < retries - 1 := by omega
        simp only [hlt, if_true]
        rw [show attempt + (j' + 1) = attempt + 1 + j' by omega]
        exact ih (attempt + 1) _ _ j' (by omega) (by omega)
          (fun i h1 h2 => hall i (by omega) (by omega))
          (by rw [show attempt + 1 + j' = attempt + (j' + 1) by omega]; exact hnr)
          (by rw [show attempt + 1 + j' = attempt + (j' + 1) by omega]; exact hnok)
      | http status =>
        rw [houtc] at hretry
        simp only [retryable] at hretry
        simp only [hretry, if_true]
        rw [show attempt + (j' + 1) = attempt + 1 + j' by omega]
        exact ih (attempt + 1) _ _ j' (by omega) (by omega)
          (fun i h1 h2 => hall i (by omega) (by omega))
          (by rw [show attempt + 1 + j' = attempt + (j' + 1) by omega]; exact hnr)
          (by rw [show attempt + 1 + j' = attempt + (j' + 1) by omega]; exact hnok)

/-- When every attempt up to the budget is retryable, the run ends according
to the outcome of the final attempt: a rate-limit business error is raised,
while HTTP 429 falls off the loop and returns `None`. -/
theorem askPulpo_loop_exhausted (outcomes : Nat → AskOutcome) (retries : Nat) :
    ∀ remaining attempt delay sleeps,
      attempt + remaining = retries →
      0 < remaining →
      (∀ i, attempt ≤ i → i < retries → retryable (outcomes i) = true) →
      ((∀ ra, outcomes (retries - 1) = .rateLimited ra →
         (askPulpo_loop outcomes retries remaining attempt delay sleeps).result =
           .raised (.rateLimited ra) (retries - 1)) ∧
       (outcomes (retries - 1) = .http 429 →
         (askPulpo_loop outcomes retries remaining attempt delay sleeps).result =
           .noneReturned)) := by
  intro remaining
  induction remaining with
  | zero => omega
  | succ r ih =>
    intro attempt delay sleeps hsum hpos hall
    by_cases hr : r = 0
    · subst hr
      have hatt : attempt = retries - 1 := by omega
      have hretry : retryable (outcomes attempt) = true :=
        hall attempt (Nat.le_refl _) (by omega)
      constructor
      · intro ra heq
        unfold askPulpo_loop
        rw [hatt, heq]
        have : ¬ (retries - 1 < retries - 1) := by omega
        simp only [this, if_false]
      · intro heq
        unfold askPulpo_loop
        rw [hatt, heq]
        simp only [beq_self_eq_true, if_true]
        rfl
    · have hlt : attempt < retries - 1 := by omega
      have hretry : retryable (outcomes attempt) = true :=
        hall attempt (Nat.le_refl _) (by omega)
      have ihs := fun d s => ih (attempt + 1) d s (by omega) (by omega)
        (fun i h1 h2 => hall i (by omega) h2)
      cases houtc : outcomes attempt with
      | ok v => rw [houtc] at hretry; simp [retryable] at hretry
      | businessErr => rw [houtc] at hretry; simp [retryable] at hretry
      | otherErr => rw [houtc] at hretry; simp [retryable] at hretry
      | rateLimited ra =>
        constructor
        · intro ra' heq
          unfold askPulpo_loop
          rw [houtc]
          simp only [hlt, if_true]
          exact (ihs _ _).1 ra' heq
        · intro heq
          unfold askPulpo_loop
          rw [houtc]
          simp only [hlt, if_true]
          exact (ihs _ _).2 heq
      | http status =>
        rw [houtc] at hretry
        simp only [retryable] at hretry
        constructor
        · intro ra' heq
          unfold askPulpo_loop
          rw [houtc]
          simp only [hretry, if_true]
          exact (ihs _ _).1 ra' heq
        · intro heq
          unfold askPulpo_loop
          rw [houtc]
          simp only [hretry, if_true]
          exact (ihs _ _).2 heq

/-- The loop only appends to the sleep log. -/
theorem askPulpo_loop_sleeps_prefix (outcomes : Nat → AskOutcome) (retries : Nat) :
    ∀ remaining attempt delay sleeps, ∃ t,
      (askPulpo_loop outcomes retries remaining attempt delay sleeps).sleeps =
        sleeps ++ t := by
  intro remaining
  induction remaining with
  | zero => intro attempt delay sleeps; exact ⟨[], by simp [askPulpo_loop]⟩
  | succ r ih =>
    intro attempt delay sleeps
    unfold askPulpo_loop
    cases outcomes attempt with
    | ok v => exact ⟨[], by simp⟩
    | rateLimited ra =>
      by_cases hlt : attempt < retries - 1
      · simp only [hlt, if_true]
        obtain ⟨t, ht⟩ := ih (attempt + 1) (rateLimitSleep ra delay)
          (sleeps ++ [rateLimitSleep ra delay])
        refine ⟨rateLimitSleep ra delay :: t, ?_⟩
        show (askPulpo_loop outcomes retries r (attempt + 1)
          (rateLimitSleep ra delay) (sleeps ++ [rateLimitSleep ra delay])).sleeps =
            sleeps ++ rateLimitSleep ra delay :: t
        rw [ht]; simp
      · simp only [hlt, if_false]
        exact ⟨[], by simp⟩
    | businessErr => exact ⟨[], by simp⟩
    | otherErr => exact ⟨[], by simp⟩
    | http status =>
      by_cases h429 : (status == 429) = true
      · simp only [h429, if_true]
        obtain ⟨t, ht⟩ := ih (attempt + 1) delay (sleeps ++ [delay])
        exact ⟨delay :: t, by rw [ht]; simp⟩
      · simp only [h429, if_false]
        exact ⟨[], by simp⟩

/-- C8 (amended): `askPulpo` makes at most `retries` attempts; an attempt
whose outcome is neither a rate-limit business error nor HTTP 429 ends the
call on that attempt (returning the payload or raising the error); the first
sleep after a retried rate-limit error is `retry_after` when supplied (and
nonzero), else `delay`; and when every attempt is retryable the budget is
exhausted with the final error *raised* if it is the rate-limit business
error but *swallowed* (the function returns `None`) if it is HTTP 429. -/
theorem askPulpo_retry_policy (outcomes : Nat → AskOutcome)
    (retries delay : Nat) (hr : 0 < retries) :
    ((askPulpo outcomes retries delay).attempts ≤ retries) ∧
    (∀ k v, k < retries → (∀ i, i < k → retryable (outcomes i) = true) →
      outcomes k = .ok v →
      (askPulpo outcomes retries delay).result = .success v) ∧
    (∀ k, k < retries → (∀ i, i < k → retryable (outcomes i) = true) →
      retryable (outcomes k) = false → (∀ v, outcomes k ≠ .ok v) →
      (askPulpo outcomes retries delay).result = .raised (outcomes k) k) ∧
    ((∀ i, i < retries → retryable (outcomes i) = true) →
      ((∀ ra, outcomes (retries - 1) = .rateLimited ra →
         (askPulpo outcomes retries delay).result =
           .raised (.rateLimited ra) (retries - 1)) ∧
       (outcomes (retries - 1) = .http 429 →
         (askPulpo outcomes retries delay).result = .noneReturned))) ∧
    (∀ ra, outcomes 0 = .rateLimited ra → 2 ≤ retries →
      (askPulpo outcomes retries delay).sleeps.head? =
        some (rateLimitSleep ra delay)) := by
  refine ⟨?_, ?_, ?_, ?_, ?_⟩
  · simpa using askPulpo_loop_attempts_le outcomes retries retries 0 delay []
  · intro k v hk hall hok
    exact askPulpo_loop_success outcomes retries retries 0 delay [] k v
      (by omega) hk (fun i h1 h2 => hall i (by omega))
      (by rw [Nat.zero_add]; exact hok)
  · intro k hk hall hnr hnok
    have := askPulpo_loop_raises outcomes retries retries 0 delay [] k
      (by omega) hk (fun i h1 h2 => hall i (by omega))
      (by rw [Nat.zero_add]; exact hnr)
      (by rw [Nat.zero_add]; exact hnok)
    rwa [Nat.zero_add] at this
  · intro hall
    exact askPulpo_loop_exhausted outcomes retries retries 0 delay []
      (by omega) hr (fun i h1 h2 => hall i h2)
  · intro ra h0 h2
    unfold askPulpo
    obtain ⟨r', hr'⟩ : ∃ r', retries = r' + 1 := ⟨retries - 1, by omega⟩
    subst hr'
    unfold askPulpo_loop
    rw [h0]
    have hlt : 0 < r' + 1 - 1 := by omega
    simp only [hlt, if_true]
    obtain ⟨t, ht⟩ := askPulpo_loop_sleeps_prefix outcomes (r' + 1) r' 1
      (rateLimitSleep ra delay) ([] ++ [rateLimitSleep ra delay])
    have hgoal : (askPulpo_loop outcomes (r' + 1) r' 1 (rateLimitSleep ra delay)
        ([] ++ [rateLimitSleep ra delay])).sleeps.head? =
        some (rateLimitSleep ra delay) := by
      rw [ht]; rfl
    exact hgoal

/-- C8 counterexample: when all three attempts (default budget) fail with
HTTP 429, `askPulpo` sleeps three times and then falls off the retry loop,
returning `None` — the final error is silently swallowed instead of being
surfaced. -/
theorem askPulpo_swallows_final_http429 :
    (askPulpo (fun _ => AskOutcome.http 429)).result = AskResult.noneReturned ∧
    (askPulpo (fun _ => AskOutcome.http 429)).attempts = 3 ∧
    (askPulpo (fun _ => AskOutcome.http 429)).sleeps = [30, 30, 30] :=
  ⟨rfl, rfl, rfl⟩

/-- Every character `natReprAux` produces is a decimal digit. -/
theorem natReprAux_mem (fuel : Nat) :
    ∀ n, n < fuel → ∀ c ∈ natReprAux fuel n,
      ∃ d, d < 10 ∧ c = Char.ofNat ('0'.toNat + d) := by
  induction fuel with
  | zero => omega
  | succ f ih =>
    intro n hn c hc
    unfold natReprAux at hc
    by_cases h10 : n < 10
    · simp only [h10, if_true, List.mem_singleton] at hc
      exact ⟨n, h10, hc⟩
    · simp only [h10, if_false, List.mem_append, List.mem_singleton] at hc
      rcases hc with hc | hc
      · exact ih (n / 10) (by omega) c hc
      · exact ⟨n % 10, by omega, hc⟩

/-- Digit characters of a natural's decimal representation. -/
theorem natRepr_mem (n : Nat) :
    ∀ c ∈ natRepr n, ∃ d, d < 10 ∧ c = Char.ofNat ('0'.toNat + d) :=
  natReprAux_mem (n + 1) n (by omega)

/-- A decimal digit character is none of the delimiters used here. -/
theorem digitChar_ne (d : Nat) (hd : d < 10) :
    Char.ofNat ('0'.toNat + d) ≠ '_' ∧ Char.ofNat ('0'.toNat + d) ≠ ',' ∧
    Char.ofNat ('0'.toNat + d) ≠ '.' ∧ Char.ofNat ('0'.toNat + d) ≠ '-' := by
  interval_cases d <;> exact ⟨by decide, by decide, by decide, by decide⟩

/-- `digitVal` of a digit character. -/
theorem digitVal_digitChar (d : Nat) (hd : d < 10) :
    digitVal (Char.ofNat ('0'.toNat + d)) = some d := by
  interval_cases d <;> rfl

/-- `natReprAux` never yields the empty list on sufficient fuel. -/
theorem natReprAux_ne_nil (fuel n : Nat) (hn : n < fuel) :
    natReprAux fuel n ≠ [] := by
  cases fuel with
  | zero => omega
  | succ f =>
    unfold natReprAux
    by_cases h10 : n < 10
    · simp [h10]
    · simp [h10]

/-- `natRepr` is never empty. -/
theorem natRepr_ne_nil (n : Nat) : natRepr n ≠ [] :=
  natReprAux_ne_nil (n + 1) n (by omega)

/-- Digit accumulation over `natReprAux` recovers the number. -/
theorem natReprAux_foldl (fuel : Nat) :
    ∀ n acc, n < fuel →
      (natReprAux fuel n).foldl digitStep (some acc) =
        some (acc * 10 ^ (natReprAux fuel n).length + n) := by
  induction fuel with
  | zero => omega
  | succ f ih =>
    intro n acc hn
    unfold natReprAux
    by_cases h10 : n < 10
    · simp only [h10, if_true, List.foldl_cons, List.foldl_nil, List.length_singleton]
      simp only [digitStep, digitVal_digitChar n h10]
      rw [pow_one]
    · simp only [h10, if_false, List.foldl_append, List.foldl_cons, List.foldl_nil,
        List.length_append, List.length_singleton]
      rw [ih (n / 10) acc (by omega)]
      simp only [digitStep, digitVal_digitChar (n % 10) (by omega)]
      congr 1
      have hdm : n / 10 * 10 + n % 10 = n := by omega
      rw [pow_succ]
      calc (acc * 10 ^ (natReprAux f (n / 10)).length + n / 10) * 10 + n % 10
          = acc * (10 ^ (natReprAux f (n / 10)).length * 10) +
              (n / 10 * 10 + n % 10) := by ring
        _ = acc * (10 ^ (natReprAux f (n / 10)).length * 10) + n := by rw [hdm]

/-- `parseDigits` of a nonempty list is the digit fold. -/
theorem parseDigits_of_ne_nil (l : List Char) (h : l ≠ []) :
    parseDigits l = l.foldl digitStep (some 0) := by
  cases l with
  | nil => exact absurd rfl h
  | cons c cs => rfl

/-- Round trip: parsing the decimal representation recovers the number. -/
theorem parseDigits_natRepr (n : Nat) : parseDigits (natRepr n) = some n := by
  rw [parseDigits_of_ne_nil (natRepr n) (natRepr_ne_nil n)]
  unfold natRepr
  rw [natReprAux_foldl (n + 1) n 0 (by omega)]
  simp

/-- Splitting a separator-free list yields the singleton. -/
theorem splitOnChar_of_not_mem (sep : Char) (xs : List Char) (h : sep ∉ xs) :
    splitOnChar sep xs = [xs] := by
  induction xs with
  | nil => rfl
  | cons c rest ih =>
    simp only [List.mem_cons, not_or] at h
    have hc : (c == sep) = false := by
      simp only [beq_eq_false_iff_ne, ne_eq]
      exact fun he => h.1 he.symm
    simp [splitOnChar, hc, ih h.2]

/-- Splitting at the first separator occurrence. -/
theorem splitOnChar_append (sep : Char) (xs ys : List Char) (h : sep ∉ xs) :
    splitOnChar sep (xs ++ sep :: ys) = xs :: splitOnChar sep ys := by
  induction xs with
  | nil =>
    show splitOnChar sep (sep :: ys) = [] :: splitOnChar sep ys
    simp [splitOnChar]
  | cons c rest ih =>
    simp only [List.mem_cons, not_or] at h
    have hc : (c == sep) = false := by
      simp only [beq_eq_false_iff_ne, ne_eq]
      exact fun he => h.1 he.symm
    show splitOnChar sep (c :: (rest ++ sep :: ys)) = (c :: rest) :: splitOnChar sep ys
    simp [splitOnChar, hc, ih h.2]

/-- `",".join` and `.split(",")` are inverse on nonempty, comma-free tags. -/
theorem splitOnChar_charIntercalate (sep : Char) :
    ∀ tags : List (List Char), tags ≠ [] → (∀ t ∈ tags, sep ∉ t) →
      splitOnChar sep (charIntercalate sep tags) = tags := by
  intro tags
  induction tags with
  | nil => intro h; exact absurd rfl h
  | cons t rest ih =>
    intro _ hall
    cases rest with
    | nil =>
      show splitOnChar sep t = [t]
      exact splitOnChar_of_not_mem sep t (hall t (by simp))
    | cons t2 rest2 =>
      show splitOnChar sep (t ++ sep :: charIntercalate sep (t2 :: rest2)) = _
      rw [splitOnChar_append sep t _ (hall t (by simp))]
      rw [ih (by simp) (fun u hu => hall u (by simp [hu]))]

/-- A list is a `listIsPrefixOf` of itself followed by anything. -/
theorem listIsPrefixOf_append_self (p rest : List Char) :
    listIsPrefixOf p (p ++ rest) = true := by
  induction p with
  | nil => rfl
  | cons c cs ih => simp [listIsPrefixOf, ih]

/-- Skipping a run of tags that do not carry the label-share prefix. -/
theorem foldl_extract_size_step_skip (ts : List (List Char)) (acc : ℚ)
    (h : ∀ t ∈ ts, listIsPrefixOf TAG_IDENTIFIER_LABEL_SHARE t = false) :
    ts.foldl extract_size_step acc = acc := by
  induction ts generalizing acc with
  | nil => rfl
  | cons t rest ih =>
    rw [List.foldl_cons]
    have hstep : extract_size_step acc t = acc := by
      unfold extract_size_step
      rw [h t (by simp)]
      simp
    rw [hstep]
    exact ih acc (fun u hu => h u (by simp [hu]))

/-- The underscore does not occur in a natural's decimal representation. -/
theorem underscore_not_mem_natRepr (n : Nat) : '_' ∉ natRepr n := by
  intro hmem
  obtain ⟨d, hd, hc⟩ := natRepr_mem n '_' hmem
  exact (digitChar_ne d hd).1 hc.symm

/-- The comma does not occur in a natural's decimal representation. -/
theorem comma_not_mem_natRepr (n : Nat) : ',' ∉ natRepr n := by
  intro hmem
  obtain ⟨d, hd, hc⟩ := natRepr_mem n ',' hmem
  exact (digitChar_ne d hd).2.1 hc.symm

/-- The dot does not occur in a natural's decimal representation. -/
theorem dot_not_mem_natRepr (n : Nat) : '.' ∉ natRepr n := by
  intro hmem
  obtain ⟨d, hd, hc⟩ := natRepr_mem n '.' hmem
  exact (digitChar_ne d hd).2.2.1 hc.symm

/-- Characters of an integer's decimal representation. -/
theorem intRepr_mem (a : ℤ) :
    ∀ c ∈ intRepr a, c = '-' ∨ ∃ d, d < 10 ∧ c = Char.ofNat ('0'.toNat + d) := by
  intro c hc
  unfold intRepr at hc
  by_cases ha : a < 0
  · simp only [ha, if_true, List.mem_cons] at hc
    rcases hc with hc | hc
    · exact Or.inl hc
    · exact Or.inr (natRepr_mem a.natAbs c hc)
  · simp only [ha, if_false] at hc
    exact Or.inr (natRepr_mem a.toNat c hc)

/-- The underscore does not occur in an integer's decimal representation. -/
theorem underscore_not_mem_intRepr (a : ℤ) : '_' ∉ intRepr a := by
  intro hmem
  rcases intRepr_mem a '_' hmem with h | ⟨d, hd, hc⟩
  · exact absurd h (by decide)
  · exact (digitChar_ne d hd).1 hc.symm

/-- The comma does not occur in an integer's decimal representation. -/
theorem comma_not_mem_intRepr (a : ℤ) : ',' ∉ intRepr a := by
  intro hmem
  rcases intRepr_mem a ',' hmem with h | ⟨d, hd, hc⟩
  · exact absurd h (by decide)
  · exact (digitChar_ne d hd).2.1 hc.symm

/-- The dot does not occur in an integer's decimal representation. -/
theorem dot_not_mem_intRepr (a : ℤ) : '.' ∉ intRepr a := by
  intro hmem
  rcases intRepr_mem a '.' hmem with h | ⟨d, hd, hc⟩
  · exact absurd h (by decide)
  · exact (digitChar_ne d hd).2.2.1 hc.symm

/-- The comma does not occur in a label-share tag. -/
theorem comma_not_mem_laTag (a b : ℤ) : ',' ∉ laTag a b := by
  unfold laTag
  simp only [List.mem_append, List.mem_singleton, not_or]
  refine ⟨⟨⟨by decide, comma_not_mem_intRepr a⟩, by decide⟩, comma_not_mem_intRepr b⟩

/-- `pyFloatCore` on `<digits>.<digits>` built from decimal representations. -/
theorem pyFloatCore_natRepr (m b : Nat) :
    pyFloatCore (natRepr m ++ '.' :: natRepr b) =
      some ((m : ℚ) + (b : ℚ) / (10 : ℚ) ^ (natRepr b).length) := by
  unfold pyFloatCore
  rw [splitOnChar_append '.' (natRepr m) (natRepr b) (dot_not_mem_natRepr m)]
  rw [splitOnChar_of_not_mem '.' (natRepr b) (dot_not_mem_natRepr b)]
  simp only [parseDigits_natRepr]

/-- `pyFloat` without a leading minus sign is `pyFloatCore`. -/
theorem pyFloat_of_no_minus (s : List Char) (h : ∀ rest, s ≠ '-' :: rest) :
    pyFloat s = pyFloatCore s := by
  unfold pyFloat
  split
  next rest =>
    exact absurd rfl (h rest)
  next => rfl

/-- `pyFloat` with a leading minus sign negates the core value. -/
theorem pyFloat_minus (rest : List Char) :
    pyFloat ('-' :: rest) = (pyFloatCore rest).map (fun q => -q) := rfl

/-- The decimal string `<a>.<b>` parses to the decimal value `a.b`. -/
theorem pyFloat_intRepr (a : ℤ) (b : Nat) :
    pyFloat (intRepr a ++ '.' :: natRepr b) = some (decValue a b) := by
  by_cases ha : a < 0
  · have hrepr : intRepr a = '-' :: natRepr a.natAbs := by simp [intRepr, ha]
    rw [hrepr]
    show pyFloat ('-' :: (natRepr a.natAbs ++ '.' :: natRepr b)) = _
    rw [pyFloat_minus, pyFloatCore_natRepr]
    simp [decValue, ha]
  · have hrepr : intRepr a = natRepr a.toNat := by simp [intRepr, ha]
    rw [hrepr]
    rw [pyFloat_of_no_minus _ ?hne]
    case hne =>
      intro rest heq
      obtain ⟨c, cs, hcons⟩ : ∃ c cs, natRepr a.toNat = c :: cs := by
        cases hnr : natRepr a.toNat with
        | nil => exact absurd hnr (natRepr_ne_nil a.toNat)
        | cons c cs => exact ⟨c, cs, rfl⟩
      rw [hcons] at heq
      have hc : c = '-' := by
        have := congrArg (fun l => l.head?) heq
        simpa using this
      obtain ⟨d, hd, hdc⟩ := natRepr_mem a.toNat c (by rw [hcons]; simp)
      rw [hc] at hdc
      exact (digitChar_ne d hd).2.2.2 hdc.symm
    rw [pyFloatCore_natRepr]
    have htn : a.toNat = a.natAbs := by omega
    simp [decValue, ha, htn]

/-- Decoding one `LA_<a>_<b>` tag yields the decimal value `a.b`. -/
theorem extract_size_step_laTag (a : ℤ) (b : Nat) (acc : ℚ) :
    extract_size_step acc (laTag a (b : ℤ)) = decValue a b := by
  unfold extract_size_step
  have hb : intRepr (b : ℤ) = natRepr b := by
    simp [intRepr]
  have hshape : laTag a (b : ℤ) =
      TAG_IDENTIFIER_LABEL_SHARE ++ (intRepr a ++ '_' :: natRepr b) := by
    unfold laTag
    rw [hb]
    simp
  rw [hshape, listIsPrefixOf_append_self]
  simp only [if_true]
  have hsplit : splitOnChar '_' (TAG_IDENTIFIER_LABEL_SHARE ++
      (intRepr a ++ '_' :: natRepr b)) =
      ['L', 'A'] :: intRepr a :: [natRepr b] := by
    show splitOnChar '_' (['L', 'A'] ++ '_' :: (intRepr a ++ '_' :: natRepr b)) = _
    rw [splitOnChar_append '_' ['L', 'A'] _ (by decide)]
    rw [splitOnChar_append '_' (intRepr a) _ (underscore_not_mem_intRepr a)]
    rw [splitOnChar_of_not_mem '_' (natRepr b) (underscore_not_mem_natRepr b)]
  rw [hsplit]
  show (match pyFloat (intRepr a ++ ['.'] ++ natRepr b) with
    | some v => v
    | none => acc) = decValue a b
  have : intRepr a ++ ['.'] ++ natRepr b = intRepr a ++ '.' :: natRepr b := by simp
  rw [this, pyFloat_intRepr]

/-- C9 (amended): for every integer `a` and every *natural* `b`, extracting
the size from a criterium whose tag list consists of the tag `LA_<a>_<b>`
surrounded by arbitrary comma-free tags that do not start with `LA_`
yields the decimal value `a.b` (the sign of `a` applying to the whole,
e.g. `LA_0_5 ↦ 0.5`). -/
theorem extract_size_la_roundtrip (a : ℤ) (b : Nat) (pre post : List (List Char))
    (hpre : ∀ t ∈ pre, listIsPrefixOf TAG_IDENTIFIER_LABEL_SHARE t = false)
    (hpost : ∀ t ∈ post, listIsPrefixOf TAG_IDENTIFIER_LABEL_SHARE t = false)
    (hpreC : ∀ t ∈ pre, ',' ∉ t) (hpostC : ∀ t ∈ post, ',' ∉ t) :
    extract_size (charIntercalate ',' (pre ++ laTag a (b : ℤ) :: post)) =
      decValue a b := by
  unfold extract_size
  rw [splitOnChar_charIntercalate ',' (pre ++ laTag a (b : ℤ) :: post)
    (by simp) ?hcomma]
  case hcomma =>
    intro t ht
    rcases List.mem_append.1 ht with h | h
    · exact hpreC t h
    · rcases List.mem_cons.1 h with h | h
      · rw [h]; exact comma_not_mem_laTag a (b : ℤ)
      · exact hpostC t h
  rw [List.foldl_append, foldl_extract_size_step_skip pre 0 hpre]
  rw [List.foldl_cons, extract_size_step_laTag a b 0]
  exact foldl_extract_size_step_skip post (decValue a b) hpost

/-- Witness for C9 (amended) at `a = 0`, `b = 5` with a surrounding plain
tag: `extract_size "foo,LA_0_5" = 0.5`. -/
theorem extract_size_la_roundtrip_witness :
    extract_size (charIntercalate ',' ([['f', 'o', 'o']] ++
      laTag 0 ((5 : Nat) : ℤ) :: [])) = decValue 0 5 ∧ decValue 0 5 = 1 / 2 :=
  ⟨extract_size_la_roundtrip 0 5 [['f', 'o', 'o']] []
    (fun t ht => by simp at ht; rw [ht]; rfl)
    (fun t ht => by simp at ht)
    (fun t ht => by simp at ht; rw [ht]; decide)
    (fun t ht => by simp at ht), by decide⟩

/-- C9 counterexample: with `a = 1`, `b = -5` the source leaves the running
value at `0.0` (`float("1.-5")` raises `ValueError`), and no float is
denoted by the string `1.-5` at all, so decoding `LA_1_-5` does not yield
the float `a.b` claimed for all integers. -/
theorem extract_size_la_negative_b :
    extract_size (laTag 1 (-5)) = 0 ∧
    pyFloat (intRepr 1 ++ '.' :: intRepr (-5)) = none := by
  refine ⟨by decide, by decide⟩

/-- Witness for C8 at a concrete outcome stream: the second attempt hits a
non-retryable business error after a retried rate-limit error, and is raised
on attempt index 1. -/
theorem askPulpo_retry_policy_witness :
    (0 < 3 ∧
      (askPulpo (fun i => if i = 0 then AskOutcome.rateLimited (some 7)
        else AskOutcome.businessErr) 3 30).result =
        AskResult.raised AskOutcome.businessErr 1) ∧
    (askPulpo (fun i => if i = 0 then AskOutcome.rateLimited (some 7)
      else AskOutcome.businessErr) 3 30).sleeps.head? = some 7 :=
  ⟨⟨by decide,
    ((askPulpo_retry_policy (fun i => if i = 0 then AskOutcome.rateLimited (some 7)
        else AskOutcome.businessErr) 3 30 (by decide)).2.2.1 1 (by decide)
      (fun i hi => by
        have hi0 : i = 0 := by omega
        subst hi0; decide)
      (by decide) (fun v h => by simp at h)).trans (by rfl)⟩,
   (askPulpo_retry_policy (fun i => if i = 0 then AskOutcome.rateLimited (some 7)
      else AskOutcome.businessErr) 3 30 (by decide)).2.2.2.2 (some 7) rfl
     (by decide)⟩

/-! ## No-double-emission: generic emission and container lemmas -/

/-- Membership of an id in concatenated emission lists. -/
theorem inEmitted_append (A B : List PickingOrder) (sid : Nat) :
    inEmitted (A ++ B) sid ↔ inEmitted A sid ∨ inEmitted B sid := by
  constructor
  · rintro ⟨p, hp, hs⟩
    rcases List.mem_append.mp hp with h | h
    · exact Or.inl ⟨p, h, hs⟩
    · exact Or.inr ⟨p, h, hs⟩
  · rintro (⟨p, hp, hs⟩ | ⟨p, hp, hs⟩)
    · exact ⟨p, List.mem_append.mpr (Or.inl hp), hs⟩
    · exact ⟨p, List.mem_append.mpr (Or.inr hp), hs⟩

/-- Nothing is emitted by the empty list. -/
theorem not_inEmitted_nil (sid : Nat) : ¬ inEmitted [] sid := by
  rintro ⟨p, hp, _⟩
  exact absurd hp (List.not_mem_nil p)

/-- Emission by a one-pick list. -/
theorem inEmitted_singleton (pk : PickingOrder) (sid : Nat) :
    inEmitted [pk] sid ↔ sid ∈ pk.sales_orders := by
  constructor
  · rintro ⟨p, hp, hs⟩
    rcases List.mem_singleton.mp hp
    exact hs
  · intro hs
    exact ⟨pk, List.mem_singleton.mpr rfl, hs⟩

/-- Concatenating two pairwise-disjoint emission lists with disjoint id sets
keeps the picks pairwise disjoint. -/
theorem pickDisjoint_append (A B : List PickingOrder) (hA : pickDisjoint A)
    (hB : pickDisjoint B) (h : ∀ sid, inEmitted A sid → ¬ inEmitted B sid) :
    pickDisjoint (A ++ B) := by
  refine List.pairwise_append.mpr ⟨hA, hB, ?_⟩
  intro a ha b hb sid hsa hsb
  exact h sid ⟨a, ha, hsa⟩ ⟨b, hb, hsb⟩

/-- Appending one pick with fresh ids preserves pairwise disjointness. -/
theorem pickDisjoint_snoc (A : List PickingOrder) (pk : PickingOrder)
    (hA : pickDisjoint A) (h : ∀ sid ∈ pk.sales_orders, ¬ inEmitted A sid) :
    pickDisjoint (A ++ [pk]) := by
  refine pickDisjoint_append A [pk] hA (List.pairwise_singleton _ _) ?_
  intro sid hsA hsB
  exact h sid ((inEmitted_singleton pk sid).mp hsB) hsA

/-- Pairwise-disjoint emissions mention each id in at most one pick. -/
theorem countP_le_one_of_pickDisjoint (picks : List PickingOrder)
    (h : pickDisjoint picks) (sid : Nat) :
    picks.countP (fun p => p.sales_orders.contains sid) ≤ 1 := by
  induction picks with
  | nil => simp
  | cons p ps ih =>
    rcases List.pairwise_cons.mp h with ⟨hp, hps⟩
    rw [List.countP_cons]
    by_cases hc : (p.sales_orders.contains sid) = true
    · rw [if_pos hc]
      have hz : ps.countP (fun q => q.sales_orders.contains sid) = 0 := by
        refine List.countP_eq_zero.mpr ?_
        intro q hq hqc
        exact hp q hq sid (by simpa using hc) (by simpa using hqc)
      omega
    · rw [if_neg hc]
      simpa using ih hps

/-- Membership after a Python-set insertion. -/
theorem mem_setAdd (s : List Nat) (x y : Nat) :
    y ∈ setAdd s x ↔ y ∈ s ∨ y = x := by
  unfold setAdd
  by_cases h : s.contains x
  · rw [if_pos h]
    constructor
    · exact Or.inl
    · rintro (hy | rfl)
      · exact hy
      · simpa using h
  · rw [if_neg h]
    simp [List.mem_append]

/-- Membership after a Python-set update. -/
theorem mem_setUpdate (s xs : List Nat) (y : Nat) :
    y ∈ setUpdate s xs ↔ y ∈ s ∨ y ∈ xs := by
  induction xs generalizing s with
  | nil => simp [setUpdate]
  | cons x xs ih =>
    show y ∈ setUpdate (setAdd s x) xs ↔ _
    rw [ih, mem_setAdd]
    simp [List.mem_cons]
    tauto

/-- A key found in a dictionary belongs to its key list. -/
theorem dictFind_mem_keys {κ β : Type} [BEq κ] [LawfulBEq κ] (d : Dict κ β)
    (k : κ) (v : β) (h : dictFind d k = some v) : k ∈ dictKeys d := by
  unfold dictFind at h
  cases hf : d.find? (fun p => p.1 == k) with
  | none => rw [hf] at h; cases h
  | some p =>
    have hp : p.1 = k := by simpa using List.find?_some hf
    exact List.mem_map.mpr ⟨p, List.mem_of_find?_eq_some hf, hp⟩

/-- Key list of a dictionary after `d[k] = v`. -/
theorem dictKeys_dictSet_mem {κ β : Type} [BEq κ] [LawfulBEq κ] (d : Dict κ β)
    (k k' : κ) (v : β) :
    k' ∈ dictKeys (dictSet d k v) ↔ k' ∈ dictKeys d ∨ k' = k := by
  induction d with
  | nil => simp [dictSet, dictKeys, eq_comm]
  | cons p rest ih =>
    unfold dictSet
    by_cases h : (p.1 == k) = true
    · rw [if_pos h]
      have hk : p.1 = k := by simpa using h
      simp only [dictKeys, List.map_cons, List.mem_cons]
      constructor
      · exact Or.inl
      · rintro ((rfl | hy) | rfl)
        · exact Or.inl rfl
        · exact Or.inr hy
        · exact Or.inl hk.symm
    · rw [if_neg h]
      simp only [dictKeys, List.map_cons, List.mem_cons] at ih ⊢
      rw [ih]
      tauto

/-- `d[k] = v` keeps the key list duplicate free. -/
theorem dictKeys_dictSet_nodup {κ β : Type} [BEq κ] [LawfulBEq κ] (d : Dict κ β)
    (k : κ) (v : β) (h : (dictKeys d).Nodup) :
    (dictKeys (dictSet d k v)).Nodup := by
  induction d with
  | nil => simp [dictSet, dictKeys]
  | cons p rest ih =>
    unfold dictSet
    by_cases hk : (p.1 == k) = true
    · rw [if_pos hk]
      exact h
    · rw [if_neg hk]
      simp only [dictKeys, List.map_cons, List.nodup_cons] at h ⊢
      refine ⟨?_, ih h.2⟩
      intro hmem
      rcases (dictKeys_dictSet_mem rest k p.1 v).mp hmem with hy | rfl
      · exact h.1 hy
      · simp at hk

/-- `distIncr` never adds a key. -/
theorem dictKeys_distIncr (d : Dict Nat Nat) (k : Nat) :
    ∀ x ∈ dictKeys (distIncr d k), x ∈ dictKeys d := by
  intro x hx
  unfold distIncr at hx
  cases hf : dictFind d k with
  | none => rw [hf] at hx; exact hx
  | some n =>
    rw [hf] at hx
    rcases (dictKeys_dictSet_mem d k x (n + 1)).mp hx with h | rfl
    · exact h
    · exact dictFind_mem_keys d x n hf

/-- The running minimum of the `choose_picker` fold stays in the list. -/
theorem foldl_min_mem (rest : List (Nat × Nat)) (first : Nat × Nat) :
    rest.foldl (fun best x => if x.2 < best.2 then x else best) first ∈
      first :: rest := by
  induction rest generalizing first with
  | nil => simp
  | cons a l ih =>
    rw [List.foldl_cons]
    by_cases hc : a.2 < first.2
    · rw [if_pos hc]
      rcases List.mem_cons.mp (ih a) with h | h
      · rw [h]
        exact List.mem_cons_of_mem _ (List.mem_cons_self _ _)
      · exact List.mem_cons_of_mem _ (List.mem_cons_of_mem _ h)
    · rw [if_neg hc]
      rcases List.mem_cons.mp (ih first) with h | h
      · rw [h]
        exact List.mem_cons_self _ _
      · exact List.mem_cons_of_mem _ (List.mem_cons_of_mem _ h)

/-- `choose_picker` only proposes keys of the distribution. -/
theorem choose_picker_mem (d : Dict Nat Nat) :
    ∀ x ∈ choose_picker d, x ∈ dictKeys d := by
  intro x hx
  unfold choose_picker at hx
  split at hx
  · exact hx
  · cases d with
    | nil => simp at hx
    | cons first rest =>
      rcases List.mem_singleton.mp hx with rfl
      exact List.mem_map.mpr ⟨_, foldl_min_mem rest first, rfl⟩

/-- The Partnerkunde/Palette pick distributions are keyed by the roster. -/
theorem create_picks_distribution_keys (f : Nat → Nat) (pickers : List Nat) :
    ∀ x ∈ dictKeys (create_picks_per_user_distribution f pickers), x ∈ pickers := by
  unfold create_picks_per_user_distribution
  have key : ∀ (l : List Nat) (d : Dict Nat Nat),
      ∀ x ∈ dictKeys (l.foldl
        (fun dist user_id => dictSet dist user_id (f user_id)) d),
      x ∈ dictKeys d ∨ x ∈ l := by
    intro l
    induction l with
    | nil => intro d x hx; exact Or.inl hx
    | cons u l ih =>
      intro d x hx
      rw [List.foldl_cons] at hx
      rcases ih (dictSet d u (f u)) x hx with h | h
      · rcases (dictKeys_dictSet_mem d u x (f u)).mp h with h' | rfl
        · exact Or.inl h'
        · exact Or.inr (List.mem_cons_self _ _)
      · exact Or.inr (List.mem_cons_of_mem _ h)
  intro x hx
  rcases key pickers [] x hx with h | h
  · simp [dictKeys] at h
  · exact h

/-- Stable descending insertion preserves membership. -/
theorem mem_insertDescBy {α : Type} (key : α → ℚ) (x y : α) (l : List α) :
    y ∈ insertDescBy key x l ↔ y ∈ x :: l := by
  induction l with
  | nil => exact Iff.rfl
  | cons a l ih =>
    unfold insertDescBy
    by_cases hc : key x ≥ key a
    · rw [if_pos hc]
    · rw [if_neg hc]
      simp only [List.mem_cons] at ih ⊢
      rw [ih]
      tauto

/-- Stable descending sort preserves membership. -/
theorem mem_sortDescBy {α : Type} (key : α → ℚ) (y : α) (l : List α) :
    y ∈ sortDescBy key l ↔ y ∈ l := by
  induction l with
  | nil => exact Iff.rfl
  | cons a l ih =>
    unfold sortDescBy
    rw [mem_insertDescBy]
    simp only [List.mem_cons]
    rw [ih]

/-! ## No-double-emission: the Separator -/

/-- Every posted pick carries exactly the ids it was called with. -/
theorem create_picking_sales (ids : List Nat) (note : String) (n : Nat)
    (c : Bool) (pks : List Nat) :
    (create_picking ids note n c pks).sales_orders = ids := rfl

/-- The pick posted by `create_assigned_picking` holds exactly the order id. -/
theorem create_assigned_picking_sales (hour weekday : Nat) (order : Order)
    (pickers : List Nat) (dist : Dict Nat Nat) (pk : List Nat)
    (size_note : Option String) (is_prio : Bool) :
    (create_assigned_picking hour weekday order pickers dist pk size_note
      is_prio).1.sales_orders = [order.sales_order_id] := by
  simp only [create_assigned_picking]
  split
  · cases pk <;> rfl
  · cases choose_picker dist <;> rfl

/-- The picker id `create_assigned_picking` returns comes from the
Partnerkunde roster or from the distribution it chose from. -/
theorem create_assigned_picking_pid (hour weekday : Nat) (order : Order)
    (pickers : List Nat) (dist : Dict Nat Nat) (pk : List Nat)
    (size_note : Option String) (is_prio : Bool) (pid : Nat)
    (hp : (create_assigned_picking hour weekday order pickers dist pk size_note
      is_prio).2 = some pid) :
    pid ∈ pk ∨ pid ∈ dictKeys dist := by
  simp only [create_assigned_picking] at hp
  split at hp
  · cases pk with
    | nil => cases hp
    | cons p t =>
      cases hp
      exact Or.inl (List.mem_cons_self _ _)
  · cases hcp : choose_picker dist with
    | nil => rw [hcp] at hp; cases hp
    | cons p t =>
      rw [hcp] at hp
      cases hp
      refine Or.inr (choose_picker_mem dist pid ?_)
      rw [hcp]
      exact List.mem_cons_self _ _

/-- `single_picks_creation`, under rosters that do not contain the falsy
picker id `0` and distributions keyed by the rosters: every posted pick holds
exactly the order id, a `notCreated` outcome posts no pick (so orders routed
to the buckets are never also covered by a single pick), and the updated
distributions stay keyed by the rosters. -/
theorem single_picks_creation_spec (hour weekday : Nat) (rosters : Rosters)
    (partDist palDist : Dict Nat Nat) (order : Order) (is_prio : Bool)
    (hpart : ∀ x ∈ dictKeys partDist, x ∈ rosters.partnerkunden)
    (hpal : ∀ x ∈ dictKeys palDist, x ∈ rosters.palettenversand)
    (h0p : 0 ∉ rosters.partnerkunden) (h0l : 0 ∉ rosters.palettenversand) :
    (∀ p ∈ (single_picks_creation hour weekday rosters partDist palDist order
        is_prio).1, p.sales_orders = [order.sales_order_id]) ∧
    ((single_picks_creation hour weekday rosters partDist palDist order
        is_prio).2.2.2 = SingleOutcome.notCreated →
      (single_picks_creation hour weekday rosters partDist palDist order
        is_prio).1 = []) ∧
    (∀ x ∈ dictKeys (single_picks_creation hour weekday rosters partDist palDist
        order is_prio).2.1, x ∈ rosters.partnerkunden) ∧
    (∀ x ∈ dictKeys (single_picks_creation hour weekday rosters partDist palDist
        order is_prio).2.2.1, x ∈ rosters.palettenversand) := by
  simp only [single_picks_creation]
  by_cases h1 : PARTNERKUNDE_SALES_CHANNELS.contains order.channel = true
  · simp only [if_pos h1]
    rcases hcap : create_assigned_picking hour weekday order rosters.partnerkunden
      partDist rosters.partnerkunden none is_prio with ⟨pick, pidq⟩
    have hsales : pick.sales_orders = [order.sales_order_id] := by
      have := create_assigned_picking_sales hour weekday order rosters.partnerkunden
        partDist rosters.partnerkunden none is_prio
      rw [hcap] at this
      exact this
    cases pidq with
    | none =>
      dsimp only
      refine ⟨?_, ?_, hpart, hpal⟩
      · intro p hp
        obtain rfl := List.mem_singleton.mp hp
        exact hsales
      · intro h
        exact absurd h (by decide)
    | some picker_id =>
      dsimp only
      have hmem : picker_id ∈ rosters.partnerkunden := by
        have := create_assigned_picking_pid hour weekday order rosters.partnerkunden
          partDist rosters.partnerkunden none is_prio picker_id (by rw [hcap])
        rcases this with h | h
        · exact h
        · exact hpart picker_id h
      have hne : picker_id ≠ 0 := by
        rintro rfl
        exact h0p hmem
      simp only [if_pos hne]
      by_cases hm : dictMem partDist picker_id = true
      · simp only [if_pos hm]
        refine ⟨?_, ?_, ?_, hpal⟩
        · intro p hp
          obtain rfl := List.mem_singleton.mp hp
          exact hsales
        · intro h
          exact absurd h (by decide)
        · intro x hx
          exact hpart x (dictKeys_distIncr partDist picker_id x hx)
      · simp only [if_neg hm]
        refine ⟨?_, ?_, hpart, hpal⟩
        · intro p hp
          obtain rfl := List.mem_singleton.mp hp
          exact hsales
        · intro h
          exact absurd h (by decide)
  · simp only [if_neg h1]
    by_cases h2 : order.priority > NORMAL_PRIORITY_VALUE
    · simp only [if_pos h2]
      refine ⟨?_, ?_, hpart, hpal⟩
      · intro p hp
        obtain rfl := List.mem_singleton.mp hp
        rfl
      · first
        | trivial
        | (intro h; exact absurd h (by decide))
    · simp only [if_neg h2]
      by_cases h3 : extract_size order.criterium ≥ PALETTE_LABEL_SHARE ∨
          SPECIAL_SHIPPING_METHODS.contains order.shipping_method_id = true
      · simp only [if_pos h3]
        rcases hcap : create_assigned_picking hour weekday order
          rosters.palettenversand palDist rosters.partnerkunden
          (some NOTE_PALETTE) is_prio with ⟨pick, pidq⟩
        have hsales : pick.sales_orders = [order.sales_order_id] := by
          have := create_assigned_picking_sales hour weekday order
            rosters.palettenversand palDist rosters.partnerkunden
            (some NOTE_PALETTE) is_prio
          rw [hcap] at this
          exact this
        cases pidq with
        | none =>
          dsimp only
          refine ⟨?_, ?_, hpart, hpal⟩
          · intro p hp
            obtain rfl := List.mem_singleton.mp hp
            exact hsales
          · intro h
            exact absurd h (by decide)
        | some picker_id =>
          dsimp only
          have hne : picker_id ≠ 0 := by
            have := create_assigned_picking_pid hour weekday order
              rosters.palettenversand palDist rosters.partnerkunden
              (some NOTE_PALETTE) is_prio picker_id (by rw [hcap])
            rintro rfl
            rcases this with h | h
            · exact h0p h
            · exact h0l (hpal 0 h)
          simp only [if_pos hne]
          by_cases hm : dictMem palDist picker_id = true
          · simp only [if_pos hm]
            refine ⟨?_, ?_, hpart, ?_⟩
            · intro p hp
              obtain rfl := List.mem_singleton.mp hp
              exact hsales
            · intro h
              exact absurd h (by decide)
            · intro x hx
              exact hpal x (dictKeys_distIncr palDist picker_id x hx)
          · simp only [if_neg hm]
            refine ⟨?_, ?_, hpart, hpal⟩
            · intro p hp
              obtain rfl := List.mem_singleton.mp hp
              exact hsales
            · intro h
              exact absurd h (by decide)
      · simp only [if_neg h3]
        refine ⟨?_, ?_, hpart, hpal⟩
        · intro p hp
          exact absurd hp (List.not_mem_nil p)
        · trivial

/-- Sales ids of an extended order list. -/
theorem mem_listSids_append (l : List Order) (o : Order) (sid : Nat) :
    sid ∈ listSids (l ++ [o]) ↔ sid ∈ listSids l ∨ sid = o.sales_order_id := by
  simp [listSids]

/-- Appending an order with a fresh sales id keeps the id list duplicate
free. -/
theorem listSids_nodup_snoc (l : List Order) (o : Order)
    (h : (listSids l).Nodup) (hf : o.sales_order_id ∉ listSids l) :
    (listSids (l ++ [o])).Nodup := by
  have : listSids (l ++ [o]) = listSids l ++ [o.sales_order_id] := by
    simp [listSids]
  rw [this]
  refine List.nodup_append.mpr ⟨h, List.nodup_singleton _, ?_⟩
  intro a ha hb
  rcases List.mem_singleton.mp hb with rfl
  exact hf ha

/-- Under the separator invariant every emitted id lies in the handled
prefix. -/
theorem SepInv.emitted_ids_pref (rosters : Rosters) (prefSids : List Nat)
    (st : SepState) (inv : SepInv rosters prefSids st) :
    ∀ sid, inEmitted st.emitted sid → sid ∈ prefSids := by
  rintro sid ⟨p, hp, hs⟩
  obtain ⟨s, hsales, hin⟩ := inv.emitted_single p hp
  rw [hsales] at hs
  obtain rfl := List.mem_singleton.mp hs
  exact hin

/-- The separator invariant is monotone in the handled prefix. -/
theorem SepInv.mono (rosters : Rosters) (pref pref' : List Nat) (st : SepState)
    (h : SepInv rosters pref st) (hsub : ∀ sid ∈ pref, sid ∈ pref') :
    SepInv rosters pref' st :=
  { disj := h.disj
    emitted_single := fun p hp => by
      obtain ⟨sid, hs, hin⟩ := h.emitted_single p hp
      exact ⟨sid, hs, hsub sid hin⟩
    emitted_not_bucket := h.emitted_not_bucket
    prioB_nodup := h.prioB_nodup
    nonB_nodup := h.nonB_nodup
    bucket_disj := h.bucket_disj
    prioB_pref := fun sid hs => hsub sid (h.prioB_pref sid hs)
    nonB_pref := fun sid hs => hsub sid (h.nonB_pref sid hs)
    seniP_sub := h.seniP_sub
    noseniP_sub := h.noseniP_sub
    seni_sub := h.seni_sub
    noseni_sub := h.noseni_sub
    seniP_disj := h.seniP_disj
    seni_disj := h.seni_disj
    part_keys := h.part_keys
    pal_keys := h.pal_keys }

/-- `single_picks_creation` posts no pick or exactly one pick. -/
theorem single_picks_creation_shape (hour weekday : Nat) (rosters : Rosters)
    (partDist palDist : Dict Nat Nat) (order : Order) (is_prio : Bool) :
    (single_picks_creation hour weekday rosters partDist palDist order
      is_prio).1 = [] ∨
    ∃ pk, (single_picks_creation hour weekday rosters partDist palDist order
      is_prio).1 = [pk] := by
  simp only [single_picks_creation]
  split
  · rcases hcap : create_assigned_picking hour weekday order rosters.partnerkunden
      partDist rosters.partnerkunden none is_prio with ⟨pick, pidq⟩
    cases pidq with
    | none => exact Or.inr ⟨_, rfl⟩
    | some picker_id =>
      dsimp only
      split
      · split
        · exact Or.inr ⟨_, rfl⟩
        · exact Or.inr ⟨_, rfl⟩
      · exact Or.inr ⟨_, rfl⟩
  · split
    · exact Or.inr ⟨_, rfl⟩
    · split
      · rcases hcap : create_assigned_picking hour weekday order
          rosters.palettenversand palDist rosters.partnerkunden
          (some NOTE_PALETTE) is_prio with ⟨pick, pidq⟩
        cases pidq with
        | none => exact Or.inr ⟨_, rfl⟩
        | some picker_id =>
          dsimp only
          split
          · split
            · exact Or.inr ⟨_, rfl⟩
            · exact Or.inr ⟨_, rfl⟩
          · exact Or.inr ⟨_, rfl⟩
      · exact Or.inl rfl

/-- Advancing the separator invariant over an iteration that posts a single
pick (or none) for a fresh order and leaves the buckets alone. -/
theorem SepInv.step_emit (rosters : Rosters) (prefSids : List Nat)
    (st : SepState) (sid0 : Nat) (picks : List PickingOrder)
    (partDist palDist : Dict Nat Nat) (cnt : Nat)
    (inv : SepInv rosters prefSids st)
    (hfresh : sid0 ∉ prefSids)
    (hsingle : picks = [] ∨ ∃ pk, picks = [pk])
    (hsales : ∀ p ∈ picks, p.sales_orders = [sid0])
    (hpart : ∀ x ∈ dictKeys partDist, x ∈ rosters.partnerkunden)
    (hpal : ∀ x ∈ dictKeys palDist, x ∈ rosters.palettenversand) :
    SepInv rosters (prefSids ++ [sid0])
      { st with
        orders_count := cnt
        emitted := st.emitted ++ picks
        partnerkunde_pickers_distribution := partDist
        palette_pickers_distribution := palDist } := by
  have hpref : ∀ sid ∈ prefSids, sid ∈ prefSids ++ [sid0] :=
    fun sid h => List.mem_append.mpr (Or.inl h)
  have hold : ∀ sid, inEmitted st.emitted sid → sid ∈ prefSids :=
    SepInv.emitted_ids_pref rosters prefSids st inv
  have hpickdisj : pickDisjoint (st.emitted ++ picks) := by
    rcases hsingle with rfl | ⟨pk, rfl⟩
    · simpa using inv.disj
    · refine pickDisjoint_snoc _ _ inv.disj ?_
      intro sid hs hin
      rw [hsales pk (List.mem_singleton.mpr rfl)] at hs
      obtain rfl := List.mem_singleton.mp hs
      exact hfresh (hold _ hin)
  refine
    { disj := hpickdisj
      emitted_single := ?_
      emitted_not_bucket := ?_
      prioB_nodup := inv.prioB_nodup
      nonB_nodup := inv.nonB_nodup
      bucket_disj := inv.bucket_disj
      prioB_pref := fun sid hs => hpref sid (inv.prioB_pref sid hs)
      nonB_pref := fun sid hs => hpref sid (inv.nonB_pref sid hs)
      seniP_sub := inv.seniP_sub
      noseniP_sub := inv.noseniP_sub
      seni_sub := inv.seni_sub
      noseni_sub := inv.noseni_sub
      seniP_disj := inv.seniP_disj
      seni_disj := inv.seni_disj
      part_keys := hpart
      pal_keys := hpal }
  · intro p hp
    rcases List.mem_append.mp hp with h | h
    · obtain ⟨sid, hs, hin⟩ := inv.emitted_single p h
      exact ⟨sid, hs, hpref sid hin⟩
    · exact ⟨sid0, hsales p h, List.mem_append.mpr (Or.inr (List.mem_singleton.mpr rfl))⟩
  · intro sid hin
    rcases (inEmitted_append st.emitted picks sid).mp hin with h | h
    · exact inv.emitted_not_bucket sid h
    · rcases hsingle with rfl | ⟨pk, rfl⟩
      · exact absurd h (not_inEmitted_nil sid)
      · obtain ⟨p, hp, hs⟩ := h
        obtain rfl := List.mem_singleton.mp hp
        rw [hsales p (List.mem_singleton.mpr rfl)] at hs
        obtain rfl := List.mem_singleton.mp hs
        constructor
        · intro hmem
          exact hfresh (inv.prioB_pref _ hmem)
        · intro hmem
          exact hfresh (inv.nonB_pref _ hmem)

/-- Advancing the separator invariant over an iteration that posts nothing
and routes a fresh order into the batch bucket of its band and possibly one
cart list. -/
theorem SepInv.step_route (rosters : Rosters) (prefSids : List Nat)
    (st : SepState) (order : Order) (partDist palDist : Dict Nat Nat)
    (cnt : Nat) (prioB noseniP seniP B noseniL seniL : List Order)
    (inv : SepInv rosters prefSids st)
    (hfresh : order.sales_order_id ∉ prefSids)
    (hpart : ∀ x ∈ dictKeys partDist, x ∈ rosters.partnerkunden)
    (hpal : ∀ x ∈ dictKeys palDist, x ∈ rosters.palettenversand)
    (hprioB : prioB = st.prio_orders_for_batches ∨
      prioB = st.prio_orders_for_batches ++ [order])
    (hB : B = st.orders_for_batches ∨ B = st.orders_for_batches ++ [order])
    (hPB : prioB = st.prio_orders_for_batches ∨ B = st.orders_for_batches)
    (hseniP : seniP = st.seni_prio_orders ∨
      (seniP = st.seni_prio_orders ++ [order] ∧
        prioB = st.prio_orders_for_batches ++ [order] ∧
        noseniP = st.prio_orders_without_seni))
    (hnoseniP : noseniP = st.prio_orders_without_seni ∨
      (noseniP = st.prio_orders_without_seni ++ [order] ∧
        prioB = st.prio_orders_for_batches ++ [order] ∧
        seniP = st.seni_prio_orders))
    (hseniL : seniL = st.seni_orders ∨
      (seniL = st.seni_orders ++ [order] ∧
        B = st.orders_for_batches ++ [order] ∧
        noseniL = st.orders_without_seni))
    (hnoseniL : noseniL = st.orders_without_seni ∨
      (noseniL = st.orders_without_seni ++ [order] ∧
        B = st.orders_for_batches ++ [order] ∧
        seniL = st.seni_orders)) :
    SepInv rosters (prefSids ++ [order.sales_order_id])
      ⟨st.emitted, partDist, palDist, cnt, prioB, noseniP, seniP, B,
        noseniL, seniL⟩ := by
  have hpref : ∀ sid ∈ prefSids, sid ∈ prefSids ++ [order.sales_order_id] :=
    fun sid h => List.mem_append.mpr (Or.inl h)
  have hold : ∀ sid, inEmitted st.emitted sid → sid ∈ prefSids :=
    SepInv.emitted_ids_pref rosters prefSids st inv
  have hPmem : ∀ sid ∈ listSids prioB,
      sid ∈ listSids st.prio_orders_for_batches ∨ sid = order.sales_order_id := by
    intro sid hs
    rcases hprioB with rfl | rfl
    · exact Or.inl hs
    · exact (mem_listSids_append _ _ _).mp hs
  have hBmem : ∀ sid ∈ listSids B,
      sid ∈ listSids st.orders_for_batches ∨ sid = order.sales_order_id := by
    intro sid hs
    rcases hB with rfl | rfl
    · exact Or.inl hs
    · exact (mem_listSids_append _ _ _).mp hs
  have hPup : ∀ sid ∈ listSids st.prio_orders_for_batches, sid ∈ listSids prioB := by
    intro sid hs
    rcases hprioB with rfl | rfl
    · exact hs
    · exact (mem_listSids_append _ _ _).mpr (Or.inl hs)
  have hBup : ∀ sid ∈ listSids st.orders_for_batches, sid ∈ listSids B := by
    intro sid hs
    rcases hB with rfl | rfl
    · exact hs
    · exact (mem_listSids_append _ _ _).mpr (Or.inl hs)
  have hPfresh : order.sales_order_id ∉ listSids st.prio_orders_for_batches :=
    fun h => hfresh (inv.prioB_pref _ h)
  have hBfresh : order.sales_order_id ∉ listSids st.orders_for_batches :=
    fun h => hfresh (inv.nonB_pref _ h)
  refine
    { disj := inv.disj
      emitted_single := ?_
      emitted_not_bucket := ?_
      prioB_nodup := ?_
      nonB_nodup := ?_
      bucket_disj := ?_
      prioB_pref := ?_
      nonB_pref := ?_
      seniP_sub := ?_
      noseniP_sub := ?_
      seni_sub := ?_
      noseni_sub := ?_
      seniP_disj := ?_
      seni_disj := ?_
      part_keys := hpart
      pal_keys := hpal }
  · intro p hp
    obtain ⟨sid, hs, hin⟩ := inv.emitted_single p hp
    exact ⟨sid, hs, hpref sid hin⟩
  · intro sid hin
    have hsp : sid ∈ prefSids := hold sid hin
    have hne : sid ≠ order.sales_order_id := fun h => hfresh (h ▸ hsp)
    constructor
    · intro hmem
      rcases hPmem sid hmem with h | h
      · exact (inv.emitted_not_bucket sid hin).1 h
      · exact hne h
    · intro hmem
      rcases hBmem sid hmem with h | h
      · exact (inv.emitted_not_bucket sid hin).2 h
      · exact hne h
  · rcases hprioB with rfl | rfl
    · exact inv.prioB_nodup
    · exact listSids_nodup_snoc _ _ inv.prioB_nodup hPfresh
  · rcases hB with rfl | rfl
    · exact inv.nonB_nodup
    · exact listSids_nodup_snoc _ _ inv.nonB_nodup hBfresh
  · intro sid hs hs'
    rcases hPmem sid hs with h | rfl
    · rcases hBmem sid hs' with h' | rfl
      · exact inv.bucket_disj sid h h'
      · exact hfresh (inv.prioB_pref _ h)
    · rcases hBmem _ hs' with h' | h'
      · exact hfresh (inv.nonB_pref _ h')
      · rcases hPB with hpe | hbe
        · rcases hprioB with rfl | hext
          · exact hPfresh hs
          · rw [hpe] at hext
            have := congrArg List.length hext
            simp at this
        · rcases hB with rfl | hext
          · exact hBfresh hs'
          · rw [hbe] at hext
            have := congrArg List.length hext
            simp at this
  · intro sid hs
    rcases hPmem sid hs with h | rfl
    · exact hpref sid (inv.prioB_pref _ h)
    · exact List.mem_append.mpr (Or.inr (List.mem_singleton.mpr rfl))
  · intro sid hs
    rcases hBmem sid hs with h | rfl
    · exact hpref sid (inv.nonB_pref _ h)
    · exact List.mem_append.mpr (Or.inr (List.mem_singleton.mpr rfl))
  · intro sid hs
    rcases hseniP with rfl | ⟨rfl, hP, _⟩
    · exact hPup sid (inv.seniP_sub sid hs)
    · rcases (mem_listSids_append _ _ _).mp hs with h | rfl
      · exact hPup sid (inv.seniP_sub sid h)
      · rw [hP]
        exact (mem_listSids_append _ _ _).mpr (Or.inr rfl)
  · intro sid hs
    rcases hnoseniP with rfl | ⟨rfl, hP, _⟩
    · exact hPup sid (inv.noseniP_sub sid hs)
    · rcases (mem_listSids_append _ _ _).mp hs with h | rfl
      · exact hPup sid (inv.noseniP_sub sid h)
      · rw [hP]
        exact (mem_listSids_append _ _ _).mpr (Or.inr rfl)
  · intro sid hs
    rcases hseniL with rfl | ⟨rfl, hL, _⟩
    · exact hBup sid (inv.seni_sub sid hs)
    · rcases (mem_listSids_append _ _ _).mp hs with h | rfl
      · exact hBup sid (inv.seni_sub sid h)
      · rw [hL]
        exact (mem_listSids_append _ _ _).mpr (Or.inr rfl)
  · intro sid hs
    rcases hnoseniL with rfl | ⟨rfl, hL, _⟩
    · exact hBup sid (inv.noseni_sub sid hs)
    · rcases (mem_listSids_append _ _ _).mp hs with h | rfl
      · exact hBup sid (inv.noseni_sub sid h)
      · rw [hL]
        exact (mem_listSids_append _ _ _).mpr (Or.inr rfl)
  · intro sid hs hs'
    rcases hseniP with hse | ⟨hse, hP, hns⟩
    · rw [hse] at hs
      rcases hnoseniP with hne | ⟨hne, _, _⟩
      · rw [hne] at hs'
        exact inv.seniP_disj sid hs hs'
      · rw [hne] at hs'
        rcases (mem_listSids_append _ _ _).mp hs' with h | rfl
        · exact inv.seniP_disj sid hs h
        · exact hfresh (inv.prioB_pref _ (inv.seniP_sub _ hs))
    · rw [hse] at hs
      rw [hns] at hs'
      rcases (mem_listSids_append _ _ _).mp hs with h | rfl
      · exact inv.seniP_disj sid h hs'
      · exact hfresh (inv.prioB_pref _ (inv.noseniP_sub _ hs'))
  · intro sid hs hs'
    rcases hseniL with hse | ⟨hse, hL, hns⟩
    · rw [hse] at hs
      rcases hnoseniL with hne | ⟨hne, _, _⟩
      · rw [hne] at hs'
        exact inv.seni_disj sid hs hs'
      · rw [hne] at hs'
        rcases (mem_listSids_append _ _ _).mp hs' with h | rfl
        · exact inv.seni_disj sid hs h
        · exact hfresh (inv.nonB_pref _ (inv.seni_sub _ hs))
    · rw [hse] at hs
      rw [hns] at hs'
      rcases (mem_listSids_append _ _ _).mp hs with h | rfl
      · exact inv.seni_disj sid h hs'
      · exact hfresh (inv.nonB_pref _ (inv.noseni_sub _ hs'))

/-- One separator iteration preserves the invariant when the order's sales
id is fresh. -/
theorem separator_step_inv (env : Env) (rosters : Rosters)
    (product_stock : Dict Nat ℚ) (st : SepState) (order : Order)
    (prefSids : List Nat)
    (h0p : 0 ∉ rosters.partnerkunden) (h0l : 0 ∉ rosters.palettenversand)
    (inv : SepInv rosters prefSids st)
    (hfresh : order.sales_order_id ∉ prefSids) :
    SepInv rosters (prefSids ++ [order.sales_order_id])
      (separator_step env rosters product_stock st order) := by
  simp only [separator_step]
  by_cases hc : (check_order_suitability order &&
      check_availability_locally product_stock order) = true
  · simp only [if_pos hc]
    rcases hspc : single_picks_creation env.hour env.weekday rosters
        st.partnerkunde_pickers_distribution st.palette_pickers_distribution order
        (is_order_prio env.hour env.weekday order) with
      ⟨picks, partDist, palDist, outcome⟩
    have spec := single_picks_creation_spec env.hour env.weekday rosters
      st.partnerkunde_pickers_distribution st.palette_pickers_distribution order
      (is_order_prio env.hour env.weekday order) inv.part_keys inv.pal_keys h0p h0l
    have shape := single_picks_creation_shape env.hour env.weekday rosters
      st.partnerkunde_pickers_distribution st.palette_pickers_distribution order
      (is_order_prio env.hour env.weekday order)
    rw [hspc] at spec shape
    obtain ⟨hsales, hnc, hpart', hpal'⟩ := spec
    cases outcome with
    | created =>
      exact SepInv.step_emit rosters prefSids st order.sales_order_id picks
        partDist palDist (st.orders_count + 1) inv hfresh shape hsales hpart' hpal'
    | raised =>
      exact SepInv.step_emit rosters prefSids st order.sales_order_id picks
        partDist palDist (st.orders_count + 1) inv hfresh shape hsales hpart' hpal'
    | notCreated =>
      obtain hpicks : picks = [] := hnc rfl
      subst hpicks
      rw [List.append_nil]
      by_cases hprio : is_order_prio env.hour env.weekday order = true
      · simp only [if_pos hprio]
        by_cases hsuit : suitable_for_cart_creation (skusToBatchKeys env) order
            env.is_sweeping_time = true
        · simp only [if_pos hsuit]
          by_cases hseni : check_for_seni order = true
          · simp only [if_pos hseni]
            exact SepInv.step_route rosters prefSids st order partDist palDist
              (st.orders_count + 1)
              (st.prio_orders_for_batches ++ [order]) st.prio_orders_without_seni
              (st.seni_prio_orders ++ [order]) st.orders_for_batches
              st.orders_without_seni st.seni_orders inv hfresh hpart' hpal'
              (Or.inr rfl) (Or.inl rfl) (Or.inr rfl)
              (Or.inr ⟨rfl, rfl, rfl⟩) (Or.inl rfl) (Or.inl rfl) (Or.inl rfl)
          · simp only [if_neg hseni]
            exact SepInv.step_route rosters prefSids st order partDist palDist
              (st.orders_count + 1)
              (st.prio_orders_for_batches ++ [order])
              (st.prio_orders_without_seni ++ [order])
              st.seni_prio_orders st.orders_for_batches
              st.orders_without_seni st.seni_orders inv hfresh hpart' hpal'
              (Or.inr rfl) (Or.inl rfl) (Or.inr rfl)
              (Or.inl rfl) (Or.inr ⟨rfl, rfl, rfl⟩) (Or.inl rfl) (Or.inl rfl)
        · simp only [if_neg hsuit]
          exact SepInv.step_route rosters prefSids st order partDist palDist
            (st.orders_count + 1)
            (st.prio_orders_for_batches ++ [order]) st.prio_orders_without_seni
            st.seni_prio_orders st.orders_for_batches
            st.orders_without_seni st.seni_orders inv hfresh hpart' hpal'
            (Or.inr rfl) (Or.inl rfl) (Or.inr rfl)
            (Or.inl rfl) (Or.inl rfl) (Or.inl rfl) (Or.inl rfl)
      · simp only [if_neg hprio]
        by_cases hsuit : suitable_for_cart_creation (skusToBatchKeys env) order
            env.is_sweeping_time = true
        · simp only [if_pos hsuit]
          by_cases hseni : check_for_seni order = true
          · simp only [if_pos hseni]
            exact SepInv.step_route rosters prefSids st order partDist palDist
              (st.orders_count + 1)
              st.prio_orders_for_batches st.prio_orders_without_seni
              st.seni_prio_orders (st.orders_for_batches ++ [order])
              st.orders_without_seni (st.seni_orders ++ [order]) inv hfresh
              hpart' hpal'
              (Or.inl rfl) (Or.inr rfl) (Or.inl rfl)
              (Or.inl rfl) (Or.inl rfl) (Or.inr ⟨rfl, rfl, rfl⟩) (Or.inl rfl)
          · simp only [if_neg hseni]
            exact SepInv.step_route rosters prefSids st order partDist palDist
              (st.orders_count + 1)
              st.prio_orders_for_batches st.prio_orders_without_seni
              st.seni_prio_orders (st.orders_for_batches ++ [order])
              (st.orders_without_seni ++ [order]) st.seni_orders inv hfresh
              hpart' hpal'
              (Or.inl rfl) (Or.inr rfl) (Or.inl rfl)
              (Or.inl rfl) (Or.inl rfl) (Or.inl rfl) (Or.inr ⟨rfl, rfl, rfl⟩)
        · simp only [if_neg hsuit]
          exact SepInv.step_route rosters prefSids st order partDist palDist
            (st.orders_count + 1)
            st.prio_orders_for_batches st.prio_orders_without_seni
            st.seni_prio_orders (st.orders_for_batches ++ [order])
            st.orders_without_seni st.seni_orders inv hfresh hpart' hpal'
            (Or.inl rfl) (Or.inr rfl) (Or.inl rfl)
            (Or.inl rfl) (Or.inl rfl) (Or.inl rfl) (Or.inl rfl)
  · simp only [if_neg hc]
    exact SepInv.mono rosters prefSids _ st inv
      (fun sid h => List.mem_append.mpr (Or.inl h))

/-- Folding the separator over a queue with fresh, duplicate-free sales ids
preserves the invariant. -/
theorem separator_fold_inv (env : Env) (rosters : Rosters)
    (product_stock : Dict Nat ℚ)
    (h0p : 0 ∉ rosters.partnerkunden) (h0l : 0 ∉ rosters.palettenversand) :
    ∀ (queue : List Order) (prefSids : List Nat) (st : SepState),
    (prefSids ++ listSids queue).Nodup →
    SepInv rosters prefSids st →
    SepInv rosters (prefSids ++ listSids queue)
      (queue.foldl (separator_step env rosters product_stock) st) := by
  intro queue
  induction queue with
  | nil =>
    intro prefSids st _ inv
    simpa [listSids] using inv
  | cons o rest ih =>
    intro prefSids st hnd inv
    have hnd0 : (prefSids ++ (o.sales_order_id :: listSids rest)).Nodup := by
      simpa [listSids] using hnd
    have hfresh : o.sales_order_id ∉ prefSids := by
      intro hmem
      exact (List.nodup_append.mp hnd0).2.2 hmem (List.mem_cons_self _ _)
    have step := separator_step_inv env rosters product_stock st o prefSids
      h0p h0l inv hfresh
    have hnd' : ((prefSids ++ [o.sales_order_id]) ++ listSids rest).Nodup := by
      simpa [List.append_assoc] using hnd0
    have tail := ih (prefSids ++ [o.sales_order_id])
      (separator_step env rosters product_stock st o) hnd' step
    simpa [listSids, List.append_assoc] using tail

/-- `separator_main` establishes the separator invariant over the whole
queue. -/
theorem separator_main_inv (env : Env) (rosters : Rosters)
    (product_stock : Dict Nat ℚ) (queue : List Order)
    (h0p : 0 ∉ rosters.partnerkunden) (h0l : 0 ∉ rosters.palettenversand)
    (hq : (listSids queue).Nodup) :
    SepInv rosters (listSids queue)
      (separator_main env rosters product_stock queue) := by
  simp only [separator_main]
  refine separator_fold_inv env rosters product_stock h0p h0l queue [] _
    (by simpa using hq) ?_
  exact
    { disj := List.Pairwise.nil
      emitted_single := by
        intro p hp
        exact absurd hp (List.not_mem_nil p)
      emitted_not_bucket := by
        rintro sid ⟨p, hp, _⟩
        exact absurd hp (List.not_mem_nil p)
      prioB_nodup := by simp [listSids]
      nonB_nodup := by simp [listSids]
      bucket_disj := by intro sid hs; simp [listSids] at hs
      prioB_pref := by intro sid hs; simp [listSids] at hs
      nonB_pref := by intro sid hs; simp [listSids] at hs
      seniP_sub := by intro sid hs; simp [listSids] at hs
      noseniP_sub := by intro sid hs; simp [listSids] at hs
      seni_sub := by intro sid hs; simp [listSids] at hs
      noseni_sub := by intro sid hs; simp [listSids] at hs
      seniP_disj := by intro sid hs; simp [listSids] at hs
      seni_disj := by intro sid hs; simp [listSids] at hs
      part_keys := create_picks_distribution_keys env.numPicksForUser
        rosters.partnerkunden
      pal_keys := create_picks_distribution_keys env.numPicksForUser
        rosters.palettenversand }

/-! ## No-double-emission: the batching flow -/

/-- The batching evolution relation is reflexive. -/
theorem BatchStep.batch_refl (cand : List Nat) (st : BatchState) : BatchStep cand st st :=
  ⟨⟨[], (List.append_nil _).symm,
    fun q hq => absurd hq (List.not_mem_nil q)⟩,
   fun _ h => h, fun _ h => Or.inl h⟩

/-- The batching evolution relation composes. -/
theorem BatchStep.batch_trans {cand : List Nat} {st1 st2 st3 : BatchState}
    (h12 : BatchStep cand st1 st2) (h23 : BatchStep cand st2 st3) :
    BatchStep cand st1 st3 := by
  obtain ⟨⟨new1, he1, hn1⟩, hm1, hc1⟩ := h12
  obtain ⟨⟨new2, he2, hn2⟩, hm2, hc2⟩ := h23
  refine ⟨⟨new1 ++ new2, ?_, ?_⟩, fun sid h => hm2 sid (hm1 sid h), ?_⟩
  · rw [he2, he1, List.append_assoc]
  · intro q hq sid hs
    rcases List.mem_append.mp hq with h | h
    · exact ⟨(hn1 q h sid hs).1, hm2 sid (hn1 q h sid hs).2⟩
    · exact hn2 q h sid hs
  · intro sid h
    rcases hc2 sid h with h' | h'
    · exact hc1 sid h'
    · exact Or.inr h'

/-- Pairs of a dictionary after `d[k] = v` either were present or carry the
written key. -/
theorem mem_dictSet {κ β : Type} [BEq κ] [LawfulBEq κ] (d : Dict κ β)
    (k : κ) (v : β) (pr : κ × β) (h : pr ∈ dictSet d k v) :
    pr ∈ d ∨ pr.1 = k := by
  induction d with
  | nil =>
    rcases List.mem_singleton.mp h with rfl
    exact Or.inr rfl
  | cons p rest ih =>
    unfold dictSet at h
    by_cases hk : (p.1 == k) = true
    · rw [if_pos hk] at h
      rcases List.mem_cons.mp h with rfl | h'
      · exact Or.inr (by simpa using hk)
      · exact Or.inl (List.mem_cons_of_mem _ h')
    · rw [if_neg hk] at h
      rcases List.mem_cons.mp h with rfl | h'
      · exact Or.inl (List.mem_cons_self _ _)
      · rcases ih h' with h'' | h''
        · exact Or.inl (List.mem_cons_of_mem _ h'')
        · exact Or.inr h''

/-- Every candidate id of a product names a single-item order of that
product from the bucket list. -/
theorem candIds_spec (L : List Order) (p : Nat) :
    ∀ sid ∈ candIds L p, ∃ o ∈ L, o.sales_order_id = sid ∧
      ∃ it, o.items = [it] ∧ it.product_id = p := by
  intro sid hsid
  unfold candIds extract_quantities dictKeys at hsid
  obtain ⟨pr, hpr, rfl⟩ := List.mem_map.mp hsid
  rw [mem_sortDescBy] at hpr
  have key : ∀ (l : List Order) (acc : Dict Nat Nat),
      pr ∈ l.foldl (fun acc order =>
        match order.items with
        | [item] =>
          if item.product_id == p then
            dictSet acc order.sales_order_id item.quantity
          else acc
        | _ => acc) acc →
      pr ∈ acc ∨ ∃ o ∈ l, o.sales_order_id = pr.1 ∧
        ∃ it, o.items = [it] ∧ it.product_id = p := by
    intro l
    induction l with
    | nil => intro acc h; exact Or.inl h
    | cons o rest ih =>
      intro acc h
      rw [List.foldl_cons] at h
      rcases ih _ h with h' | ⟨o', ho', hsid', hit'⟩
      · rcases ho : o.items with _ | ⟨it, tl⟩
        · simp only [ho] at h'
          exact Or.inl h'
        · rcases tl with _ | ⟨it2, tl2⟩
          · simp only [ho] at h'
            by_cases hpid : (it.product_id == p) = true
            · rw [if_pos hpid] at h'
              rcases mem_dictSet acc o.sales_order_id it.quantity pr h' with hm | hm
              · exact Or.inl hm
              · exact Or.inr ⟨o, List.mem_cons_self _ _, hm.symm,
                  it, ho, by simpa using hpid⟩
            · rw [if_neg hpid] at h'
              exact Or.inl h'
          · simp only [ho] at h'
            exact Or.inl h'
      · exact Or.inr ⟨o', List.mem_cons_of_mem _ ho', hsid', hit'⟩
  rcases key L [] hpr with h | ⟨o, ho, hsid', hit⟩
  · exact absurd h (List.not_mem_nil pr)
  · exact ⟨o, ho, hsid', hit⟩

/-- Candidate ids are sales ids of the bucket list. -/
theorem candIds_subset (L : List Order) (p : Nat) :
    ∀ sid ∈ candIds L p, sid ∈ listSids L := by
  intro sid h
  obtain ⟨o, ho, rfl, _⟩ := candIds_spec L p sid h
  exact List.mem_map.mpr ⟨o, ho, rfl⟩

/-- Over a bucket with duplicate-free sales ids, the candidate sets of two
products can only share an id when the products coincide. -/
theorem candIds_disjoint (L : List Order) (hN : (listSids L).Nodup)
    (p q sid : Nat) (hp : sid ∈ candIds L p) (hq : sid ∈ candIds L q) :
    p = q := by
  obtain ⟨o1, ho1, h1, it1, hit1, hp1⟩ := candIds_spec L p sid hp
  obtain ⟨o2, ho2, h2, it2, hit2, hp2⟩ := candIds_spec L q sid hq
  have hN' : (L.map (fun o => o.sales_order_id)).Nodup := hN
  have heq : o1 = o2 :=
    List.inj_on_of_nodup_map hN' ho1 ho2 (h1.trans h2.symm)
  subst heq
  rw [hit1] at hit2
  have : it1 = it2 := by simpa using hit2
  rw [← hp1, ← hp2, this]

/-- The per-product counts dictionary has duplicate-free keys. -/
theorem find_single_keys_nodup (orders : List Order) (seni : List Nat) :
    (dictKeys (find_single_sku_orders orders seni).1).Nodup := by
  unfold find_single_sku_orders
  have key : ∀ (l : List Order) (acc : Dict Nat Nat × List Nat),
      (dictKeys acc.1).Nodup →
      (dictKeys ((l.foldl (fun acc order =>
        match order.items with
        | [item] =>
          let seni := check_if_seni acc.2 item
          (dictSet acc.1 item.product_id (dictGetD acc.1 item.product_id 0 + 1),
            seni)
        | _ => acc) acc).1)).Nodup := by
    intro l
    induction l with
    | nil => intro acc h; exact h
    | cons o rest ih =>
      intro acc hacc
      rw [List.foldl_cons]
      refine ih _ ?_
      rcases ho : o.items with _ | ⟨it, tl⟩
      · simpa [ho] using hacc
      · rcases tl with _ | ⟨it2, tl2⟩
        · simp only [ho]
          exact dictKeys_dictSet_nodup _ _ _ hacc
        · simpa [ho] using hacc
  exact key orders ([], seni) (by simp [dictKeys])

/-- The product list chosen for batching is duplicate free. -/
theorem find_products_nodup (orders : List Order) (seni : List Nat)
    (dry : Bool) : (find_products_to_batch orders seni dry).1.Nodup := by
  unfold find_products_to_batch
  rcases hfs : find_single_sku_orders orders seni with ⟨oc, s'⟩
  dsimp only
  have hbase : (dictKeys oc).Nodup := by
    have := find_single_keys_nodup orders seni
    rw [hfs] at this
    exact this
  exact List.Nodup.sublist ((List.filter_sublist _).map _) hbase

/-- Posting one batch pick over fresh candidate ids and marking them
processed preserves the batching invariant and is a batching evolution. -/
theorem BatchInv.emit (cand : List Nat) (st : BatchState) (ids : List Nat)
    (note : String) (stock' : Dict Nat ℚ)
    (inv : BatchInv cand st)
    (hids : ∀ sid ∈ ids, sid ∈ cand)
    (hfresh : ∀ sid ∈ ids, sid ∉ st.processed_orders) :
    BatchInv cand ⟨st.emitted ++ [create_picking ids note 1 false],
      setUpdate st.processed_orders ids, stock', st.seni_ids⟩ ∧
    BatchStep cand st ⟨st.emitted ++ [create_picking ids note 1 false],
      setUpdate st.processed_orders ids, stock', st.seni_ids⟩ := by
  obtain ⟨hdisj, hsound, hfop⟩ := inv
  have hnotem : ∀ sid ∈ ids, ¬ inEmitted st.emitted sid := by
    intro sid hs hin
    exact hfresh sid hs (hfop sid (hids sid hs) hin)
  have hsales : (create_picking ids note 1 false).sales_orders = ids :=
    create_picking_sales ids note 1 false []
  refine ⟨⟨?_, ?_, ?_⟩, ⟨[create_picking ids note 1 false], rfl, ?_⟩, ?_, ?_⟩
  · refine pickDisjoint_snoc _ _ hdisj ?_
    intro sid hs
    rw [hsales] at hs
    exact hnotem sid hs
  · intro sid hmem
    rcases (mem_setUpdate st.processed_orders ids sid).mp hmem with h | h
    · obtain ⟨pk, hpk, hsid⟩ := hsound sid h
      exact ⟨pk, List.mem_append.mpr (Or.inl hpk), hsid⟩
    · exact ⟨create_picking ids note 1 false,
        List.mem_append.mpr (Or.inr (List.mem_singleton.mpr rfl)), hsales ▸ h⟩
  · intro sid hc hin
    rcases (inEmitted_append _ _ sid).mp hin with h | h
    · exact (mem_setUpdate _ _ sid).mpr (Or.inl (hfop sid hc h))
    · obtain ⟨pk, hpk, hsid⟩ := h
      obtain rfl := List.mem_singleton.mp hpk
      rw [hsales] at hsid
      exact (mem_setUpdate _ _ sid).mpr (Or.inr hsid)
  · intro q hq sid hs
    obtain rfl := List.mem_singleton.mp hq
    rw [hsales] at hs
    exact ⟨hids sid hs, (mem_setUpdate _ _ sid).mpr (Or.inr hs)⟩
  · intro sid h
    exact (mem_setUpdate _ _ sid).mpr (Or.inl h)
  · intro sid h
    rcases (mem_setUpdate _ _ sid).mp h with h' | h'
    · exact Or.inl h'
    · exact Or.inr (hids sid h')

/-- Ids collected by the split-batch fill loop: either already in the
accumulator or unprocessed keys of the remaining orders. -/
theorem split_batches_fill_ids (processed : List Nat) (mu : Option Nat) :
    ∀ (l : List (Nat × Nat)) (ids : List Nat) (q : ℚ),
    ∀ sid ∈ (split_batches_fill processed mu l ids q).1,
    sid ∈ ids ∨ (sid ∈ l.map (·.1) ∧ sid ∉ processed) := by
  intro l
  induction l with
  | nil => intro ids q sid h; exact Or.inl h
  | cons pr rest ih =>
    obtain ⟨oid, qty⟩ := pr
    intro ids q sid h
    simp only [split_batches_fill] at h
    by_cases h1 : processed.contains oid = true
    · rw [if_pos h1] at h
      rcases ih ids q sid h with h' | h'
      · exact Or.inl h'
      · exact Or.inr ⟨by simpa using Or.inr h'.1, h'.2⟩
    · rw [if_neg h1] at h
      by_cases h2 : gtMaxUnits (q + (qty : ℚ)) mu = true
      · rw [if_pos h2] at h
        exact Or.inl h
      · rw [if_neg h2] at h
        by_cases h3 : ids.length ≥ MAX_BATCH_SIZE
        · rw [if_pos h3] at h
          exact Or.inl h
        · rw [if_neg h3] at h
          rcases ih _ _ sid h with h' | h'
          · rcases (mem_setAdd ids oid sid).mp h' with hin | rfl
            · exact Or.inl hin
            · refine Or.inr ⟨by simp, ?_⟩
              intro hmem
              exact h1 (by simpa using hmem)
          · exact Or.inr ⟨by simpa using Or.inr h'.1, h'.2⟩

/-- One split-batch round preserves the batching invariant. -/
theorem split_batches_round_inv (ctx : NoteCtx) (pname : String)
    (orders : Dict Nat Nat) (mu : Option Nat) (cand : List Nat)
    (hks : ∀ sid ∈ dictKeys orders, sid ∈ cand)
    (st : BatchState) (inv : BatchInv cand st) :
    BatchInv cand (split_batches_round ctx pname orders mu st) ∧
    BatchStep cand st (split_batches_round ctx pname orders mu st) := by
  simp only [split_batches_round]
  rcases hfill : split_batches_fill st.processed_orders mu orders [] 0 with ⟨ids, bq⟩
  have hins : ∀ sid ∈ ids, sid ∈ dictKeys orders ∧ sid ∉ st.processed_orders := by
    intro sid hs
    have := split_batches_fill_ids st.processed_orders mu orders [] 0 sid
      (by rw [hfill]; exact hs)
    rcases this with h | h
    · exact absurd h (List.not_mem_nil sid)
    · exact h
  by_cases hne : ids ≠ []
  · rw [if_pos hne]
    exact BatchInv.emit cand st ids _ st.product_stock inv
      (fun sid h => hks sid (hins sid h).1) (fun sid h => (hins sid h).2)
  · rw [if_neg hne]
    exact ⟨inv, BatchStep.batch_refl cand st⟩

/-- `split_batches` preserves the batching invariant. -/
theorem split_batches_inv (ctx : NoteCtx) (pname : String)
    (orders : Dict Nat Nat) (tq : ℚ) (mu : Option Nat) (cand : List Nat)
    (hks : ∀ sid ∈ dictKeys orders, sid ∈ cand)
    (st : BatchState) (inv : BatchInv cand st) :
    BatchInv cand (split_batches ctx pname orders tq mu st) ∧
    BatchStep cand st (split_batches ctx pname orders tq mu st) := by
  simp only [split_batches]
  generalize (List.range (min (floorDivMaxUnits tq mu)
    ((orders.length / MAX_BATCH_SIZE : Nat) : ℤ)).toNat) = ns
  induction ns generalizing st with
  | nil => exact ⟨inv, BatchStep.batch_refl cand st⟩
  | cons n ns ih =>
    rw [List.foldl_cons]
    obtain ⟨inv', step'⟩ := split_batches_round_inv ctx pname orders mu cand hks st inv
    obtain ⟨inv'', step''⟩ := ih _ inv'
    exact ⟨inv'', step'.batch_trans step''⟩

/-- `regular_batching` preserves the batching invariant when the order
dictionary holds fresh candidate keys. -/
theorem regular_batching_inv (ctx : NoteCtx) (pname : String)
    (mu : Option Nat) (tq : ℚ) (orders : Dict Nat Nat) (pid : Nat)
    (cand : List Nat) (st : BatchState)
    (hks : ∀ sid ∈ dictKeys orders, sid ∈ cand ∧ sid ∉ st.processed_orders)
    (inv : BatchInv cand st) :
    BatchInv cand (regular_batching ctx pname mu tq orders pid st) ∧
    BatchStep cand st (regular_batching ctx pname mu tq orders pid st) := by
  simp only [regular_batching]
  split
  · exact BatchInv.emit cand st (dictKeys orders) _
      (dictSub st.product_stock pid tq) inv
      (fun sid h => (hks sid h).1) (fun sid h => (hks sid h).2)
  · exact split_batches_inv ctx pname orders tq mu cand
      (fun sid h => (hks sid h).1) st inv

/-- The palette loop of `special_batching` preserves the batching
invariant: every pick it posts covers one unprocessed candidate id, which it
marks processed. -/
theorem special_palette_batching_inv (ctx : NoteCtx) (pname : String)
    (sep pid : Nat) (cand : List Nat) :
    ∀ (l : List (Nat × Nat)) (tq : ℚ) (st : BatchState),
    (∀ pr ∈ l, pr.1 ∈ cand) → BatchInv cand st →
    BatchInv cand (special_palette_batching ctx pname sep pid l tq st).2 ∧
    BatchStep cand st (special_palette_batching ctx pname sep pid l tq st).2 := by
  intro l
  induction l with
  | nil =>
    intro tq st _ inv
    exact ⟨inv, BatchStep.batch_refl cand st⟩
  | cons pr rest ih =>
    obtain ⟨oid, qty⟩ := pr
    intro tq st hks inv
    simp only [special_palette_batching]
    by_cases h1 : tq ≤ 0
    · rw [if_pos h1]
      exact ⟨inv, BatchStep.batch_refl cand st⟩
    · rw [if_neg h1]
      by_cases h2 : sep ≤ qty ∧ (qty : ℚ) ≤ tq ∧
          ¬ st.processed_orders.contains oid
      · rw [if_pos h2]
        have hoid_c : oid ∈ cand := hks (oid, qty) (List.mem_cons_self _ _)
        have hoid_p : oid ∉ st.processed_orders := by
          intro hmem
          exact h2.2.2 (by simpa using hmem)
        obtain ⟨inv', step'⟩ := BatchInv.emit cand st [oid]
          (create_note ctx [oid] none none (some (qty : ℚ)) (some pname))
          (dictSub st.product_stock pid (qty : ℚ)) inv
          (by
            intro sid hs
            obtain rfl := List.mem_singleton.mp hs
            exact hoid_c)
          (by
            intro sid hs
            obtain rfl := List.mem_singleton.mp hs
            exact hoid_p)
        obtain ⟨inv'', step''⟩ := ih (tq - (qty : ℚ)) _
          (fun pr hpr => hks pr (List.mem_cons_of_mem _ hpr)) inv'
        exact ⟨inv'', step'.batch_trans step''⟩
      · rw [if_neg h2]
        exact ih tq st (fun pr hpr => hks pr (List.mem_cons_of_mem _ hpr)) inv

/-- `special_batching` preserves the batching invariant. -/
theorem special_batching_inv (env : Env) (ctx : NoteCtx) (pname : String)
    (mu : Option Nat) (tq : ℚ) (orders : Dict Nat Nat) (pid : Nat)
    (mbs : ℤ) (cand : List Nat) (st : BatchState)
    (hks : ∀ sid ∈ dictKeys orders, sid ∈ cand)
    (inv : BatchInv cand st) :
    BatchInv cand (special_batching env ctx pname mu tq orders pid mbs st) ∧
    BatchStep cand st (special_batching env ctx pname mu tq orders pid mbs st) := by
  simp only [special_batching]
  cases hpsv : find_palette_separation_value env pid with
  | none => exact ⟨inv, BatchStep.batch_refl cand st⟩
  | some sep =>
    dsimp only
    obtain ⟨inv', step'⟩ := special_palette_batching_inv ctx pname sep pid cand
      orders tq st (fun pr hpr => hks pr.1 (List.mem_map.mpr ⟨pr, hpr, rfl⟩)) inv
    have hksl : ∀ sid ∈ dictKeys
        (orders.filter (fun p =>
          ¬ (special_palette_batching ctx pname sep pid orders tq
            st).2.processed_orders.contains p.1)),
        sid ∈ cand ∧ sid ∉ (special_palette_batching ctx pname sep pid orders tq
          st).2.processed_orders := by
      intro sid hs
      obtain ⟨pr, hpr, rfl⟩ := List.mem_map.mp hs
      obtain ⟨hpo, hpc⟩ := List.mem_filter.mp hpr
      refine ⟨hks pr.1 (List.mem_map.mpr ⟨pr, hpo, rfl⟩), ?_⟩
      intro hmem
      rw [decide_eq_true_iff] at hpc
      exact hpc (by simpa using hmem)
    obtain ⟨inv'', step''⟩ := regular_batching_inv ctx pname mu
      (special_palette_batching ctx pname sep pid orders tq st).1 _ pid cand
      _ hksl inv'
    split
    · exact ⟨inv'', step'.batch_trans step''⟩
    · exact ⟨inv', step'⟩

/-- `batching_products` preserves the batching invariant for its product's
candidate set, provided the candidates are unemitted on entry. -/
theorem batching_products_inv (env : Env) (L : List Order)
    (is_prio dry : Bool) (st : BatchState) (p : Nat)
    (hdisj : pickDisjoint st.emitted)
    (hsound : ∀ sid ∈ st.processed_orders, inEmitted st.emitted sid)
    (hfresh : ∀ sid ∈ candIds L p, ¬ inEmitted st.emitted sid) :
    BatchInv (candIds L p) (batching_products env L is_prio dry st p) ∧
    BatchStep (candIds L p) st (batching_products env L is_prio dry st p) := by
  have inv : BatchInv (candIds L p) st :=
    ⟨hdisj, hsound, fun sid hc hin => absurd hin (hfresh sid hc)⟩
  have hproc : ∀ sid ∈ dictKeys (extract_quantities L p),
      sid ∈ candIds L p ∧ sid ∉ st.processed_orders := by
    intro sid h
    exact ⟨h, fun hp => hfresh sid h (hsound sid hp)⟩
  simp only [batching_products]
  split
  · exact ⟨inv, BatchStep.batch_refl _ st⟩
  · split
    · exact special_batching_inv env _ _ _ _ _ p _ (candIds L p) st
        (fun sid h => h) inv
    · exact regular_batching_inv _ _ _ _ _ p (candIds L p) st hproc inv

/-- Folding `batching_products` over a duplicate-free product list keeps the
emissions pairwise disjoint, confined to processed candidate ids. -/
theorem batching_products_fold (env : Env) (L : List Order)
    (is_prio dry : Bool) (hN : (listSids L).Nodup) (st0 : BatchState)
    (hLfresh : ∀ sid ∈ listSids L, ¬ inEmitted st0.emitted sid) :
    ∀ (ps done : List Nat) (st : BatchState),
    (done ++ ps).Nodup →
    pickDisjoint st.emitted →
    (∀ sid ∈ st.processed_orders, inEmitted st.emitted sid) →
    (∃ new, st.emitted = st0.emitted ++ new ∧
      ∀ pk ∈ new, ∀ sid ∈ pk.sales_orders,
        (∃ q ∈ done, sid ∈ candIds L q) ∧ sid ∈ st.processed_orders) →
    (∀ sid ∈ st.processed_orders,
      sid ∈ st0.processed_orders ∨ ∃ q ∈ done, sid ∈ candIds L q) →
    (∀ sid ∈ st0.processed_orders, sid ∈ st.processed_orders) →
    pickDisjoint (ps.foldl (batching_products env L is_prio dry) st).emitted ∧
    (∀ sid ∈ (ps.foldl (batching_products env L is_prio dry) st).processed_orders,
      inEmitted (ps.foldl (batching_products env L is_prio dry) st).emitted sid) ∧
    (∃ new,
      (ps.foldl (batching_products env L is_prio dry) st).emitted
        = st0.emitted ++ new ∧
      ∀ pk ∈ new, ∀ sid ∈ pk.sales_orders,
        (∃ q ∈ done ++ ps, sid ∈ candIds L q) ∧
        sid ∈ (ps.foldl (batching_products env L is_prio dry) st).processed_orders) ∧
    (∀ sid ∈ (ps.foldl (batching_products env L is_prio dry) st).processed_orders,
      sid ∈ st0.processed_orders ∨ ∃ q ∈ done ++ ps, sid ∈ candIds L q) ∧
    (∀ sid ∈ st0.processed_orders,
      sid ∈ (ps.foldl (batching_products env L is_prio dry) st).processed_orders) := by
  intro ps
  induction ps with
  | nil =>
    intro done st hnd hdisj hsound hdec hconf hmono
    simpa using ⟨hdisj, hsound, hdec, hconf, hmono⟩
  | cons p ps ih =>
    intro done st hnd hdisj hsound hdec hconf hmono
    obtain ⟨new, hemit, hids⟩ := hdec
    have hpnotdone : p ∉ done := by
      intro hmem
      exact (List.nodup_append.mp hnd).2.2 hmem (List.mem_cons_self _ _)
    have hfresh_p : ∀ sid ∈ candIds L p, ¬ inEmitted st.emitted sid := by
      intro sid hc hin
      rw [hemit] at hin
      rcases (inEmitted_append _ _ sid).mp hin with h | h
      · exact hLfresh sid (candIds_subset L p sid hc) h
      · obtain ⟨pk, hpk, hs⟩ := h
        obtain ⟨⟨q, hq, hcq⟩, _⟩ := hids pk hpk sid hs
        exact hpnotdone (candIds_disjoint L hN q p sid hcq hc ▸ hq)
    obtain ⟨⟨bdisj, bsound, _⟩, ⟨newp, hemitp, hidsp⟩, bmono, bconf⟩ :=
      batching_products_inv env L is_prio dry st p hdisj hsound hfresh_p
    rw [List.foldl_cons]
    have hnd' : ((done ++ [p]) ++ ps).Nodup := by
      simpa [List.append_assoc] using hnd
    have hdec' : ∃ new',
        (batching_products env L is_prio dry st p).emitted
          = st0.emitted ++ new' ∧
        ∀ pk ∈ new', ∀ sid ∈ pk.sales_orders,
          (∃ q ∈ done ++ [p], sid ∈ candIds L q) ∧
          sid ∈ (batching_products env L is_prio dry st p).processed_orders := by
      refine ⟨new ++ newp, by rw [hemitp, hemit, List.append_assoc], ?_⟩
      intro pk hpk sid hs
      rcases List.mem_append.mp hpk with h | h
      · obtain ⟨⟨q, hq, hcq⟩, hpr⟩ := hids pk h sid hs
        exact ⟨⟨q, List.mem_append.mpr (Or.inl hq), hcq⟩, bmono sid hpr⟩
      · obtain ⟨hcq, hpr⟩ := hidsp pk h sid hs
        exact ⟨⟨p, List.mem_append.mpr (Or.inr (List.mem_singleton.mpr rfl)),
          hcq⟩, hpr⟩
    have hconf' : ∀ sid ∈ (batching_products env L is_prio dry st p).processed_orders,
        sid ∈ st0.processed_orders ∨ ∃ q ∈ done ++ [p], sid ∈ candIds L q := by
      intro sid h
      rcases bconf sid h with h' | h'
      · rcases hconf sid h' with h'' | ⟨q, hq, hcq⟩
        · exact Or.inl h''
        · exact Or.inr ⟨q, List.mem_append.mpr (Or.inl hq), hcq⟩
      · exact Or.inr ⟨p, List.mem_append.mpr (Or.inr (List.mem_singleton.mpr rfl)), h'⟩
    have hmono' : ∀ sid ∈ st0.processed_orders,
        sid ∈ (batching_products env L is_prio dry st p).processed_orders :=
      fun sid h => bmono sid (hmono sid h)
    have tail := ih (done ++ [p]) (batching_products env L is_prio dry st p)
      hnd' bdisj bsound hdec' hconf' hmono'
    simpa [List.append_assoc] using tail

/-- `PulpoBatchingManager.main` keeps emissions pairwise disjoint; its new
picks cover only bucket ids, all of which it marks processed. -/
theorem batching_main_inv (env : Env) (L : List Order) (is_prio dry : Bool)
    (st : BatchState)
    (hN : (listSids L).Nodup)
    (hdisj : pickDisjoint st.emitted)
    (hsound : ∀ sid ∈ st.processed_orders, inEmitted st.emitted sid)
    (hLfresh : ∀ sid ∈ listSids L, ¬ inEmitted st.emitted sid) :
    pickDisjoint (batching_main env L is_prio dry st).emitted ∧
    (∀ sid ∈ (batching_main env L is_prio dry st).processed_orders,
      inEmitted (batching_main env L is_prio dry st).emitted sid) ∧
    (∃ new, (batching_main env L is_prio dry st).emitted = st.emitted ++ new ∧
      ∀ pk ∈ new, ∀ sid ∈ pk.sales_orders, sid ∈ listSids L ∧
        sid ∈ (batching_main env L is_prio dry st).processed_orders) ∧
    (∀ sid ∈ st.processed_orders,
      sid ∈ (batching_main env L is_prio dry st).processed_orders) := by
  have hnodup := find_products_nodup L st.seni_ids dry
  have key := batching_products_fold env L is_prio dry hN
    { st with seni_ids := (find_products_to_batch L st.seni_ids dry).2 }
    hLfresh (find_products_to_batch L st.seni_ids dry).1 []
    { st with seni_ids := (find_products_to_batch L st.seni_ids dry).2 }
    (by simpa using hnodup) hdisj hsound
    ⟨[], (List.append_nil _).symm, fun pk hpk => absurd hpk (List.not_mem_nil pk)⟩
    (fun sid h => Or.inl h) (fun sid h => h)
  obtain ⟨kdisj, ksound, ⟨new, hemit, hids⟩, kconf, kmono⟩ := key
  exact ⟨kdisj, ksound,
    ⟨new, hemit, fun pk hpk sid hs =>
      ⟨candIds_subset L _ sid (hids pk hpk sid hs).1.choose_spec.2,
        (hids pk hpk sid hs).2⟩⟩,
    kmono⟩

/-! ## No-double-emission: the carts flow -/

/-- The carts evolution relation is reflexive. -/
theorem CartsStep.carts_refl (pool : List Nat) (st : CartsState) : CartsStep pool st st :=
  ⟨⟨[], (List.append_nil _).symm,
    fun q hq => absurd hq (List.not_mem_nil q)⟩,
   fun _ h => h⟩

/-- The carts evolution relation composes. -/
theorem CartsStep.carts_trans {pool : List Nat} {st1 st2 st3 : CartsState}
    (h12 : CartsStep pool st1 st2) (h23 : CartsStep pool st2 st3) :
    CartsStep pool st1 st3 := by
  obtain ⟨⟨new1, he1, hn1⟩, hm1⟩ := h12
  obtain ⟨⟨new2, he2, hn2⟩, hm2⟩ := h23
  refine ⟨⟨new1 ++ new2, ?_, ?_⟩, fun sid h => hm2 sid (hm1 sid h)⟩
  · rw [he2, he1, List.append_assoc]
  · intro q hq sid hs
    rcases List.mem_append.mp hq with h | h
    · exact ⟨(hn1 q h sid hs).1, hm2 sid (hn1 q h sid hs).2⟩
    · exact hn2 q h sid hs

/-- Sales ids of a cons of orders. -/
theorem mem_listSids_cons (o : Order) (l : List Order) (sid : Nat) :
    sid ∈ listSids (o :: l) ↔ sid = o.sales_order_id ∨ sid ∈ listSids l := by
  simp [listSids]

/-- Orders selected by size come from the argument list. -/
theorem select_orders_subset (processed : List Nat) (orders : List Order)
    (size : String) :
    ∀ o ∈ select_orders_by_size processed orders size, o ∈ orders := by
  unfold select_orders_by_size
  have key : ∀ (l : List Order) (acc : List Order),
      ∀ o ∈ l.foldl (fun acc order =>
        if processed.contains order.sales_order_id then acc
        else
          match (if extract_size order.criterium ≠ 0 then
              some (define_size_note (extract_size order.criterium))
            else none) with
          | some n => if n ≠ "" ∧ n = size then acc ++ [order] else acc
          | none => acc) acc,
      o ∈ acc ∨ o ∈ l := by
    intro l
    induction l with
    | nil => intro acc o h; exact Or.inl h
    | cons a rest ih =>
      intro acc o h
      rw [List.foldl_cons] at h
      have hstep : ∀ x ∈ (if processed.contains a.sales_order_id then acc
          else
            match (if extract_size a.criterium ≠ 0 then
                some (define_size_note (extract_size a.criterium))
              else none) with
            | some n => if n ≠ "" ∧ n = size then acc ++ [a] else acc
            | none => acc),
          x ∈ acc ∨ x = a := by
        intro x hx
        split at hx
        · exact Or.inl hx
        · split at hx
          · split at hx
            · rcases List.mem_append.mp hx with h' | h'
              · exact Or.inl h'
              · exact Or.inr (List.mem_singleton.mp h')
            · exact Or.inl hx
          · exact Or.inl hx
      rcases ih _ o h with h' | h'
      · rcases hstep o h' with h'' | rfl
        · exact Or.inl h''
        · exact Or.inr (List.mem_cons_self _ _)
      · exact Or.inr (List.mem_cons_of_mem _ h')
  intro o h
  rcases key orders [] o h with h' | h'
  · exact absurd h' (List.not_mem_nil o)
  · exact h'

/-- Ids added by the shelf fill: unprocessed sales ids of the creator's
order list. -/
theorem fill_cart_from_shelf_ids (env : Env) (processed : List Nat)
    (mcs : Nat) (shelfp : List Nat) :
    ∀ (l : List Order) (cart : List Nat) (ap stock : Dict Nat ℚ),
    ∀ sid ∈ (fill_cart_from_shelf env processed mcs shelfp l cart ap stock).1,
    sid ∈ cart ∨ (sid ∈ listSids l ∧ sid ∉ processed) := by
  intro l
  induction l with
  | nil => intro cart ap stock sid h; exact Or.inl h
  | cons o rest ih =>
    intro cart ap stock sid h
    simp only [fill_cart_from_shelf] at h
    by_cases h1 : cart.length ≥ mcs
    · rw [if_pos h1] at h
      exact Or.inl h
    · rw [if_neg h1] at h
      by_cases h2 : ¬ processed.contains o.sales_order_id = true ∧
          ¬ cart.contains o.sales_order_id = true ∧
          order_has_products_on_shelf o shelfp = true
      · rw [if_pos h2] at h
        by_cases h3 : (is_order_fully_available env ap o.items stock).1 = true
        · rw [if_pos h3] at h
          rcases ih _ _ _ sid h with h' | h'
          · rcases List.mem_append.mp h' with hc | hs
            · exact Or.inl hc
            · obtain rfl := List.mem_singleton.mp hs
              refine Or.inr ⟨(mem_listSids_cons o rest _).mpr (Or.inl rfl), ?_⟩
              intro hm
              exact h2.1 (by simpa using hm)
          · exact Or.inr ⟨(mem_listSids_cons o rest sid).mpr (Or.inr h'.1), h'.2⟩
        · rw [if_neg h3] at h
          rcases ih _ _ _ sid h with h' | h'
          · exact Or.inl h'
          · exact Or.inr ⟨(mem_listSids_cons o rest sid).mpr (Or.inr h'.1), h'.2⟩
      · rw [if_neg h2] at h
        rcases ih _ _ _ sid h with h' | h'
        · exact Or.inl h'
        · exact Or.inr ⟨(mem_listSids_cons o rest sid).mpr (Or.inr h'.1), h'.2⟩

/-- Ids added by the random fill: unprocessed sales ids of the order list. -/
theorem fill_cart_random_pass_ids (env : Env) (processed : List Nat)
    (mcs : Nat) :
    ∀ (l : List Order) (cart : List Nat) (ap stock : Dict Nat ℚ),
    ∀ sid ∈ (fill_cart_random_pass env processed mcs l cart ap stock).1,
    sid ∈ cart ∨ (sid ∈ listSids l ∧ sid ∉ processed) := by
  intro l
  induction l with
  | nil => intro cart ap stock sid h; exact Or.inl h
  | cons o rest ih =>
    intro cart ap stock sid h
    simp only [fill_cart_random_pass] at h
    by_cases h1 : cart.length ≥ mcs
    · rw [if_pos h1] at h
      exact Or.inl h
    · rw [if_neg h1] at h
      by_cases h2 : ¬ processed.contains o.sales_order_id = true ∧
          ¬ cart.contains o.sales_order_id = true
      · rw [if_pos h2] at h
        by_cases h3 : (is_order_fully_available env ap o.items stock).1 = true
        · rw [if_pos h3] at h
          rcases ih _ _ _ sid h with h' | h'
          · rcases List.mem_append.mp h' with hc | hs
            · exact Or.inl hc
            · obtain rfl := List.mem_singleton.mp hs
              refine Or.inr ⟨(mem_listSids_cons o rest _).mpr (Or.inl rfl), ?_⟩
              intro hm
              exact h2.1 (by simpa using hm)
          · exact Or.inr ⟨(mem_listSids_cons o rest sid).mpr (Or.inr h'.1), h'.2⟩
        · rw [if_neg h3] at h
          rcases ih _ _ _ sid h with h' | h'
          · exact Or.inl h'
          · exact Or.inr ⟨(mem_listSids_cons o rest sid).mpr (Or.inr h'.1), h'.2⟩
      · rw [if_neg h2] at h
        rcases ih _ _ _ sid h with h' | h'
        · exact Or.inl h'
        · exact Or.inr ⟨(mem_listSids_cons o rest sid).mpr (Or.inr h'.1), h'.2⟩

/-- `create_cart` posts nothing when it reports `False`, and posts exactly
one pick over the new cart (leaving `processed_orders` alone) when it
reports `True`. -/
theorem create_cart_spec (orders : List Order)
    (is_prio is_sweeping_time is_running_dry : Bool) (hour weekday : Nat)
    (new_cart : List Nat) (size : PackageSizeEntity) (shelf : String)
    (st : CartsState) :
    ((create_cart orders is_prio is_sweeping_time is_running_dry hour weekday
        new_cart size shelf st).1 = false →
      (create_cart orders is_prio is_sweeping_time is_running_dry hour weekday
        new_cart size shelf st).2 = st) ∧
    ((create_cart orders is_prio is_sweeping_time is_running_dry hour weekday
        new_cart size shelf st).1 = true →
      (create_cart orders is_prio is_sweeping_time is_running_dry hour weekday
        new_cart size shelf st).2.processed_orders = st.processed_orders ∧
      ∃ pk, pk.sales_orders = new_cart ∧
        (create_cart orders is_prio is_sweeping_time is_running_dry hour weekday
          new_cart size shelf st).2.emitted = st.emitted ++ [pk]) := by
  simp only [create_cart]
  repeat' split
  all_goals
    first
      | (refine ⟨fun h => Bool.noConfusion h, fun _ => ⟨rfl, ?_⟩⟩
         refine ⟨_, ?_, rfl⟩
         exact create_picking_sales _ _ _ _ _)
      | exact ⟨fun _ => rfl, fun h => Bool.noConfusion h⟩

/-- `check_space` never touches emissions or the processed list. -/
theorem check_space_preserves (env : Env) (is_prio : Bool) (st : CartsState) :
    (check_space env is_prio st).2.emitted = st.emitted ∧
    (check_space env is_prio st).2.processed_orders = st.processed_orders := by
  simp only [check_space]
  split
  · exact ⟨rfl, rfl⟩
  · split
    · exact ⟨rfl, rfl⟩
    · exact ⟨rfl, rfl⟩

/-- Carts transition that changes neither emissions nor the processed list
(stock writes, space bookkeeping). -/
theorem CartsInv.stock_only (pool : List Nat) (st st' : CartsState)
    (inv : CartsInv pool st)
    (hemit : st'.emitted = st.emitted)
    (hproc : st'.processed_orders = st.processed_orders) :
    CartsInv pool st' ∧ CartsStep pool st st' := by
  refine ⟨⟨?_, ?_⟩,
    ⟨[], by rw [hemit, List.append_nil],
      fun q hq => absurd hq (List.not_mem_nil q)⟩, ?_⟩
  · rw [hemit]
    exact inv.1
  · intro sid hp hin
    rw [hproc]
    rw [hemit] at hin
    exact inv.2 sid hp hin
  · intro sid h
    rw [hproc]
    exact h

/-- Carts transition that posts one cart pick over fresh pool ids and marks
the cart processed. -/
theorem CartsInv.emit_cart (pool : List Nat) (st st' : CartsState)
    (cart : List Nat) (pk : PickingOrder)
    (inv : CartsInv pool st)
    (hpk : pk.sales_orders = cart)
    (hemit : st'.emitted = st.emitted ++ [pk])
    (hproc : st'.processed_orders = st.processed_orders ++ cart)
    (hcart : ∀ sid ∈ cart, sid ∈ pool ∧ sid ∉ st.processed_orders) :
    CartsInv pool st' ∧ CartsStep pool st st' := by
  refine ⟨⟨?_, ?_⟩, ⟨[pk], hemit, ?_⟩, ?_⟩
  · rw [hemit]
    refine pickDisjoint_snoc _ _ inv.1 ?_
    intro sid hs hin
    rw [hpk] at hs
    exact (hcart sid hs).2 (inv.2 sid (hcart sid hs).1 hin)
  · intro sid hp hin
    rw [hproc]
    rw [hemit] at hin
    rcases (inEmitted_append _ _ sid).mp hin with h | h
    · exact List.mem_append.mpr (Or.inl (inv.2 sid hp h))
    · obtain ⟨q, hq, hsq⟩ := h
      obtain rfl := List.mem_singleton.mp hq
      rw [hpk] at hsq
      exact List.mem_append.mpr (Or.inr hsq)
  · intro q hq sid hs
    obtain rfl := List.mem_singleton.mp hq
    rw [hpk] at hs
    refine ⟨(hcart sid hs).1, ?_⟩
    rw [hproc]
    exact List.mem_append.mpr (Or.inr hs)
  · intro sid h
    rw [hproc]
    exact List.mem_append.mpr (Or.inl h)

/-- `generate_carts` preserves the carts invariant; every cart it posts
holds fresh pool ids which it marks processed. -/
theorem generate_carts_inv (env : Env) (orders : List Order)
    (is_prio is_sweeping_time is_running_dry : Bool) (size : PackageSizeEntity)
    (pool : List Nat) (hsub : ∀ sid ∈ listSids orders, sid ∈ pool) :
    ∀ (shelves : List String) (space : Space) (st : CartsState),
    CartsInv pool st →
    CartsInv pool (generate_carts env orders is_prio is_sweeping_time
      is_running_dry size shelves space st).2 ∧
    CartsStep pool st (generate_carts env orders is_prio is_sweeping_time
      is_running_dry size shelves space st).2 := by
  intro shelves
  induction shelves with
  | nil =>
    intro space st inv
    exact ⟨inv, CartsStep.carts_refl pool st⟩
  | cons shelf rest ih =>
    intro space st inv
    simp only [generate_carts]
    by_cases h1 : spaceEqZero space = true
    · rw [if_pos h1]
      exact ⟨inv, CartsStep.carts_refl pool st⟩
    · rw [if_neg h1]
      obtain ⟨inv1, step01⟩ := CartsInv.stock_only pool st
        { st with product_stock :=
          (fill_cart_from_shelf env st.processed_orders size.max
            (dictGetD env.shelvesIndex shelf []) orders [] [] st.product_stock).2 }
        inv rfl rfl
      have hcart1 : ∀ sid ∈ (fill_cart_from_shelf env st.processed_orders size.max
          (dictGetD env.shelvesIndex shelf []) orders [] [] st.product_stock).1,
          sid ∈ pool ∧ sid ∉ st.processed_orders := by
        intro sid hs
        rcases fill_cart_from_shelf_ids env st.processed_orders size.max
          (dictGetD env.shelvesIndex shelf []) orders [] [] st.product_stock
          sid hs with h | h
        · exact absurd h (List.not_mem_nil sid)
        · exact ⟨hsub sid h.1, h.2⟩
      by_cases h2 : (fill_cart_from_shelf env st.processed_orders size.max
          (dictGetD env.shelvesIndex shelf []) orders [] [] st.product_stock).1 ≠ []
      · rw [if_pos h2]
        by_cases h3 : (create_cart orders is_prio is_sweeping_time is_running_dry
            env.hour env.weekday
            (fill_cart_from_shelf env st.processed_orders size.max
              (dictGetD env.shelvesIndex shelf []) orders [] [] st.product_stock).1
            size shelf
            { st with product_stock :=
              (fill_cart_from_shelf env st.processed_orders size.max
                (dictGetD env.shelvesIndex shelf []) orders [] []
                st.product_stock).2 }).1 = true
        · rw [if_pos h3]
          obtain ⟨hproc_eq, pk, hpk_sales, hemit⟩ := (create_cart_spec orders
            is_prio is_sweeping_time is_running_dry env.hour env.weekday
            (fill_cart_from_shelf env st.processed_orders size.max
              (dictGetD env.shelvesIndex shelf []) orders [] [] st.product_stock).1
            size shelf
            { st with product_stock :=
              (fill_cart_from_shelf env st.processed_orders size.max
                (dictGetD env.shelvesIndex shelf []) orders [] []
                st.product_stock).2 }).2 h3
          obtain ⟨inv3, step13⟩ := CartsInv.emit_cart pool
            { st with product_stock :=
              (fill_cart_from_shelf env st.processed_orders size.max
                (dictGetD env.shelvesIndex shelf []) orders [] []
                st.product_stock).2 }
            { (create_cart orders is_prio is_sweeping_time is_running_dry
                env.hour env.weekday
                (fill_cart_from_shelf env st.processed_orders size.max
                  (dictGetD env.shelvesIndex shelf []) orders [] []
                  st.product_stock).1 size shelf
                { st with product_stock :=
                  (fill_cart_from_shelf env st.processed_orders size.max
                    (dictGetD env.shelvesIndex shelf []) orders [] []
                    st.product_stock).2 }).2 with
              processed_orders :=
                (create_cart orders is_prio is_sweeping_time is_running_dry
                  env.hour env.weekday
                  (fill_cart_from_shelf env st.processed_orders size.max
                    (dictGetD env.shelvesIndex shelf []) orders [] []
                    st.product_stock).1 size shelf
                  { st with product_stock :=
                    (fill_cart_from_shelf env st.processed_orders size.max
                      (dictGetD env.shelvesIndex shelf []) orders [] []
                      st.product_stock).2 }).2.processed_orders ++
                (fill_cart_from_shelf env st.processed_orders size.max
                  (dictGetD env.shelvesIndex shelf []) orders [] []
                  st.product_stock).1
              product_stock := update_stock_dictionary orders
                (fill_cart_from_shelf env st.processed_orders size.max
                  (dictGetD env.shelvesIndex shelf []) orders [] []
                  st.product_stock).1
                (create_cart orders is_prio is_sweeping_time is_running_dry
                  env.hour env.weekday
                  (fill_cart_from_shelf env st.processed_orders size.max
                    (dictGetD env.shelvesIndex shelf []) orders [] []
                    st.product_stock).1 size shelf
                  { st with product_stock :=
                    (fill_cart_from_shelf env st.processed_orders size.max
                      (dictGetD env.shelvesIndex shelf []) orders [] []
                      st.product_stock).2 }).2.product_stock }
            (fill_cart_from_shelf env st.processed_orders size.max
              (dictGetD env.shelvesIndex shelf []) orders [] []
              st.product_stock).1
            pk inv1 hpk_sales hemit
            (congrArg (fun l => l ++
              (fill_cart_from_shelf env st.processed_orders size.max
                (dictGetD env.shelvesIndex shelf []) orders [] []
                st.product_stock).1) hproc_eq)
            hcart1
          obtain ⟨invF, stepF⟩ := ih (spaceDec space) _ inv3
          exact ⟨invF, (step01.carts_trans step13).carts_trans stepF⟩
        · rw [if_neg h3]
          have hfalse : (create_cart orders is_prio is_sweeping_time
              is_running_dry env.hour env.weekday
              (fill_cart_from_shelf env st.processed_orders size.max
                (dictGetD env.shelvesIndex shelf []) orders [] []
                st.product_stock).1 size shelf
              { st with product_stock :=
                (fill_cart_from_shelf env st.processed_orders size.max
                  (dictGetD env.shelvesIndex shelf []) orders [] []
                  st.product_stock).2 }).1 = false := by
            simpa using h3
          have heq := (create_cart_spec orders is_prio is_sweeping_time
            is_running_dry env.hour env.weekday
            (fill_cart_from_shelf env st.processed_orders size.max
              (dictGetD env.shelvesIndex shelf []) orders [] [] st.product_stock).1
            size shelf
            { st with product_stock :=
              (fill_cart_from_shelf env st.processed_orders size.max
                (dictGetD env.shelvesIndex shelf []) orders [] []
                st.product_stock).2 }).1 hfalse
          have invX : CartsInv pool (create_cart orders is_prio is_sweeping_time
              is_running_dry env.hour env.weekday
              (fill_cart_from_shelf env st.processed_orders size.max
                (dictGetD env.shelvesIndex shelf []) orders [] []
                st.product_stock).1 size shelf
              { st with product_stock :=
                (fill_cart_from_shelf env st.processed_orders size.max
                  (dictGetD env.shelvesIndex shelf []) orders [] []
                  st.product_stock).2 }).2 := by
            rw [heq]
            exact inv1
          have stepX : CartsStep pool
              { st with product_stock :=
                (fill_cart_from_shelf env st.processed_orders size.max
                  (dictGetD env.shelvesIndex shelf []) orders [] []
                  st.product_stock).2 }
              (create_cart orders is_prio is_sweeping_time is_running_dry
                env.hour env.weekday
                (fill_cart_from_shelf env st.processed_orders size.max
                  (dictGetD env.shelvesIndex shelf []) orders [] []
                  st.product_stock).1 size shelf
                { st with product_stock :=
                  (fill_cart_from_shelf env st.processed_orders size.max
                    (dictGetD env.shelvesIndex shelf []) orders [] []
                    st.product_stock).2 }).2 := by
            rw [heq]
            exact CartsStep.carts_refl pool _
          obtain ⟨invF, stepF⟩ := ih space _ invX
          exact ⟨invF, (step01.carts_trans stepX).carts_trans stepF⟩
      · rw [if_neg h2]
        obtain ⟨invF, stepF⟩ := ih space _ inv1
        exact ⟨invF, step01.carts_trans stepF⟩

/-- `CartsCreatorShelves.main` preserves the carts invariant. -/
theorem carts_shelves_main_inv (env : Env) (orders : List Order)
    (is_prio is_sweeping_time is_running_dry : Bool) (size : PackageSizeEntity)
    (pool : List Nat) (hsub : ∀ sid ∈ listSids orders, sid ∈ pool)
    (space : Space) (st : CartsState) (inv : CartsInv pool st) :
    CartsInv pool (carts_shelves_main env orders is_prio is_sweeping_time
      is_running_dry size space st).2 ∧
    CartsStep pool st (carts_shelves_main env orders is_prio is_sweeping_time
      is_running_dry size space st).2 := by
  simp only [carts_shelves_main]
  split
  · exact generate_carts_inv env orders is_prio is_sweeping_time is_running_dry
      size pool hsub _ space st inv
  · exact ⟨inv, CartsStep.carts_refl pool st⟩

/-- `fill_cart_randomly` preserves the carts invariant. -/
theorem fill_cart_randomly_inv (env : Env) (orders : List Order)
    (is_prio is_sweeping_time is_running_dry : Bool) (size : PackageSizeEntity)
    (pool : List Nat) (hsub : ∀ sid ∈ listSids orders, sid ∈ pool)
    (space : Space) (st : CartsState) (inv : CartsInv pool st) :
    CartsInv pool (fill_cart_randomly env orders is_prio is_sweeping_time
      is_running_dry size space st).2 ∧
    CartsStep pool st (fill_cart_randomly env orders is_prio is_sweeping_time
      is_running_dry size space st).2 := by
  simp only [fill_cart_randomly]
  obtain ⟨inv1, step01⟩ := CartsInv.stock_only pool st
    { st with product_stock :=
      (fill_cart_random_pass env st.processed_orders size.max orders [] []
        st.product_stock).2 }
    inv rfl rfl
  have hcart1 : ∀ sid ∈ (fill_cart_random_pass env st.processed_orders size.max
      orders [] [] st.product_stock).1,
      sid ∈ pool ∧ sid ∉ st.processed_orders := by
    intro sid hs
    rcases fill_cart_random_pass_ids env st.processed_orders size.max
      orders [] [] st.product_stock sid hs with h | h
    · exact absurd h (List.not_mem_nil sid)
    · exact ⟨hsub sid h.1, h.2⟩
  by_cases h2 : (fill_cart_random_pass env st.processed_orders size.max orders
      [] [] st.product_stock).1 ≠ []
  · rw [if_pos h2]
    by_cases h3 : (create_cart orders is_prio is_sweeping_time is_running_dry
        env.hour env.weekday
        (fill_cart_random_pass env st.processed_orders size.max orders [] []
          st.product_stock).1 size ""
        { st with product_stock :=
          (fill_cart_random_pass env st.processed_orders size.max orders [] []
            st.product_stock).2 }).1 = true
    · rw [if_pos h3]
      obtain ⟨hproc_eq, pk, hpk_sales, hemit⟩ := (create_cart_spec orders
        is_prio is_sweeping_time is_running_dry env.hour env.weekday
        (fill_cart_random_pass env st.processed_orders size.max orders [] []
          st.product_stock).1 size ""
        { st with product_stock :=
          (fill_cart_random_pass env st.processed_orders size.max orders [] []
            st.product_stock).2 }).2 h3
      obtain ⟨inv3, step13⟩ := CartsInv.emit_cart pool
        { st with product_stock :=
          (fill_cart_random_pass env st.processed_orders size.max orders [] []
            st.product_stock).2 }
        { (create_cart orders is_prio is_sweeping_time is_running_dry
            env.hour env.weekday
            (fill_cart_random_pass env st.processed_orders size.max orders [] []
              st.product_stock).1 size ""
            { st with product_stock :=
              (fill_cart_random_pass env st.processed_orders size.max orders
                [] [] st.product_stock).2 }).2 with
          processed_orders :=
            (create_cart orders is_prio is_sweeping_time is_running_dry
              env.hour env.weekday
              (fill_cart_random_pass env st.processed_orders size.max orders
                [] [] st.product_stock).1 size ""
              { st with product_stock :=
                (fill_cart_random_pass env st.processed_orders size.max orders
                  [] [] st.product_stock).2 }).2.processed_orders ++
            (fill_cart_random_pass env st.processed_orders size.max orders [] []
              st.product_stock).1
          product_stock := update_stock_dictionary orders
            (fill_cart_random_pass env st.processed_orders size.max orders [] []
              st.product_stock).1
            (create_cart orders is_prio is_sweeping_time is_running_dry
              env.hour env.weekday
              (fill_cart_random_pass env st.processed_orders size.max orders
                [] [] st.product_stock).1 size ""
              { st with product_stock :=
                (fill_cart_random_pass env st.processed_orders size.max orders
                  [] [] st.product_stock).2 }).2.product_stock }
        (fill_cart_random_pass env st.processed_orders size.max orders [] []
          st.product_stock).1
        pk inv1 hpk_sales hemit
        (congrArg (fun l => l ++
          (fill_cart_random_pass env st.processed_orders size.max orders [] []
            st.product_stock).1) hproc_eq)
        hcart1
      exact ⟨inv3, step01.carts_trans step13⟩
    · rw [if_neg h3]
      have hfalse : (create_cart orders is_prio is_sweeping_time is_running_dry
          env.hour env.weekday
          (fill_cart_random_pass env st.processed_orders size.max orders [] []
            st.product_stock).1 size ""
          { st with product_stock :=
            (fill_cart_random_pass env st.processed_orders size.max orders [] []
              st.product_stock).2 }).1 = false := by
        simpa using h3
      have heq := (create_cart_spec orders is_prio is_sweeping_time
        is_running_dry env.hour env.weekday
        (fill_cart_random_pass env st.processed_orders size.max orders [] []
          st.product_stock).1 size ""
        { st with product_stock :=
          (fill_cart_random_pass env st.processed_orders size.max orders [] []
            st.product_stock).2 }).1 hfalse
      refine ⟨?_, ?_⟩
      · rw [heq]
        exact inv1
      · refine CartsStep.carts_trans step01 ?_
        rw [heq]
        exact CartsStep.carts_refl pool _
  · rw [if_neg h2]
    exact ⟨inv1, step01⟩

/-- `PulpoCartsManager.main` preserves the carts invariant over the pool of
its order list. -/
theorem carts_main_inv (env : Env) (size : PackageSizeEntity)
    (orders : List Order) (is_prio is_sweeping_time is_running_dry : Bool)
    (st : CartsState) (inv : CartsInv (listSids orders) st) :
    CartsInv (listSids orders) (carts_main env size orders is_prio
      is_sweeping_time is_running_dry st) ∧
    CartsStep (listSids orders) st (carts_main env size orders is_prio
      is_sweeping_time is_running_dry st) := by
  simp only [carts_main]
  obtain ⟨hem0, hpr0⟩ := check_space_preserves env is_prio st
  obtain ⟨inv1, step01⟩ := CartsInv.stock_only (listSids orders) st
    (check_space env is_prio st).2 inv hem0 hpr0
  have hsubp : ∀ sid ∈ listSids (select_orders_by_size
      (check_space env is_prio st).2.processed_orders orders size.note),
      sid ∈ listSids orders := by
    intro sid hs
    obtain ⟨o, ho, rfl⟩ := List.mem_map.mp hs
    exact List.mem_map.mpr ⟨o,
      select_orders_subset _ orders size.note o ho, rfl⟩
  split
  · obtain ⟨inv2, step12⟩ := carts_shelves_main_inv env _ is_prio
      is_sweeping_time is_running_dry size (listSids orders) hsubp
      (check_space env is_prio st).1 (check_space env is_prio st).2 inv1
    split
    · have hsubr : ∀ sid ∈ listSids (remove_processed_orders
          (carts_shelves_main env (select_orders_by_size
            (check_space env is_prio st).2.processed_orders orders size.note)
            is_prio is_sweeping_time is_running_dry size
            (check_space env is_prio st).1
            (check_space env is_prio st).2).2.processed_orders
          (select_orders_by_size
            (check_space env is_prio st).2.processed_orders orders size.note)),
          sid ∈ listSids orders := by
        intro sid hs
        obtain ⟨o, ho, rfl⟩ := List.mem_map.mp hs
        exact hsubp _ (List.mem_map.mpr ⟨o, List.mem_of_mem_filter ho, rfl⟩)
      obtain ⟨inv3, step23⟩ := fill_cart_randomly_inv env _ is_prio
        is_sweeping_time is_running_dry size (listSids orders) hsubr
        (carts_shelves_main env (select_orders_by_size
          (check_space env is_prio st).2.processed_orders orders size.note)
          is_prio is_sweeping_time is_running_dry size
          (check_space env is_prio st).1 (check_space env is_prio st).2).1
        (carts_shelves_main env (select_orders_by_size
          (check_space env is_prio st).2.processed_orders orders size.note)
          is_prio is_sweeping_time is_running_dry size
          (check_space env is_prio st).1 (check_space env is_prio st).2).2 inv2
      exact ⟨inv3, (step01.carts_trans step12).carts_trans step23⟩
    · exact ⟨inv2, step01.carts_trans step12⟩
  · exact ⟨inv1, step01⟩

/-! ## No-double-emission: the orchestrator -/

/-- The size loop of `picking_creation_carts` preserves disjointness: its
new picks cover fresh pool ids, all marked processed for carts; the batch
bookkeeping is untouched. -/
theorem picking_creation_carts_go_inv (env : Env) (orders : List Order)
    (is_prio is_sweeping_time is_running_dry : Bool) :
    ∀ (sizes : List PackageSizeEntity) (rs : RunState),
    pickDisjoint rs.emitted →
    (∀ sid ∈ listSids orders, inEmitted rs.emitted sid →
      sid ∈ rs.carts_processed) →
    pickDisjoint (picking_creation_carts_go env orders is_prio
      is_sweeping_time is_running_dry sizes rs).emitted ∧
    (∀ sid ∈ listSids orders,
      inEmitted (picking_creation_carts_go env orders is_prio
        is_sweeping_time is_running_dry sizes rs).emitted sid →
      sid ∈ (picking_creation_carts_go env orders is_prio
        is_sweeping_time is_running_dry sizes rs).carts_processed) ∧
    (∃ new, (picking_creation_carts_go env orders is_prio
        is_sweeping_time is_running_dry sizes rs).emitted
        = rs.emitted ++ new ∧
      ∀ pk ∈ new, ∀ sid ∈ pk.sales_orders, sid ∈ listSids orders ∧
        sid ∈ (picking_creation_carts_go env orders is_prio
          is_sweeping_time is_running_dry sizes rs).carts_processed) ∧
    (∀ sid ∈ rs.carts_processed,
      sid ∈ (picking_creation_carts_go env orders is_prio
        is_sweeping_time is_running_dry sizes rs).carts_processed) ∧
    (picking_creation_carts_go env orders is_prio is_sweeping_time
      is_running_dry sizes rs).batch_processed = rs.batch_processed := by
  intro sizes
  induction sizes with
  | nil =>
    intro rs hdisj hpool
    exact ⟨hdisj, hpool,
      ⟨[], (List.append_nil _).symm, fun pk hpk => absurd hpk (List.not_mem_nil pk)⟩,
      fun _ h => h, rfl⟩
  | cons size rest ih =>
    intro rs hdisj hpool
    simp only [picking_creation_carts_go]
    split
    · exact ⟨hdisj, hpool,
        ⟨[], (List.append_nil _).symm,
          fun pk hpk => absurd hpk (List.not_mem_nil pk)⟩,
        fun _ h => h, rfl⟩
    · obtain ⟨⟨cdisj, cpool⟩, ⟨new1, he1, hn1⟩, cmono⟩ :=
        carts_main_inv env size orders is_prio is_sweeping_time is_running_dry
          ⟨rs.emitted, rs.carts_processed, rs.product_stock, rs.no_space_left⟩
          ⟨hdisj, hpool⟩
      obtain ⟨rdisj, rpool, ⟨new2, he2, hn2⟩, rmono, rbatch⟩ := ih
        { rs with
          emitted := (carts_main env size orders is_prio is_sweeping_time
            is_running_dry ⟨rs.emitted, rs.carts_processed, rs.product_stock,
              rs.no_space_left⟩).emitted
          carts_processed := (carts_main env size orders is_prio
            is_sweeping_time is_running_dry ⟨rs.emitted, rs.carts_processed,
              rs.product_stock, rs.no_space_left⟩).processed_orders
          product_stock := (carts_main env size orders is_prio
            is_sweeping_time is_running_dry ⟨rs.emitted, rs.carts_processed,
              rs.product_stock, rs.no_space_left⟩).product_stock
          no_space_left := (carts_main env size orders is_prio
            is_sweeping_time is_running_dry ⟨rs.emitted, rs.carts_processed,
              rs.product_stock, rs.no_space_left⟩).no_space_left }
        cdisj cpool
      refine ⟨rdisj, rpool, ⟨new1 ++ new2, ?_, ?_⟩, ?_, rbatch⟩
      · rw [he2]
        show (carts_main env size orders is_prio is_sweeping_time
          is_running_dry ⟨rs.emitted, rs.carts_processed, rs.product_stock,
            rs.no_space_left⟩).emitted ++ new2 = _
        rw [he1, List.append_assoc]
      · intro pk hpk sid hs
        rcases List.mem_append.mp hpk with h | h
        · exact ⟨(hn1 pk h sid hs).1, rmono sid (hn1 pk h sid hs).2⟩
        · exact hn2 pk h sid hs
      · intro sid h
        exact rmono sid (cmono sid h)

/-- `picking_creation_batches` preserves disjointness; its new picks cover
bucket ids, all of which land in the carts-processed list. -/
theorem picking_creation_batches_inv (env : Env) (orders : List Order)
    (is_prio is_running_dry : Bool) (rs : RunState)
    (hN : (listSids orders).Nodup)
    (hdisj : pickDisjoint rs.emitted)
    (hbsound : ∀ sid ∈ rs.batch_processed, inEmitted rs.emitted sid)
    (hfresh : ∀ sid ∈ listSids orders, ¬ inEmitted rs.emitted sid) :
    pickDisjoint (picking_creation_batches env orders is_prio
      is_running_dry rs).emitted ∧
    (∃ new, (picking_creation_batches env orders is_prio
        is_running_dry rs).emitted = rs.emitted ++ new ∧
      ∀ pk ∈ new, ∀ sid ∈ pk.sales_orders, sid ∈ listSids orders ∧
        sid ∈ (picking_creation_batches env orders is_prio
          is_running_dry rs).carts_processed) ∧
    (∀ sid ∈ (picking_creation_batches env orders is_prio
        is_running_dry rs).batch_processed,
      inEmitted (picking_creation_batches env orders is_prio
        is_running_dry rs).emitted sid) ∧
    (∀ sid ∈ rs.carts_processed,
      sid ∈ (picking_creation_batches env orders is_prio
        is_running_dry rs).carts_processed) := by
  obtain ⟨kdisj, ksound, ⟨new, hemit, hids⟩, kmono⟩ :=
    batching_main_inv env orders is_prio is_running_dry
      ⟨rs.emitted, rs.batch_processed, rs.product_stock, rs.seni_ids⟩
      hN hdisj hbsound hfresh
  refine ⟨kdisj, ⟨new, hemit, ?_⟩, ksound, ?_⟩
  · intro pk hpk sid hs
    refine ⟨(hids pk hpk sid hs).1, ?_⟩
    exact List.mem_append.mpr (Or.inr (hids pk hpk sid hs).2)
  · intro sid h
    exact List.mem_append.mpr (Or.inl h)

/-- One `picking_creation_manager` pass: emissions stay pairwise disjoint,
new picks are confined to the pass's batch bucket, and the batch-processed
bookkeeping stays sound. -/
theorem picking_creation_manager_inv (env : Env) (is_prio : Bool)
    (batchL seniL cartL : List Order) (is_sweeping is_dry : Bool)
    (rs : RunState)
    (hN : (listSids batchL).Nodup)
    (hseni_sub : ∀ sid ∈ listSids seniL, sid ∈ listSids batchL)
    (hcart_sub : ∀ sid ∈ listSids cartL, sid ∈ listSids batchL)
    (hdisjpools : ∀ sid ∈ listSids seniL, sid ∉ listSids cartL)
    (hdisj : pickDisjoint rs.emitted)
    (hbsound : ∀ sid ∈ rs.batch_processed, inEmitted rs.emitted sid)
    (hfresh : ∀ sid ∈ listSids batchL, ¬ inEmitted rs.emitted sid) :
    pickDisjoint (picking_creation_manager env is_prio batchL seniL cartL
      is_sweeping is_dry rs).emitted ∧
    (∃ new, (picking_creation_manager env is_prio batchL seniL cartL
        is_sweeping is_dry rs).emitted = rs.emitted ++ new ∧
      ∀ pk ∈ new, ∀ sid ∈ pk.sales_orders, sid ∈ listSids batchL) ∧
    (∀ sid ∈ (picking_creation_manager env is_prio batchL seniL cartL
        is_sweeping is_dry rs).batch_processed,
      inEmitted (picking_creation_manager env is_prio batchL seniL cartL
        is_sweeping is_dry rs).emitted sid) := by
  simp only [picking_creation_manager, picking_creation_carts]
  obtain ⟨B1, ⟨new1, he1, hn1⟩, B3, B4⟩ :=
    picking_creation_batches_inv env batchL is_prio is_dry rs hN hdisj
      hbsound hfresh
  have hpool2 : ∀ sid ∈ listSids seniL,
      inEmitted (picking_creation_batches env batchL is_prio is_dry rs).emitted
        sid →
      sid ∈ (picking_creation_batches env batchL is_prio is_dry
        rs).carts_processed := by
    intro sid hs hin
    rw [he1] at hin
    rcases (inEmitted_append _ _ sid).mp hin with h | h
    · exact absurd h (hfresh sid (hseni_sub sid hs))
    · obtain ⟨pk, hpk, hsp⟩ := h
      exact (hn1 pk hpk sid hsp).2
  obtain ⟨C1, C2, ⟨new2, he2, hn2⟩, C4, C5⟩ :=
    picking_creation_carts_go_inv env seniL is_prio is_sweeping is_dry
      packageSizesWithoutXXL
      (picking_creation_batches env batchL is_prio is_dry rs) B1 hpool2
  have hpool3 : ∀ sid ∈ listSids cartL,
      inEmitted (picking_creation_carts_go env seniL is_prio is_sweeping
        is_dry packageSizesWithoutXXL
        (picking_creation_batches env batchL is_prio is_dry rs)).emitted sid →
      sid ∈ (picking_creation_carts_go env seniL is_prio is_sweeping is_dry
        packageSizesWithoutXXL
        (picking_creation_batches env batchL is_prio is_dry
          rs)).carts_processed := by
    intro sid hs hin
    rw [he2, he1, List.append_assoc] at hin
    rcases (inEmitted_append _ _ sid).mp hin with h | h
    · exact absurd h (hfresh sid (hcart_sub sid hs))
    · rcases (inEmitted_append _ _ sid).mp h with h' | h'
      · obtain ⟨pk, hpk, hsp⟩ := h'
        exact C4 sid (hn1 pk hpk sid hsp).2
      · obtain ⟨pk, hpk, hsp⟩ := h'
        exact absurd hs (hdisjpools sid (hn2 pk hpk sid hsp).1)
  obtain ⟨D1, D2, ⟨new3, he3, hn3⟩, D4, D5⟩ :=
    picking_creation_carts_go_inv env cartL is_prio is_sweeping is_dry
      packageSizesWithoutXXL
      (picking_creation_carts_go env seniL is_prio is_sweeping is_dry
        packageSizesWithoutXXL
        (picking_creation_batches env batchL is_prio is_dry rs)) C1 hpool3
  refine ⟨D1, ⟨new1 ++ new2 ++ new3, ?_, ?_⟩, ?_⟩
  · rw [he3, he2, he1]
    simp [List.append_assoc]
  · intro pk hpk sid hs
    rcases List.mem_append.mp hpk with h | h
    · rcases List.mem_append.mp h with h' | h'
      · exact (hn1 pk h' sid hs).1
      · exact hseni_sub sid (hn2 pk h' sid hs).1
    · exact hcart_sub sid (hn3 pk h sid hs).1
  · intro sid h
    rw [D5, C5] at h
    have hB := B3 sid h
    rw [he3, he2, List.append_assoc]
    exact (inEmitted_append _ _ sid).mpr (Or.inl hB)

/-- The whole picking-creation run emits pairwise-disjoint picks when the
queue's sales ids are duplicate free and no roster holds picker id `0`. -/
theorem pulpo_manager_main_disjoint (env : Env) (rosters : Rosters)
    (product_availability : Dict Nat ℚ) (queue : List Order)
    (hq : (listSids queue).Nodup)
    (h0p : 0 ∉ rosters.partnerkunden) (h0l : 0 ∉ rosters.palettenversand) :
    pickDisjoint (pulpo_manager_main env rosters product_availability
      queue).emitted := by
  have SI := separator_main_inv env rosters product_availability queue h0p h0l hq
  obtain ⟨P1, ⟨newA, heA, hnA⟩, P3⟩ := picking_creation_manager_inv env true
    (separator_main env rosters product_availability queue).prio_orders_for_batches
    (separator_main env rosters product_availability queue).seni_prio_orders
    (separator_main env rosters product_availability queue).prio_orders_without_seni
    env.is_sweeping_time
    (decide ((separator_main env rosters product_availability queue).orders_count
      < RUNNING_DRY_NUM_ORDERS))
    ⟨(separator_main env rosters product_availability queue).emitted,
      product_availability, [], [], [], false⟩
    SI.prioB_nodup SI.seniP_sub SI.noseniP_sub SI.seniP_disj SI.disj
    (fun sid h => absurd h (List.not_mem_nil sid))
    (fun sid hs hin => (SI.emitted_not_bucket sid hin).1 hs)
  have hfresh2 : ∀ sid ∈ listSids
      (separator_main env rosters product_availability queue).orders_for_batches,
      ¬ inEmitted (picking_creation_manager env true
        (separator_main env rosters product_availability
          queue).prio_orders_for_batches
        (separator_main env rosters product_availability queue).seni_prio_orders
        (separator_main env rosters product_availability
          queue).prio_orders_without_seni
        env.is_sweeping_time
        (decide ((separator_main env rosters product_availability
          queue).orders_count < RUNNING_DRY_NUM_ORDERS))
        ⟨(separator_main env rosters product_availability queue).emitted,
          product_availability, [], [], [], false⟩).emitted sid := by
    intro sid hs hin
    rw [heA] at hin
    rcases (inEmitted_append _ _ sid).mp hin with h | h
    · exact (SI.emitted_not_bucket sid h).2 hs
    · obtain ⟨pk, hpk, hsp⟩ := h
      exact SI.bucket_disj sid (hnA pk hpk sid hsp) hs
  obtain ⟨Q1, _, _⟩ := picking_creation_manager_inv env false
    (separator_main env rosters product_availability queue).orders_for_batches
    (separator_main env rosters product_availability queue).seni_orders
    (separator_main env rosters product_availability queue).orders_without_seni
    env.is_sweeping_time
    (decide ((separator_main env rosters product_availability queue).orders_count
      < RUNNING_DRY_NUM_ORDERS))
    (picking_creation_manager env true
      (separator_main env rosters product_availability
        queue).prio_orders_for_batches
      (separator_main env rosters product_availability queue).seni_prio_orders
      (separator_main env rosters product_availability
        queue).prio_orders_without_seni
      env.is_sweeping_time
      (decide ((separator_main env rosters product_availability
        queue).orders_count < RUNNING_DRY_NUM_ORDERS))
      ⟨(separator_main env rosters product_availability queue).emitted,
        product_availability, [], [], [], false⟩)
    SI.nonB_nodup SI.seni_sub SI.noseni_sub SI.seni_disj P1 P3 hfresh2
  exact Q1

/-- C2: over one full run of the picking-creation pipeline — the
Separator's single picks, the priority and non-priority batching passes and
the four cart passes — every sales-order id appears in the `sales_orders`
list of at most one emitted picking order, provided the queue's sales ids
are duplicate free and neither picker roster contains the falsy picker
id `0` (a roster entry `0` would make `if picker_id:` treat a posted single
pick as not created and route the order on to the batch planners). -/
theorem no_double_emission (env : Env) (rosters : Rosters)
    (product_availability : Dict Nat ℚ) (queue : List Order)
    (hq : (listSids queue).Nodup)
    (h0p : 0 ∉ rosters.partnerkunden) (h0l : 0 ∉ rosters.palettenversand)
    (sid : Nat) :
    ((pulpo_manager_main env rosters product_availability queue).emitted.countP
      (fun p => p.sales_orders.contains sid)) ≤ 1 :=
  countP_le_one_of_pickDisjoint _
    (pulpo_manager_main_disjoint env rosters product_availability queue
      hq h0p h0l) sid

/-- Witness for C2: the no-double-emission bound at a concrete run over a
two-order queue with rosters `[5]` and `[7]`. -/
theorem no_double_emission_witness :
    (listSids [exOrder 1, exOrder 2]).Nodup ∧
    (0 : Nat) ∉ (Rosters.mk [5] [7]).partnerkunden ∧
    (0 : Nat) ∉ (Rosters.mk [5] [7]).palettenversand ∧
    ((pulpo_manager_main exEnv (Rosters.mk [5] [7]) [(1, 100)]
        [exOrder 1, exOrder 2]).emitted.countP
      (fun p => p.sales_orders.contains 1)) ≤ 1 :=
  ⟨by decide, by decide, by decide,
    no_double_emission exEnv (Rosters.mk [5] [7]) [(1, 100)]
      [exOrder 1, exOrder 2] (by decide) (by decide) (by decide) 1⟩

end Pulpo
